import Mathlib

/-!
# Pool allocation pass (`lib/PoolAllocate/PoolAllocate.cpp`)

A shallow embedding of the pool-assignment and call-graph-threading part of the
pass: the classification of indirect-call targets, the planning of pool
arguments (`FindFunctionPoolArgs`), the cloning of functions with injected pool
descriptor parameters (`MakeFunctionClone`) and the insertion of pool lifetime
code (`CreatePools`, `ProcessFunctionBody`).

Pointers are identities: a `Function*` is the position of the function in the
module's function list, a `DSNode*` is the position of the node in the node
vector of its graph.  The members of the pass object become the fields of the
record `PoolAllocate`, threaded explicitly through every operation.
-/

namespace PoolAlloc

/-! ## Program representation -/

abbrev FuncId := Nat
abbrev NodeId := Nat
abbrev CallSite := Nat

/-- Types of the program.  `PoolDescPtrTy` is the pointer to a pool descriptor
that the pass injects; every other type is kept by an opaque number. -/
inductive Ty where
  | PoolDescPtrTy : Ty
  | VoidTy : Ty
  | UIntTy : Ty
  | VoidPtrTy : Ty
  | other : Nat → Ty
  deriving DecidableEq, Repr

/-- Values that the pass stores in its maps. -/
inductive Value where
  | function : FuncId → Value
  | global : Nat → Value
  | argument : FuncId → Nat → Value
  | alloca : FuncId → Nat → Value
  | body : FuncId → Nat → Value
  deriving DecidableEq, Repr

/-- Members of a node's globals list. -/
inductive GlobalValue where
  | function : FuncId → GlobalValue
  | var : Nat → GlobalValue
  deriving DecidableEq, Repr

/-- Instructions of a basic block, the terminator apart.  Instructions of the
input program are opaque; the other three are the ones `CreatePools` inserts:
the alloca of the descriptor of pool `pd`, the call to `poolinit` and the call
to `pooldestroy`. -/
inductive Instruction where
  | original : Nat → Instruction
  | allocaPD : Nat → Instruction
  | callPoolInit : Nat → Nat → Instruction
  | callPoolDestroy : Nat → Instruction
  deriving DecidableEq, Repr

/-- Terminator of a basic block: a return, or a transfer to successor blocks. -/
inductive Terminator where
  | ret : Terminator
  | branch : List Nat → Terminator
  deriving DecidableEq, Repr

structure BasicBlock where
  insts : List Instruction
  term : Terminator
  deriving DecidableEq, Repr

structure Function where
  name : String
  isExternal : Bool
  returnType : Ty
  paramTypes : List Ty
  isVarArg : Bool
  blocks : List BasicBlock
  deriving DecidableEq, Repr

/-- A module: its functions, in the order of the function list, and the
number of its global variables. -/
structure Module where
  functions : List Function
  numGlobals : Nat
  deriving DecidableEq, Repr

/-- Messages written to the diagnostic stream `std::cerr`. -/
inductive Diag where
  | incompleteNode : CallSite → Diag
  | noTargets : CallSite → Diag
  | nodeCollapsing : String → Diag
  | collapseSummary : Diag
  deriving DecidableEq, Repr

/-! ## Shape-analysis oracle -/

/-- A node of a data structure graph: its flags, the nodes its fields point to
(null links left out), its element type (`none` for the collapsed type
`Type::VoidTy`, `some s` for a type of target size `s`) and its globals. -/
structure DSNode where
  isHeapNode : Bool
  isGlobalNode : Bool
  isIncomplete : Bool
  links : List NodeId
  type : Option Nat
  globals : List GlobalValue
  deriving DecidableEq, Repr

structure DSCallSite where
  isIndirectCall : Bool
  callSite : CallSite
  calleeNode : NodeId
  deriving DecidableEq, Repr

/-- A data structure graph.  `scalarGlobals` lists the node handles of the
scalar-map entries whose key is a global value (`none` for a null handle). -/
structure DSGraph where
  nodes : List DSNode
  scalarGlobals : List (Option NodeId)
  returnNode : Option NodeId
  functionCalls : List DSCallSite
  deriving DecidableEq, Repr

def DSGraph.node (G : DSGraph) (n : NodeId) : Option DSNode := G.nodes[n]?

def DSGraph.links (G : DSGraph) (n : NodeId) : List NodeId :=
  match G.nodes[n]? with
  | some d => d.links
  | none => []

def DSGraph.isHeapNode (G : DSGraph) (n : NodeId) : Bool :=
  match G.nodes[n]? with
  | some d => d.isHeapNode
  | none => false

def DSGraph.isGlobalNode (G : DSGraph) (n : NodeId) : Bool :=
  match G.nodes[n]? with
  | some d => d.isGlobalNode
  | none => false

def DSGraph.isIncomplete (G : DSGraph) (n : NodeId) : Bool :=
  match G.nodes[n]? with
  | some d => d.isIncomplete
  | none => false

def DSGraph.nodeType (G : DSGraph) (n : NodeId) : Option Nat :=
  match G.nodes[n]? with
  | some d => d.type
  | none => none

def DSGraph.globals (G : DSGraph) (n : NodeId) : List GlobalValue :=
  match G.nodes[n]? with
  | some d => d.globals
  | none => []

/-- Modelled from the spec: `DSNode::markReachableNodes` belongs to the shape
analysis and is not under src/.  It adds to the set every node reachable from
the node along points-to links: a node already in the set is left alone,
otherwise it is inserted and its links are followed in turn.  The first
argument bounds the depth of the recursion. -/
def markReachableFuel (G : DSGraph) : Nat → NodeId → List NodeId → List NodeId
  | 0, _, S => S
  | fuel + 1, n, S =>
    if n ∈ S then S
    else (G.links n).foldl (fun acc m => markReachableFuel G fuel m acc) (n :: S)

/-- The recursion of `markReachableNodes` never nests deeper than the number of
nodes of the graph plus one. -/
def markReachableNodes (G : DSGraph) (n : NodeId) (S : List NodeId) : List NodeId :=
  markReachableFuel G (G.nodes.length + 1) n S

/-! ## State of the pass -/

/-- Per-function record `FuncInfo`.  `MarkedNodes` is a hash set, kept as a
duplicate-free list whose order stands for the iteration order of the set. -/
structure FuncInfo where
  MarkedNodes : List NodeId
  Clone : Option FuncId
  ArgNodes : List NodeId
  PoolArgFirst : Int
  PoolArgLast : Int
  PoolDescriptors : List (NodeId × Value)
  NewToOldValueMap : List (Value × Value)
  deriving DecidableEq, Repr

/-- Modelled from the spec: the header that declares `FuncInfo` is not under
src/.  A freshly created entry (what `FunctionInfo[&F]` yields for a function
without an entry) has empty containers, a null clone and a slot range from 0
to 0. -/
def FuncInfo.fresh : FuncInfo :=
  { MarkedNodes := [], Clone := none, ArgNodes := [], PoolArgFirst := 0,
    PoolArgLast := 0, PoolDescriptors := [], NewToOldValueMap := [] }

/-- The members of the pass object. `FuncECs` is the leader map of the
function equivalence classes. -/
structure PoolAllocate where
  CurModule : Module
  FuncECs : FuncId → Option FuncId
  CallSiteTargets : List (CallSite × FuncId)
  EqClass2LastPoolArg : FuncId → Option Int
  FunctionInfo : FuncId → Option FuncInfo
  CollapseFlag : Bool
  cerr : List Diag

/-- The oracle: the top-down graph and the bottom-up graph of every function.
The bottom-up graph is the graph as the planner sees it, after the targets of
indirect calls and the globals graph have been merged in. -/
structure Oracle where
  TD : FuncId → DSGraph
  BU : FuncId → DSGraph

def PoolAllocate.initial (M : Module) : PoolAllocate :=
  { CurModule := M, FuncECs := fun _ => none, CallSiteTargets := [],
    EqClass2LastPoolArg := fun _ => none, FunctionInfo := fun _ => none,
    CollapseFlag := false, cerr := [] }

def PoolAllocate.isExternal (PA : PoolAllocate) (F : FuncId) : Bool :=
  match PA.CurModule.functions[F]? with
  | some f => f.isExternal
  | none => true

def PoolAllocate.getName (PA : PoolAllocate) (F : FuncId) : String :=
  match PA.CurModule.functions[F]? with
  | some f => f.name
  | none => ""

/-- The entry `FunctionInfo[&F]`, created on demand. -/
def PoolAllocate.funcInfo (PA : PoolAllocate) (F : FuncId) : FuncInfo :=
  (PA.FunctionInfo F).getD FuncInfo.fresh

def PoolAllocate.setFuncInfo (PA : PoolAllocate) (F : FuncId) (FI : FuncInfo) :
    PoolAllocate :=
  { PA with FunctionInfo := fun k => if k = F then some FI else PA.FunctionInfo k }

/-! ## Function equivalence classes -/

/-- Modelled from the spec: the class `EquivalenceClasses` is declared outside
src/.  `addElement` makes a function without a class the representative of a
new class. -/
def addElement (ecs : FuncId → Option FuncId) (e : FuncId) : FuncId → Option FuncId :=
  match ecs e with
  | some _ => ecs
  | none => fun k => if k = e then some e else ecs k

/-- Modelled from the spec: `findClass` of `EquivalenceClasses`, the
representative of the class of a function, or null. -/
def findClass (ecs : FuncId → Option FuncId) (e : FuncId) : Option FuncId := ecs e

/-- Modelled from the spec: `unionSetsWith` of `EquivalenceClasses`.  Both
functions are added if they have no class, then the class of the second is
attached to the class of the first, whose representative (the first-seen
candidate) stays the representative of the union. -/
def unionSetsWith (ecs : FuncId → Option FuncId) (e1 e2 : FuncId) :
    FuncId → Option FuncId :=
  let m := addElement (addElement ecs e1) e2
  match m e1, m e2 with
  | some l1, some l2 => fun k => if m k = some l2 then some l1 else m k
  | _, _ => m

/-- The loop over the callees of one indirect call site (lines 102-114):
every function among the globals is recorded for the site and put in the
running class. -/
def classifyCallees (cs : CallSite) :
    List GlobalValue → Option FuncId → PoolAllocate → PoolAllocate
  | [], _, PA => PA
  | GlobalValue.var _ :: rest, running, PA => classifyCallees cs rest running PA
  | GlobalValue.function calledF :: rest, running, PA =>
    let PA1 := { PA with CallSiteTargets := PA.CallSiteTargets ++ [(cs, calledF)] }
    match running with
    | none =>
      classifyCallees cs rest (some calledF)
        { PA1 with FuncECs := addElement PA1.FuncECs calledF }
    | some r =>
      classifyCallees cs rest (some r)
        { PA1 with FuncECs := unionSetsWith PA1.FuncECs r calledF }

/-- The loop over the call sites of one function (lines 91-116). -/
def classifyCallSites (TDG : DSGraph) : List DSCallSite → PoolAllocate → PoolAllocate
  | [], PA => PA
  | CSI :: rest, PA =>
    if CSI.isIndirectCall then
      let DSN := CSI.calleeNode
      let PA1 :=
        if TDG.isIncomplete DSN then
          { PA with cerr := PA.cerr ++ [Diag.incompleteNode CSI.callSite] }
        else PA
      let Callees := TDG.globals DSN
      let PA2 :=
        if Callees.isEmpty then
          { PA1 with cerr := PA1.cerr ++ [Diag.noTargets CSI.callSite] }
        else PA1
      classifyCallSites TDG rest (classifyCallees CSI.callSite Callees none PA2)
    else classifyCallSites TDG rest PA

/-- The loop over the functions of the module (lines 76-117). -/
def classifyFunctions (O : Oracle) : List FuncId → PoolAllocate → PoolAllocate
  | [], PA => PA
  | MI :: rest, PA =>
    if PA.isExternal MI then classifyFunctions O rest PA
    else classifyFunctions O rest (classifyCallSites (O.TD MI) (O.TD MI).functionCalls PA)

def buildIndirectFunctionSets (O : Oracle) (PA : PoolAllocate) : PoolAllocate :=
  classifyFunctions O (List.range PA.CurModule.functions.length) PA

/-! ## Planning -/

/-- The set `NodesFromGlobals` (lines 264-270). -/
def nodesFromGlobals (G : DSGraph) : List NodeId :=
  G.scalarGlobals.foldl
    (fun S gh => match gh with
      | some n => markReachableNodes G n S
      | none => S) []

/-- The loop marking globals and incomplete nodes as live (lines 303-309). -/
def markRoots (G : DSGraph) (fromGlobals : List NodeId) :
    List NodeId → List NodeId → List NodeId
  | [], S => S
  | i :: rest, S =>
    if (G.isIncomplete i || G.isGlobalNode i || decide (i ∈ fromGlobals))
        && G.isHeapNode i then
      markRoots G fromGlobals rest (markReachableNodes G i S)
    else markRoots G fromGlobals rest S

/-- The marking of the returned node (lines 312-314). -/
def markReturn (G : DSGraph) (S : List NodeId) : List NodeId :=
  match G.returnNode with
  | some r => if G.isHeapNode r then markReachableNodes G r S else S
  | none => S

/-- The marking of the live nodes (lines 301-314): the roots, unless the
function is `main`, then the returned node. -/
def markLive (G : DSGraph) (fromGlobals : List NodeId) (name : String)
    (S : List NodeId) : List NodeId :=
  markReturn G
    (if name ≠ "main" then markRoots G fromGlobals (List.range G.nodes.length) S else S)

/-- The initial value of `PoolArgFirst` and `PoolArgLast` (lines 285-294). -/
def firstPoolArg (PA : PoolAllocate) (F : FuncId) : Int :=
  match findClass PA.FuncECs F with
  | none => 0
  | some c =>
    match PA.EqClass2LastPoolArg c with
    | some w => w + 1
    | none => 0

/-- The function `FindFunctionPoolArgs`.  The merging of the graphs of the
targets of indirect calls and of the globals graph (lines 251-258) acts on the
graphs of the oracle; `O.BU F` is the graph once this is done. -/
def FindFunctionPoolArgs (O : Oracle) (PA : PoolAllocate) (F : FuncId) : PoolAllocate :=
  let G := O.BU F
  let NodesFromGlobals := nodesFromGlobals G
  if G.nodes.isEmpty then PA
  else
    let FI0 := PA.funcInfo F
    let first := firstPoolArg PA F
    let FI1 := { FI0 with Clone := none, PoolArgFirst := first, PoolArgLast := first }
    let M2 := markLive G NodesFromGlobals (PA.getName F) FI1.MarkedNodes
    if M2.isEmpty then PA.setFuncInfo F { FI1 with MarkedNodes := M2 }
    else
      let M3 := M2.filter (fun n => G.isHeapNode n)
      let last := FI1.PoolArgLast + (M3.length : Int)
      let FI2 := { FI1 with MarkedNodes := M3, PoolArgLast := last }
      let PA1 := PA.setFuncInfo F FI2
      match findClass PA.FuncECs F with
      | some c =>
        if last ≠ FI2.PoolArgFirst then
          { PA1 with EqClass2LastPoolArg :=
              fun k => if k = c then some (last - 1) else PA.EqClass2LastPoolArg k }
        else PA1
      | none => PA1

/-! ## Cloning -/

/-- The method `insert` of `std::map`: an existing key keeps its value. -/
def mapInsert {α β : Type} [DecidableEq α] (m : List (α × β)) (k : α) (v : β) :
    List (α × β) :=
  if k ∈ m.map Prod.fst then m else m ++ [(k, v)]

/-- The assignment `m[k] = v` of `std::map`: an existing key is overwritten. -/
def mapSet {α β : Type} [DecidableEq α] (m : List (α × β)) (k : α) (v : β) :
    List (α × β) :=
  if k ∈ m.map Prod.fst then m.map (fun e => if e.1 = k then (k, v) else e)
  else m ++ [(k, v)]

def mapFind {α β : Type} [DecidableEq α] (m : List (α × β)) (k : α) : Option β :=
  match m.find? (fun e => decide (e.1 = k)) with
  | some e => some e.2
  | none => none

/-- The assertion of line 393, on the `FuncInfo` of a class member once its
marked nodes have been pushed on `ArgNodes`. -/
def cloneAssertion (FI : FuncInfo) : Bool :=
  decide (((FI.ArgNodes ++ FI.MarkedNodes).length : Int) = FI.PoolArgLast - FI.PoolArgFirst)

/-- The list `ArgTys` of the pool descriptor types to add and the new value of
`FI.ArgNodes` (lines 365-398), or `none` where the function returns null. For a
class member the loop `for (int i = 0; i <= W; ++i)` runs `W + 1` times when
`W + 1` is positive and not at all otherwise. -/
def cloneArgs (PA : PoolAllocate) (F : FuncId) (FI : FuncInfo) :
    Option (List Ty × List NodeId) :=
  match findClass PA.FuncECs F with
  | none =>
    if FI.MarkedNodes.isEmpty then none
    else
      let ArgTys := FI.MarkedNodes.map (fun _ => Ty.PoolDescPtrTy)
      let ArgNodes := FI.ArgNodes ++ FI.MarkedNodes
      if ArgNodes.isEmpty then none else some (ArgTys, ArgNodes)
  | some c =>
    match PA.EqClass2LastPoolArg c with
    | none => none
    | some W =>
      let ArgTys := List.replicate (W + 1).toNat Ty.PoolDescPtrTy
      let ArgNodes := FI.ArgNodes ++ FI.MarkedNodes
      if ArgNodes.isEmpty then none else some (ArgTys, ArgNodes)

/-- The position of the formal of the clone that `NI` points to when the
binding of the nodes starts (lines 421-431 and 443). -/
def firstBoundArg (PA : PoolAllocate) (F : FuncId) (FI : FuncInfo) : Nat :=
  match findClass PA.FuncECs F with
  | some _ => if FI.PoolArgFirst > 0 then FI.PoolArgFirst.toNat else 0
  | none => 0

/-- The insertion of the pairs (node, formal) into `PoolDescriptors`
(lines 432-436 and 444-448). -/
def bindArgNodes (New : FuncId) :
    List NodeId → Nat → List (NodeId × Value) → List (NodeId × Value)
  | [], _, PD => PD
  | n :: rest, pos, PD => bindArgNodes New rest (pos + 1) (mapInsert PD n (Value.argument New pos))

/-- The position of `NI` after the pool descriptor formals have been skipped
(lines 437-440 and 449-452). -/
def firstOldArg (PA : PoolAllocate) (F : FuncId) (ArgNodes : List NodeId) : Nat :=
  match findClass PA.FuncECs F with
  | some c =>
    match PA.EqClass2LastPoolArg c with
    | some W => (W + 1).toNat
    | none => 0
  | none => ArgNodes.length

/-- The entries of the formals of the old function (lines 458-462). -/
def mapOldArgs (F New : FuncId) (pos : Nat) :
    List Nat → List (Value × Value) → List (Value × Value)
  | [], VM => VM
  | i :: rest, VM =>
    mapOldArgs F New pos rest (mapSet VM (Value.argument F i) (Value.argument New (pos + i)))

def mapIdentity (vs : List Value) (VM : List (Value × Value)) : List (Value × Value) :=
  vs.foldl (fun m v => mapSet m v v) VM

/-- The number of values in the body of a function: its blocks and their
instructions, terminators included. -/
def Function.bodySize (f : Function) : Nat :=
  f.blocks.length + (f.blocks.map (fun b => b.insts.length + 1)).sum

/-- Modelled from the spec: `CloneFunctionInto` is a utility of the host
compiler, not under src/.  It copies the body into the new function and maps
every value of the old body to its copy. -/
def CloneFunctionInto (F New : FuncId) (f : Function) (VM : List (Value × Value)) :
    List (Value × Value) :=
  (List.range f.bodySize).foldl (fun m j => mapSet m (Value.body F j) (Value.body New j)) VM

/-- The local `ValueMap` of `MakeFunctionClone` once the cloning is done
(lines 457-472).  `numFuncs` is the number of functions of the module, the
new one included. -/
def cloneValueMap (F New : FuncId) (f : Function) (numArgsNew : Nat) (NIpos : Nat)
    (numFuncs numGlobals : Nat) : List (Value × Value) :=
  let VM0 : List (Value × Value) :=
    if NIpos ≠ numArgsNew then mapOldArgs F New NIpos (List.range f.paramTypes.length) []
    else []
  let VM1 := mapIdentity ((List.range numFuncs).map Value.function) VM0
  let VM2 := mapIdentity ((List.range numGlobals).map Value.global) VM1
  CloneFunctionInto F New f VM2

/-- The inversion of the value map (lines 475-478). -/
def invertValueMap (VM : List (Value × Value)) (NTO : List (Value × Value)) :
    List (Value × Value) :=
  VM.foldl (fun m e => mapInsert m e.2 e.1) NTO

/-- The new function built by `MakeFunctionClone` (lines 403-412 and 472): the
pool descriptor types come first, the body is a copy of the old one. -/
def cloneFunction (f : Function) (ArgTys : List Ty) : Function :=
  { name := f.name, isExternal := false, returnType := f.returnType,
    paramTypes := ArgTys ++ f.paramTypes, isVarArg := f.isVarArg, blocks := f.blocks }

/-- The local `ValueMap` of a call of `MakeFunctionClone` that makes a clone:
the new function is the last of the module, which has one function more. -/
def localValueMap (PA : PoolAllocate) (F : FuncId) (f : Function) (ArgTys : List Ty)
    (ArgNodes : List NodeId) : List (Value × Value) :=
  cloneValueMap F PA.CurModule.functions.length f (cloneFunction f ArgTys).paramTypes.length
    (firstOldArg PA F ArgNodes) (PA.CurModule.functions.length + 1) PA.CurModule.numGlobals

/-- The function `MakeFunctionClone`: the clone, or null, and the state of the
pass afterwards.  The clone is appended to the function list of the module. -/
def MakeFunctionClone (O : Oracle) (PA : PoolAllocate) (F : FuncId) :
    Option FuncId × PoolAllocate :=
  match PA.CurModule.functions[F]? with
  | none => (none, PA)
  | some f =>
    let G := O.BU F
    if G.nodes.isEmpty then (none, PA)
    else
      let FI := PA.funcInfo F
      match cloneArgs PA F FI with
      | none => (none, PA.setFuncInfo F FI)
      | some (ArgTys, ArgNodes) =>
        let New : FuncId := PA.CurModule.functions.length
        let newF := cloneFunction f ArgTys
        let PD := bindArgNodes New ArgNodes (firstBoundArg PA F FI) FI.PoolDescriptors
        let VM := localValueMap PA F f ArgTys ArgNodes
        let FI1 := { FI with ArgNodes := ArgNodes, PoolDescriptors := PD,
                             NewToOldValueMap := invertValueMap VM FI.NewToOldValueMap,
                             Clone := some New }
        let PA1 := { PA with CurModule :=
                      { PA.CurModule with functions := PA.CurModule.functions ++ [newF] } }
        (some New, PA1.setFuncInfo F FI1)

/-! ## Pool lifetime code -/

/-- The blocks under construction and the position of `InsertPoint` among the
instructions of the entry block (the length of the list when `InsertPoint` is
the terminator of the block). -/
structure PoolCode where
  blocks : List BasicBlock
  insertPoint : Nat
  PoolDescriptors : List (NodeId × Value)
  cerr : List Diag
  numPools : Nat

/-- To insert an instruction before `InsertPoint`, in the entry block. -/
def insertAtEntry (x : Instruction) (C : PoolCode) : PoolCode :=
  match C.blocks with
  | [] => C
  | b :: rest =>
    { C with
      blocks := { b with insts := b.insts.take C.insertPoint ++ x :: b.insts.drop C.insertPoint }
                  :: rest,
      insertPoint := C.insertPoint + 1 }

/-- To insert an instruction before the terminator of block `r`.  When the
block is the entry block and `InsertPoint` is its terminator, the new
instruction comes before `InsertPoint` as well. -/
def insertBeforeTerminator (x : Instruction) (r : Nat) (C : PoolCode) : PoolCode :=
  match C.blocks[r]? with
  | none => C
  | some b =>
    { C with
      blocks := C.blocks.set r { b with insts := b.insts ++ [x] },
      insertPoint :=
        if r = 0 ∧ C.insertPoint = b.insts.length then C.insertPoint + 1
        else C.insertPoint }

/-- The blocks whose terminator is a return (lines 494-497). -/
def returnNodes (blocks : List BasicBlock) : List Nat :=
  (List.range blocks.length).filter
    (fun r => match blocks[r]? with
      | some b => decide (b.term = Terminator.ret)
      | none => false)

/-- One round of the loop of `CreatePools` (lines 507-535), for the node at
position `i` of `NodesToPA`. -/
def createPool (G : DSGraph) (fname : String) (NewF : FuncId) (ReturnNodes : List Nat)
    (i : Nat) (Node : NodeId) (C : PoolCode) : PoolCode :=
  let C1 := insertAtEntry (Instruction.allocaPD i) C
  let ElSize : Nat := match G.nodeType Node with
    | some s => s
    | none => 1
  let C2 : PoolCode := match G.nodeType Node with
    | some _ => C1
    | none => { C1 with cerr := C1.cerr ++ [Diag.nodeCollapsing fname] }
  let C3 := insertAtEntry (Instruction.callPoolInit i ElSize) C2
  let C4 := { C3 with numPools := C3.numPools + 1,
                      PoolDescriptors := mapInsert C3.PoolDescriptors Node (Value.alloca NewF i) }
  ReturnNodes.foldl (fun c r => insertBeforeTerminator (Instruction.callPoolDestroy i) r c) C4

def createPoolsLoop (G : DSGraph) (fname : String) (NewF : FuncId) (ReturnNodes : List Nat) :
    Nat → List NodeId → PoolCode → PoolCode
  | _, [], C => C
  | i, Node :: rest, C =>
    createPoolsLoop G fname NewF ReturnNodes (i + 1) rest
      (createPool G fname NewF ReturnNodes i Node C)

/-- The function `CreatePools` on the body of a function: `G` is the graph
the nodes belong to, `fname` the name of the function. -/
def CreatePools (G : DSGraph) (fname : String) (NewF : FuncId) (blocks : List BasicBlock)
    (NodesToPA : List NodeId) (PoolDescriptors : List (NodeId × Value)) : PoolCode :=
  createPoolsLoop G fname NewF (returnNodes blocks) 0 NodesToPA
    { blocks := blocks, insertPoint := 0, PoolDescriptors := PoolDescriptors,
      cerr := [], numPools := 0 }

/-- The nodes to pool allocate locally (lines 557-561). -/
def nodesToPA (G : DSGraph) (MarkedNodes : List NodeId) : List NodeId :=
  (List.range G.nodes.length).filter
    (fun i => G.isHeapNode i && !decide (i ∈ MarkedNodes))

/-- The function `ProcessFunctionBody`, up to the call of `TransformBody`
(which rewrites the instructions of the body and is not under src/). -/
def ProcessFunctionBody (O : Oracle) (PA : PoolAllocate) (F NewF : FuncId) : PoolAllocate :=
  let G := O.BU F
  if G.nodes.isEmpty then PA
  else
    let FI := PA.funcInfo F
    let PA0 := PA.setFuncInfo F FI
    let NodesToPA := nodesToPA G FI.MarkedNodes
    if NodesToPA.isEmpty then PA0
    else
      match PA.CurModule.functions[NewF]? with
      | none => PA0
      | some nf =>
        let C := CreatePools G nf.name NewF nf.blocks NodesToPA FI.PoolDescriptors
        let PA1 := { PA with
          CurModule := { PA.CurModule with
            functions := PA.CurModule.functions.set NewF { nf with blocks := C.blocks } },
          cerr := PA.cerr ++ C.cerr }
        PA1.setFuncInfo F { FI with PoolDescriptors := C.PoolDescriptors }

/-! ## The driver -/

def poolPrototypes : List Function :=
  [ { name := "poolinit", isExternal := true, returnType := Ty.VoidTy,
      paramTypes := [Ty.PoolDescPtrTy, Ty.UIntTy], isVarArg := false, blocks := [] },
    { name := "pooldestroy", isExternal := true, returnType := Ty.VoidTy,
      paramTypes := [Ty.PoolDescPtrTy], isVarArg := false, blocks := [] },
    { name := "poolalloc", isExternal := true, returnType := Ty.VoidPtrTy,
      paramTypes := [Ty.PoolDescPtrTy, Ty.UIntTy], isVarArg := false, blocks := [] },
    { name := "poolfree", isExternal := true, returnType := Ty.VoidTy,
      paramTypes := [Ty.PoolDescPtrTy, Ty.VoidPtrTy], isVarArg := false, blocks := [] } ]

/-- The function `AddPoolPrototypes`: `getOrInsertFunction` appends a
declaration to the module unless the module has a function of that name. -/
def AddPoolPrototypes (M : Module) : Module :=
  poolPrototypes.foldl
    (fun m p => if m.functions.any (fun f => f.name == p.name) then m
                else { m with functions := m.functions ++ [p] }) M

/-- The planning loop of `run` (lines 146-150). -/
def planPhase (O : Oracle) : List FuncId → PoolAllocate → PoolAllocate
  | [], PA => PA
  | I :: rest, PA =>
    if !PA.isExternal I then planPhase O rest (FindFunctionPoolArgs O PA I)
    else planPhase O rest PA

/-- The cloning loop of `run` (lines 156-161), with the local `FuncMap`. -/
def clonePhase (O : Oracle) :
    List FuncId → PoolAllocate × List (FuncId × FuncId) → PoolAllocate × List (FuncId × FuncId)
  | [], S => S
  | I :: rest, (PA, FuncMap) =>
    if !PA.isExternal I then
      match MakeFunctionClone O PA I with
      | (some R, PA1) => clonePhase O rest (PA1, mapSet FuncMap I R)
      | (none, PA1) => clonePhase O rest (PA1, FuncMap)
    else clonePhase O rest (PA, FuncMap)

/-- The rewriting loop of `run` (lines 167-171). -/
def processPhase (O : Oracle) (FuncMap : List (FuncId × FuncId)) :
    List FuncId → PoolAllocate → PoolAllocate
  | [], PA => PA
  | I :: rest, PA =>
    if !PA.isExternal I then
      match mapFind FuncMap I with
      | some R => processPhase O FuncMap rest (ProcessFunctionBody O PA I R)
      | none => processPhase O FuncMap rest (ProcessFunctionBody O PA I I)
    else processPhase O FuncMap rest PA

/-- The state of the pass when the cloning loop starts. -/
def planned (O : Oracle) (M : Module) : PoolAllocate :=
  let PA := buildIndirectFunctionSets O (PoolAllocate.initial (AddPoolPrototypes M))
  planPhase O (List.range PA.CurModule.functions.length) PA

/-- The state of the pass and `FuncMap` when the rewriting loop starts. -/
def cloned (O : Oracle) (M : Module) : PoolAllocate × List (FuncId × FuncId) :=
  let PA := planned O M
  clonePhase O (List.range PA.CurModule.functions.length) (PA, [])

/-- The function `run`: its result and the state of the pass at the end. -/
def run (O : Oracle) (M : Module) : Bool × PoolAllocate :=
  if M.functions.isEmpty then (false, PoolAllocate.initial M)
  else
    let n := (planned O M).CurModule.functions.length
    let S := cloned O M
    let PA := processPhase O S.2 (List.range n) S.1
    let PA1 := if PA.CollapseFlag then { PA with cerr := PA.cerr ++ [Diag.collapseSummary] }
               else PA
    (true, PA1)

/-! ## Inlining of the targets of indirect calls -/

/-- The two sets of `InlineIndirectCalls`, the member `InlinedFuncs` of the
pass and the set `visited` of the current sequence of calls, with two records
kept for the statements: the functions the walk was executed with, in the
order of the calls, and the calls of `mergeInGraph` (the function whose graph
receives, the call site, the target).  `mergeInGraph` belongs to the shape
analysis and is not under src/; with the flags `DontCloneCallNodes` and
`DontCloneAuxCallNodes` it leaves the call sites of the receiving graph as
they are. -/
structure InlineState where
  InlinedFuncs : List FuncId
  visited : List FuncId
  walked : List FuncId
  merged : List (FuncId × CallSite × FuncId)
  deriving DecidableEq, Repr

/-- The targets recorded for a call site (`CallSiteTargets.equal_range`). -/
def callSiteTargets (PA : PoolAllocate) (CS : CallSite) : List FuncId :=
  (PA.CallSiteTargets.filter (fun e => decide (e.1 = CS))).map Prod.snd

/-- The loop over the targets of one indirect call site (lines 224-239).
`walk` is the recursive call of `InlineIndirectCalls`. -/
def inlineTargets (walk : FuncId → InlineState → Option InlineState) (PA : PoolAllocate)
    (F : FuncId) (CS : CallSite) : List FuncId → InlineState → Option InlineState
  | [], S => some S
  | T :: rest, S =>
    if !PA.isExternal T then
      match (if T ∉ S.InlinedFuncs ∧ T ∉ S.visited then walk T S else some S) with
      | none => none
      | some S1 =>
        inlineTargets walk PA F CS rest { S1 with merged := S1.merged ++ [(F, CS, T)] }
    else inlineTargets walk PA F CS rest S

/-- The loop over the call sites of the graph (lines 217-241). -/
def inlineCallSites (walk : FuncId → InlineState → Option InlineState) (PA : PoolAllocate)
    (F : FuncId) : List DSCallSite → InlineState → Option InlineState
  | [], S => some S
  | CSI :: rest, S =>
    if CSI.isIndirectCall then
      match inlineTargets walk PA F CSI.callSite (callSiteTargets PA CSI.callSite) S with
      | none => none
      | some S1 => inlineCallSites walk PA F rest S1
    else inlineCallSites walk PA F rest S

/-- The function `InlineIndirectCalls` for the function `F` and its graph
`O.BU F`.  The first argument bounds the depth of the recursion: the result is
`none` when the bound is reached. -/
def InlineIndirectCalls (O : Oracle) (PA : PoolAllocate) :
    Nat → FuncId → InlineState → Option InlineState
  | 0, _, _ => none
  | fuel + 1, F, S =>
    match inlineCallSites (fun T S1 => InlineIndirectCalls O PA fuel T S1) PA F
        (O.BU F).functionCalls
        { S with visited := S.visited.insert F, walked := S.walked ++ [F] } with
    | none => none
    | some S1 => some { S1 with InlinedFuncs := S1.InlinedFuncs.insert F }

/-- The calls of `InlineIndirectCalls` that the planning loop of `run` causes:
`FindFunctionPoolArgs` starts the walk at every function with a body, with an
empty set `visited` (lines 254-255). -/
def planInlining (O : Oracle) (PA : PoolAllocate) (fuel : Nat) :
    List FuncId → InlineState → Option InlineState
  | [], S => some S
  | I :: rest, S =>
    if !PA.isExternal I then
      match InlineIndirectCalls O PA fuel I { S with visited := [] } with
      | none => none
      | some S1 => planInlining O PA fuel rest S1
    else planInlining O PA fuel rest S

/-! ## The calls made by the driver -/

/-- A call made by one of the three loops of `run`. -/
inductive Call where
  | plan : FuncId → Call
  | clone : FuncId → Call
  | process : FuncId → FuncId → Call
  deriving DecidableEq, Repr

/-- The calls of `FindFunctionPoolArgs` made by the planning loop. -/
def planPhaseLog (O : Oracle) : List FuncId → PoolAllocate → List Call
  | [], _ => []
  | I :: rest, PA =>
    if !PA.isExternal I then Call.plan I :: planPhaseLog O rest (FindFunctionPoolArgs O PA I)
    else planPhaseLog O rest PA

/-- The calls of `MakeFunctionClone` made by the cloning loop. -/
def clonePhaseLog (O : Oracle) : List FuncId → PoolAllocate → List Call
  | [], _ => []
  | I :: rest, PA =>
    if !PA.isExternal I then Call.clone I :: clonePhaseLog O rest (MakeFunctionClone O PA I).2
    else clonePhaseLog O rest PA

/-- The calls of `ProcessFunctionBody` made by the rewriting loop. -/
def processPhaseLog (O : Oracle) (FuncMap : List (FuncId × FuncId)) :
    List FuncId → PoolAllocate → List Call
  | [], _ => []
  | I :: rest, PA =>
    if !PA.isExternal I then
      match mapFind FuncMap I with
      | some R => Call.process I R :: processPhaseLog O FuncMap rest (ProcessFunctionBody O PA I R)
      | none => Call.process I I :: processPhaseLog O FuncMap rest (ProcessFunctionBody O PA I I)
    else processPhaseLog O FuncMap rest PA

/-- The calls made by `run`, in the order in which they are made. -/
def runLog (O : Oracle) (M : Module) : List Call :=
  if M.functions.isEmpty then []
  else
    let PA0 := buildIndirectFunctionSets O (PoolAllocate.initial (AddPoolPrototypes M))
    let n := PA0.CurModule.functions.length
    let S := cloned O M
    planPhaseLog O (List.range n) PA0 ++ clonePhaseLog O (List.range n) (planned O M) ++
      processPhaseLog O S.2 (List.range n) S.1

/-! ## Example programs -/

/-- A function with a body of one block that returns. -/
def exFunction (nm : String) (params : List Ty) : Function :=
  { name := nm, isExternal := false, returnType := Ty.other 0, paramTypes := params,
    isVarArg := false,
    blocks := [{ insts := [Instruction.original 0], term := Terminator.ret }] }

/-- A module of three functions: `f` and `g` are the targets of an indirect
call in `h`. -/
def exModule : Module :=
  { functions := [exFunction "f" [Ty.other 1], exFunction "g" [Ty.other 1, Ty.other 2],
                  exFunction "h" []],
    numGlobals := 1 }

def exHeapNode (ls : List NodeId) : DSNode :=
  { isHeapNode := true, isGlobalNode := false, isIncomplete := false, links := ls,
    type := some 8, globals := [] }

def exEmptyGraph : DSGraph :=
  { nodes := [], scalarGlobals := [], returnNode := none, functionCalls := [] }

/-- The top-down graphs of the example: `h` calls through a pointer to `f`
or `g`. -/
def exTD (k : FuncId) : DSGraph :=
  if k = 2 then
    { nodes := [{ isHeapNode := false, isGlobalNode := true, isIncomplete := false,
                  links := [], type := none,
                  globals := [GlobalValue.function 0, GlobalValue.function 1] }],
      scalarGlobals := [], returnNode := none,
      functionCalls := [{ isIndirectCall := true, callSite := 7, calleeNode := 0 }] }
  else exEmptyGraph

/-- In this oracle `f` returns a heap node; `g` and `h` have one heap node
each, which does not escape. -/
def exOracle : Oracle :=
  { TD := exTD,
    BU := fun k =>
      if k = 0 then
        { nodes := [exHeapNode []], scalarGlobals := [], returnNode := some 0,
          functionCalls := [] }
      else
        { nodes := [exHeapNode []], scalarGlobals := [], returnNode := none,
          functionCalls := [] } }

/-- In this oracle `f` returns a heap node and `g` returns a heap node that
points to a second one. -/
def exOracle2 : Oracle :=
  { TD := exTD,
    BU := fun k =>
      if k = 0 then
        { nodes := [exHeapNode []], scalarGlobals := [], returnNode := some 0,
          functionCalls := [] }
      else if k = 1 then
        { nodes := [exHeapNode [1], exHeapNode []], scalarGlobals := [],
          returnNode := some 0, functionCalls := [] }
      else
        { nodes := [exHeapNode []], scalarGlobals := [], returnNode := none,
          functionCalls := [] } }

/-- The state of the pass on the example once the classes are built. -/
def exClassified : PoolAllocate :=
  buildIndirectFunctionSets exOracle (PoolAllocate.initial (AddPoolPrototypes exModule))

/-- A graph whose node 0 is incomplete, is not a heap node and points to the
heap node 1. -/
def exArgGraph : DSGraph :=
  { nodes := [{ isHeapNode := false, isGlobalNode := false, isIncomplete := true,
                links := [1], type := some 4, globals := [] },
              exHeapNode []],
    scalarGlobals := [], returnNode := none, functionCalls := [] }

/-- A graph whose only node is a heap node that is global and incomplete. -/
def exGlobalGraph : DSGraph :=
  { nodes := [{ isHeapNode := true, isGlobalNode := true, isIncomplete := true,
                links := [], type := some 4, globals := [GlobalValue.var 0] }],
    scalarGlobals := [some 0], returnNode := none, functionCalls := [] }

/-- A module with the functions `f`, `main` and `g`. -/
def exMainModule : Module :=
  { functions := [exFunction "f" [], exFunction "main" [], exFunction "g" []],
    numGlobals := 1 }

/-- The graph of `f` is `exArgGraph`, the graph of `main` and the graph of `g`
are `exGlobalGraph`. -/
def exMainOracle : Oracle :=
  { TD := fun _ => exEmptyGraph,
    BU := fun k => if k = 0 then exArgGraph else exGlobalGraph }

/-- A body with a branch and two returns: the entry block goes to block 1 or
block 2, which both return. -/
def exBranchBlocks : List BasicBlock :=
  [ { insts := [Instruction.original 0], term := Terminator.branch [1, 2] },
    { insts := [Instruction.original 1], term := Terminator.ret },
    { insts := [], term := Terminator.ret } ]

/-- In this oracle every function has one heap node, which does not escape:
no function has a live node. -/
def exLocalOracle : Oracle :=
  { TD := exTD,
    BU := fun _ =>
      { nodes := [exHeapNode []], scalarGlobals := [], returnNode := none,
        functionCalls := [] } }

/-- A graph of two heap nodes: the type of node 0 has size 8, the type of
node 1 is collapsed. -/
def exCollapsedGraph : DSGraph :=
  { nodes := [exHeapNode [],
              { isHeapNode := true, isGlobalNode := false, isIncomplete := false, links := [],
                type := none, globals := [] }],
    scalarGlobals := [], returnNode := none, functionCalls := [] }

/-- A function without a body. -/
def exDeclaration : Function :=
  { name := "g", isExternal := true, returnType := Ty.other 0,
    paramTypes := [Ty.other 1], isVarArg := false, blocks := [] }

/-- A module of three functions where `g` is a declaration: `f` and `g` are
the targets of the indirect call in `h`. -/
def exExtModule : Module :=
  { functions := [exFunction "f" [Ty.other 1], exDeclaration, exFunction "h" []],
    numGlobals := 1 }

/-- A graph with one node, whose globals are the given functions, and one
indirect call site through that node. -/
def exCallGraph (cs : CallSite) (targets : List FuncId) : DSGraph :=
  { nodes := [{ isHeapNode := false, isGlobalNode := true, isIncomplete := false,
                links := [], type := none, globals := targets.map GlobalValue.function }],
    scalarGlobals := [], returnNode := none,
    functionCalls := [{ isIndirectCall := true, callSite := cs, calleeNode := 0 }] }

/-- A module with the functions `h`, `f` and `g`, in this order. -/
def exChainModule : Module :=
  { functions := [exFunction "h" [], exFunction "f" [], exFunction "g" []], numGlobals := 0 }

/-- The function `h` calls `f` through a pointer at the call site 7, and `f`
calls `g` through a pointer at the call site 9, in the top-down graphs and in
the bottom-up graphs alike. -/
def exChainOracle : Oracle :=
  { TD := fun k => if k = 0 then exCallGraph 7 [1] else if k = 1 then exCallGraph 9 [2]
                   else exEmptyGraph,
    BU := fun k => if k = 0 then exCallGraph 7 [1] else if k = 1 then exCallGraph 9 [2]
                   else exEmptyGraph }

/-- The state of the pass on this module when the planning loop starts. -/
def exChainClassified : PoolAllocate :=
  buildIndirectFunctionSets exChainOracle (PoolAllocate.initial (AddPoolPrototypes exChainModule))

/-- A module with the functions `a` and `b`. -/
def exCycleModule : Module :=
  { functions := [exFunction "a" [], exFunction "b" []], numGlobals := 0 }

/-- The function `a` calls `a` or `b` through a pointer at the call site 1,
and `b` calls `a` through a pointer at the call site 2. -/
def exCycleOracle : Oracle :=
  { TD := fun k => if k = 0 then exCallGraph 1 [0, 1] else if k = 1 then exCallGraph 2 [0]
                   else exEmptyGraph,
    BU := fun k => if k = 0 then exCallGraph 1 [0, 1] else if k = 1 then exCallGraph 2 [0]
                   else exEmptyGraph }

def exCycleClassified : PoolAllocate :=
  buildIndirectFunctionSets exCycleOracle (PoolAllocate.initial (AddPoolPrototypes exCycleModule))

/-- The sets of the inlining when the planning loop starts. -/
def exInlineStart : InlineState :=
  { InlinedFuncs := [], visited := [], walked := [], merged := [] }

/-- In this oracle `f` returns a heap node and the graph of `g` has no node. -/
def exNoNodesOracle : Oracle :=
  { TD := exTD,
    BU := fun k =>
      if k = 0 then
        { nodes := [exHeapNode []], scalarGlobals := [], returnNode := some 0,
          functionCalls := [] }
      else if k = 1 then exEmptyGraph
      else
        { nodes := [exHeapNode []], scalarGlobals := [], returnNode := none,
          functionCalls := [] } }

/-! ## Auxiliary definitions for the statements -/

/-- The set that `FindFunctionPoolArgs` leaves in `MarkedNodes` when the graph
of the function has nodes. -/
def liveNodes (O : Oracle) (PA : PoolAllocate) (F : FuncId) : List NodeId :=
  let G := O.BU F
  (markLive G (nodesFromGlobals G) (PA.getName F) (PA.funcInfo F).MarkedNodes).filter
    (fun n => G.isHeapNode n)

/-- The live set recorded for a function. -/
def PoolAllocate.marked (PA : PoolAllocate) (F : FuncId) : List NodeId :=
  (PA.funcInfo F).MarkedNodes

/-- Two functions are in the same function equivalence class: both have a
class and `findClass` gives the same representative. -/
def SameClass (ecs : FuncId → Option FuncId) (a b : FuncId) : Prop :=
  findClass ecs a ≠ none ∧ findClass ecs a = findClass ecs b

/-- A set of nodes that holds the targets of the links of its members. -/
def Closed (G : DSGraph) (S : List NodeId) : Prop :=
  ∀ v ∈ S, ∀ m ∈ G.links v, m ∈ S

/-- Reachability along points-to links. -/
inductive Reach (G : DSGraph) : NodeId → NodeId → Prop where
  | refl (a : NodeId) : Reach G a a
  | step {a b c : NodeId} : Reach G a b → c ∈ G.links b → Reach G a c

/-- The number of nodes of the graph that are not in the set. -/
def unvisited (G : DSGraph) (S : List NodeId) : Nat :=
  ((List.range G.nodes.length).filter (fun v => decide (v ∉ S))).length

/-- The element size that `CreatePools` gives to `poolinit` for a node. -/
def elSize (G : DSGraph) (Node : NodeId) : Nat :=
  match G.nodeType Node with
  | some s => s
  | none => 1

/-- The entry block has no instruction but its terminator, which is a return:
the one case where `InsertPoint` is the terminator that the destroys precede. -/
def entryIsBareReturn (blocks : List BasicBlock) : Bool :=
  match blocks[0]? with
  | some b => b.insts.isEmpty && decide (b.term = Terminator.ret)
  | none => false

/-- The code put before `InsertPoint` for the nodes of a list, the first of
which has position `i`: for each node the alloca and the call to `poolinit`,
and the call to `pooldestroy` as well when `bare` holds. -/
def entryPrefix (G : DSGraph) (bare : Bool) : Nat → List NodeId → List Instruction
  | _, [] => []
  | i, n :: rest =>
    Instruction.allocaPD i :: Instruction.callPoolInit i (elSize G n) ::
      ((if bare then [Instruction.callPoolDestroy i] else []) ++
        entryPrefix G bare (i + 1) rest)

/-- The calls to `pooldestroy` for the nodes of a list, the first of which has
position `i`. -/
def exitCode : Nat → List NodeId → List Instruction
  | _, [] => []
  | i, _ :: rest => Instruction.callPoolDestroy i :: exitCode (i + 1) rest

/-- The block at position `r` once `P` has been put before `InsertPoint` and
`Q` before the terminator of every returning block. -/
def pooledBlock (bare : Bool) (P Q : List Instruction) (r : Nat) (b : BasicBlock) :
    BasicBlock :=
  { insts := (if r = 0 then P else []) ++ b.insts ++
      (if b.term = Terminator.ret ∧ ¬ (r = 0 ∧ bare = true) then Q else []),
    term := b.term }

def isPoolInit (i : Nat) (x : Instruction) : Bool :=
  match x with
  | Instruction.callPoolInit j _ => decide (j = i)
  | _ => false

def isPoolDestroy (i : Nat) (x : Instruction) : Bool :=
  match x with
  | Instruction.callPoolDestroy j => decide (j = i)
  | _ => false

def isAnyPoolDestroy (x : Instruction) : Bool :=
  match x with
  | Instruction.callPoolDestroy _ => true
  | _ => false

/-- Every instruction of the blocks is an instruction of the input program. -/
def OriginalOnly (blocks : List BasicBlock) : Prop :=
  ∀ b ∈ blocks, ∀ x ∈ b.insts, ∃ k, x = Instruction.original k

/-- The successors of a block. -/
def successors (blocks : List BasicBlock) (r : Nat) : List Nat :=
  match blocks[r]? with
  | some b =>
    match b.term with
    | Terminator.branch l => l
    | Terminator.ret => []
  | none => []

/-- No block branches to the entry block. -/
def EntryHasNoPredecessor (blocks : List BasicBlock) : Prop :=
  ∀ r, 0 ∉ successors blocks r

/-- A path from the entry block to a block that returns. -/
def IsEntryToReturnPath (blocks : List BasicBlock) (p : List Nat) : Prop :=
  p.head? = some 0 ∧ List.Chain' (fun a b => b ∈ successors blocks a) p ∧
    ∃ last b, p.getLast? = some last ∧ blocks[last]? = some b ∧ b.term = Terminator.ret

/-- The instructions of the block at a position, the terminator left out. -/
def blockInsts (blocks : List BasicBlock) (r : Nat) : List Instruction :=
  match blocks[r]? with
  | some b => b.insts
  | none => []

/-- The instructions executed along a path, the terminators left out. -/
def pathTrace (blocks : List BasicBlock) (p : List Nat) : List Instruction :=
  p.flatMap (blockInsts blocks)

/-- The block with one more instruction before its terminator. -/
def appendInst (x : Instruction) (b : BasicBlock) : BasicBlock :=
  { b with insts := b.insts ++ [x] }

/-- The state of the loop of `CreatePools` over the blocks `B`, with `P` put
before `InsertPoint` and `Q` before the returns. -/
def PoolCodeRep (B : List BasicBlock) (C : PoolCode) (P Q : List Instruction) : Prop :=
  C.blocks.length = B.length ∧
    (∀ r b, B[r]? = some b →
      C.blocks[r]? = some (pooledBlock (entryIsBareReturn B) P Q r b)) ∧
    (B ≠ [] → C.insertPoint = P.length)

/-- What the planning phase maintains: the watermarks are not negative; the
slot range of a class member with live nodes starts at 0 or above and ends at
the watermark of its class or below; no function has bound nodes, pool
descriptors or a value map yet. -/
def PlanInv (PA : PoolAllocate) : Prop :=
  (∀ c w, PA.EqClass2LastPoolArg c = some w → 0 ≤ w) ∧
  (∀ F c, findClass PA.FuncECs F = some c → PA.marked F ≠ [] →
    ∃ W, PA.EqClass2LastPoolArg c = some W ∧ 0 ≤ (PA.funcInfo F).PoolArgFirst ∧
      (PA.funcInfo F).PoolArgFirst + ((PA.marked F).length : Int) ≤ W + 1) ∧
  (∀ F, (PA.funcInfo F).ArgNodes = [] ∧ (PA.funcInfo F).PoolDescriptors = [] ∧
    (PA.funcInfo F).NewToOldValueMap = [])

/-- The pool descriptor types that `MakeFunctionClone` puts in front of the
parameter types of a function it clones. -/
def injectedTys (PA : PoolAllocate) (F : FuncId) : List Ty :=
  match findClass PA.FuncECs F with
  | none => List.replicate (PA.marked F).length Ty.PoolDescPtrTy
  | some c =>
    match PA.EqClass2LastPoolArg c with
    | some W => List.replicate (W + 1).toNat Ty.PoolDescPtrTy
    | none => []

/-- The function `N` is the clone that the cloning phase made of `F`, from
the state `P0` left by the planning phase. -/
def ClonedAs (P0 PA : PoolAllocate) (F N : FuncId) : Prop :=
  P0.CurModule.functions.length ≤ N ∧
  (∃ f, PA.CurModule.functions[F]? = some f ∧
    PA.CurModule.functions[N]? = some (cloneFunction f (injectedTys P0 F))) ∧
  P0.marked F ≠ [] ∧
  (PA.funcInfo F).Clone = some N ∧ (PA.funcInfo F).ArgNodes = P0.marked F ∧
  (PA.funcInfo F).PoolDescriptors =
    bindArgNodes N (P0.marked F) (firstBoundArg P0 F (P0.funcInfo F)) []

/-- What the cloning phase maintains, from the state `P0` left by the planning
phase: the classes, the watermarks, the live sets and the slot ranges are
those of `P0`; the functions of `P0` are still there; a function without an
entry in `FuncMap` has the `FuncInfo` of `P0`; an entry of `FuncMap` is a clone
as described by `ClonedAs`; no two functions share a clone. -/
def CloneInv (P0 PA : PoolAllocate) (FM : List (FuncId × FuncId)) : Prop :=
  PA.FuncECs = P0.FuncECs ∧ PA.EqClass2LastPoolArg = P0.EqClass2LastPoolArg ∧
  (∃ ext, PA.CurModule.functions = P0.CurModule.functions ++ ext) ∧
  (∀ F, (PA.funcInfo F).MarkedNodes = (P0.funcInfo F).MarkedNodes ∧
    (PA.funcInfo F).PoolArgFirst = (P0.funcInfo F).PoolArgFirst ∧
    (PA.funcInfo F).PoolArgLast = (P0.funcInfo F).PoolArgLast) ∧
  (∀ F, mapFind FM F = none → PA.funcInfo F = P0.funcInfo F) ∧
  (∀ F N, mapFind FM F = some N → ClonedAs P0 PA F N) ∧
  (∀ F1 F2 N, mapFind FM F1 = some N → mapFind FM F2 = some N → F1 = F2)

/-- The insertion into a map of pool descriptors of the nodes of a list, the
node at position `j` getting the value `mk (pos + j)`. -/
def bindWith (mk : Nat → Value) : List NodeId → Nat → List (NodeId × Value) →
    List (NodeId × Value)
  | [], _, PD => PD
  | n :: rest, pos, PD => bindWith mk rest (pos + 1) (mapInsert PD n (mk pos))

/-- The function that the rewriting loop of `run` passes to
`ProcessFunctionBody` with `F`: its clone if it has one, else `F` itself. -/
def newOf (FuncMap : List (FuncId × FuncId)) (F : FuncId) : FuncId :=
  match mapFind FuncMap F with
  | some R => R
  | none => F

/-- The slot that the planning gives next in a class: the watermark of the
class plus one, or 0 when the class has no watermark. -/
def nextSlot (PA : PoolAllocate) (c : FuncId) : Int :=
  match PA.EqClass2LastPoolArg c with
  | some w => w + 1
  | none => 0

/-- The sum of the numbers of live nodes of the members of the class `c` among
the first `n` functions of the module. -/
def classLive (PA : PoolAllocate) (c : FuncId) : Nat → Int
  | 0 => 0
  | n + 1 =>
    classLive PA c n +
      (if findClass PA.FuncECs n = some c then ((PA.marked n).length : Int) else 0)

/-- What the planning loop maintains when the first `n` functions have been
visited: the functions not yet visited have no `FuncInfo` entry; the next slot
of a class is the sum of the live nodes of its members; the slot range of a
class member with live nodes starts at the sum of the live nodes of the
members before it; the length of a slot range is the number of live nodes. -/
def TileInv (PA : PoolAllocate) (n : Nat) : Prop :=
  (∀ F : Nat, n ≤ F → PA.FunctionInfo F = none) ∧
  (∀ c, nextSlot PA c = classLive PA c n) ∧
  (∀ (F : Nat) (c : FuncId), findClass PA.FuncECs F = some c → PA.marked F ≠ [] →
    (PA.funcInfo F).PoolArgFirst = classLive PA c F) ∧
  (∀ F, (PA.funcInfo F).PoolArgLast =
    (PA.funcInfo F).PoolArgFirst + ((PA.marked F).length : Int))

/-- The diagnostics of `CreatePools` for the nodes of a list: one message
naming the function for every node whose type is collapsed. -/
def collapseDiags (G : DSGraph) (fname : String) : List NodeId → List Diag
  | [] => []
  | n :: rest =>
    (match G.nodeType n with
      | some _ => []
      | none => [Diag.nodeCollapsing fname]) ++ collapseDiags G fname rest

/-- The pairs recorded for a call site with the given globals of its callee
node: one for every function among them, in their order. -/
def calleeTargets (cs : CallSite) : List GlobalValue → List (CallSite × FuncId)
  | [] => []
  | GlobalValue.function f :: rest => (cs, f) :: calleeTargets cs rest
  | GlobalValue.var _ :: rest => calleeTargets cs rest

/-- The functions of a module that have a body, by position, in the order of
the module. -/
def bodyFunctions (M : Module) : List FuncId :=
  (List.range M.functions.length).filter
    (fun I => match M.functions[I]? with
      | some f => !f.isExternal
      | none => false)

/-- The number of functions of the module that are not in the set. -/
def unvisitedFuncs (PA : PoolAllocate) (V : List FuncId) : Nat :=
  ((List.range PA.CurModule.functions.length).filter (fun v => decide (v ∉ V))).length

/-- Between the states `S` and `S'` the walk was executed with the functions
of `w`, in this order: they are distinct functions of the module, none was in
`visited`, and `visited` has grown by them. -/
def Walked (PA : PoolAllocate) (S S' : InlineState) (w : List FuncId) : Prop :=
  S'.walked = S.walked ++ w ∧ w.Nodup ∧
  (∀ x ∈ w, x ∉ S.visited ∧ x < PA.CurModule.functions.length) ∧
  (∀ x, x ∈ S'.visited ↔ x ∈ S.visited ∨ x ∈ w)

/-- The entries of the local value map of a call of `MakeFunctionClone`, in
the order in which they are made: the formals of the function, sent to the
formals of the clone from the position `pos` on; the functions and the globals
of the module, sent to themselves; the values of the body, sent to their
copies. -/
def valueMapEntries (F New : FuncId) (f : Function) (pos numFuncs numGlobals : Nat) :
    List (Value × Value) :=
  (List.range f.paramTypes.length).map
      (fun i => (Value.argument F i, Value.argument New (pos + i))) ++
    (List.range numFuncs).map (fun k => (Value.function k, Value.function k)) ++
    (List.range numGlobals).map (fun g => (Value.global g, Value.global g)) ++
    (List.range f.bodySize).map (fun j => (Value.body F j, Value.body New j))

/-! ## Planning: frame and summary lemmas -/

theorem funcInfo_setFuncInfo_same (PA : PoolAllocate) (F : FuncId) (FI : FuncInfo) :
    (PA.setFuncInfo F FI).funcInfo F = FI := by
  simp [PoolAllocate.funcInfo, PoolAllocate.setFuncInfo]

theorem funcInfo_setFuncInfo_ne (PA : PoolAllocate) (F k : FuncId) (FI : FuncInfo)
    (h : k ≠ F) : (PA.setFuncInfo F FI).funcInfo k = PA.funcInfo k := by
  simp [PoolAllocate.funcInfo, PoolAllocate.setFuncInfo, h]

theorem FindFunctionPoolArgs_FuncECs (O : Oracle) (PA : PoolAllocate) (F : FuncId) :
    (FindFunctionPoolArgs O PA F).FuncECs = PA.FuncECs := by
  unfold FindFunctionPoolArgs
  cases findClass PA.FuncECs F <;> simp only [] <;> split_ifs <;> rfl

theorem FindFunctionPoolArgs_CurModule (O : Oracle) (PA : PoolAllocate) (F : FuncId) :
    (FindFunctionPoolArgs O PA F).CurModule = PA.CurModule := by
  unfold FindFunctionPoolArgs
  cases findClass PA.FuncECs F <;> simp only [] <;> split_ifs <;> rfl

theorem FindFunctionPoolArgs_funcInfo_ne (O : Oracle) (PA : PoolAllocate) (F k : FuncId)
    (h : k ≠ F) : (FindFunctionPoolArgs O PA F).funcInfo k = PA.funcInfo k := by
  unfold FindFunctionPoolArgs
  cases findClass PA.FuncECs F <;> simp only [] <;> split_ifs <;>
    simp [PoolAllocate.funcInfo, PoolAllocate.setFuncInfo, h]

theorem filter_eq_nil_of_isEmpty {α : Type} (p : α → Bool) (l : List α)
    (h : l.isEmpty = true) : l.filter p = [] := by
  cases l with
  | nil => rfl
  | cons a t => simp at h

theorem isEmpty_false_of_ne_nil {α : Type} (l : List α) (h : l ≠ []) :
    l.isEmpty = false := by
  cases l with
  | nil => exact absurd rfl h
  | cons a t => rfl

/-- The `FuncInfo` of a planned function. -/
theorem FindFunctionPoolArgs_funcInfo (O : Oracle) (PA : PoolAllocate) (F : FuncId)
    (hG : (O.BU F).nodes ≠ []) :
    (FindFunctionPoolArgs O PA F).funcInfo F =
      { PA.funcInfo F with
        Clone := none
        MarkedNodes := liveNodes O PA F
        PoolArgFirst := firstPoolArg PA F
        PoolArgLast := firstPoolArg PA F + ((liveNodes O PA F).length : Int) } := by
  have hE := isEmpty_false_of_ne_nil _ hG
  unfold FindFunctionPoolArgs liveNodes
  simp only [hE]
  generalize markLive (O.BU F) (nodesFromGlobals (O.BU F)) (PA.getName F)
    (PA.funcInfo F).MarkedNodes = M2
  cases M2 with
  | nil => simp [funcInfo_setFuncInfo_same]
  | cons a t =>
    simp only [List.isEmpty_cons, Bool.false_eq_true, if_false]
    cases findClass PA.FuncECs F <;> simp only [] <;> (try split_ifs) <;>
      simp [PoolAllocate.funcInfo, PoolAllocate.setFuncInfo]

/-- The watermarks after the planning of a function. -/
theorem FindFunctionPoolArgs_watermark (O : Oracle) (PA : PoolAllocate) (F : FuncId)
    (hG : (O.BU F).nodes ≠ []) (k : FuncId) :
    (FindFunctionPoolArgs O PA F).EqClass2LastPoolArg k =
      if findClass PA.FuncECs F = some k ∧ liveNodes O PA F ≠ [] then
        some (firstPoolArg PA F + ((liveNodes O PA F).length : Int) - 1)
      else PA.EqClass2LastPoolArg k := by
  have hE := isEmpty_false_of_ne_nil _ hG
  have hlen : ∀ l : List NodeId, ((l.length : Int) = 0) ↔ l = [] := by
    intro l
    cases l with
    | nil => simp
    | cons a t => simp; omega
  unfold FindFunctionPoolArgs liveNodes
  simp only [hE]
  generalize markLive (O.BU F) (nodesFromGlobals (O.BU F)) (PA.getName F)
    (PA.funcInfo F).MarkedNodes = M2
  cases M2 with
  | nil => simp [PoolAllocate.setFuncInfo]
  | cons a t =>
    generalize hL : List.filter (fun n => (O.BU F).isHeapNode n) (a :: t) = L
    cases hc : findClass PA.FuncECs F with
    | none => simp [PoolAllocate.setFuncInfo]
    | some c =>
      by_cases hl : L = []
      · simp [PoolAllocate.setFuncInfo, hl]
      · have : ((L.length : Int)) ≠ 0 := fun h => hl ((hlen _).mp h)
        by_cases hk : k = c
        · subst hk
          simp [PoolAllocate.setFuncInfo, this, hl]
        · have hk2 : ¬ c = k := fun h => hk h.symm
          simp [PoolAllocate.setFuncInfo, this, hl, hk, hk2]

/-! ## Slot assignment (C4) -/

/-- C4, as the code has it: when `FindFunctionPoolArgs` plans a function whose
graph has nodes, with `k` live nodes, a function without a class gets the
range from 0 to `k`; a class member starts one past the watermark of its class
(at 0 when the class has none), ends `k` further, and the watermark becomes
the last slot of the range when `k` is positive, that is it advances by `k`,
and is left as it was when `k` is 0. -/
theorem C4_slot_range_and_watermark (O : Oracle) (PA : PoolAllocate) (F : FuncId)
    (hG : (O.BU F).nodes ≠ []) :
    (findClass PA.FuncECs F = none →
      ((FindFunctionPoolArgs O PA F).funcInfo F).PoolArgFirst = 0 ∧
      ((FindFunctionPoolArgs O PA F).funcInfo F).PoolArgLast =
        (((FindFunctionPoolArgs O PA F).funcInfo F).MarkedNodes.length : Int)) ∧
    (∀ c, findClass PA.FuncECs F = some c →
      (∀ w, PA.EqClass2LastPoolArg c = some w →
        ((FindFunctionPoolArgs O PA F).funcInfo F).PoolArgFirst = w + 1) ∧
      (PA.EqClass2LastPoolArg c = none →
        ((FindFunctionPoolArgs O PA F).funcInfo F).PoolArgFirst = 0) ∧
      ((FindFunctionPoolArgs O PA F).funcInfo F).PoolArgLast =
        ((FindFunctionPoolArgs O PA F).funcInfo F).PoolArgFirst +
          (((FindFunctionPoolArgs O PA F).funcInfo F).MarkedNodes.length : Int) ∧
      (0 < ((FindFunctionPoolArgs O PA F).funcInfo F).MarkedNodes.length →
        (FindFunctionPoolArgs O PA F).EqClass2LastPoolArg c =
          some (((FindFunctionPoolArgs O PA F).funcInfo F).PoolArgFirst +
            (((FindFunctionPoolArgs O PA F).funcInfo F).MarkedNodes.length : Int) - 1)) ∧
      (∀ w, 0 < ((FindFunctionPoolArgs O PA F).funcInfo F).MarkedNodes.length →
        PA.EqClass2LastPoolArg c = some w →
        (FindFunctionPoolArgs O PA F).EqClass2LastPoolArg c =
          some (w + (((FindFunctionPoolArgs O PA F).funcInfo F).MarkedNodes.length : Int))) ∧
      (((FindFunctionPoolArgs O PA F).funcInfo F).MarkedNodes.length = 0 →
        (FindFunctionPoolArgs O PA F).EqClass2LastPoolArg c = PA.EqClass2LastPoolArg c)) := by
  rw [FindFunctionPoolArgs_funcInfo O PA F hG]
  simp only [FindFunctionPoolArgs_watermark O PA F hG]
  refine ⟨fun hc => ?_, fun c hc => ⟨fun w hw => ?_, fun hw => ?_, trivial, fun hk => ?_,
    fun w hk hw => ?_, fun hk => ?_⟩⟩
  · simp [firstPoolArg, hc]
  · simp [firstPoolArg, hc, hw]
  · simp [firstPoolArg, hc, hw]
  · have hne : liveNodes O PA F ≠ [] := List.ne_nil_of_length_pos hk
    simp [hc, hne]
  · have hne : liveNodes O PA F ≠ [] := List.ne_nil_of_length_pos hk
    simp only [hc, hne, ne_eq, not_false_eq_true, and_self, if_true, firstPoolArg, hw]
    congr 1
    omega
  · have he : liveNodes O PA F = [] := List.length_eq_zero.mp hk
    simp [he]

/-- C4 at the example: `g` is planned after `f` has put the watermark of
their class at 0; its two live nodes get the slots 1 and 2. -/
theorem C4_slot_range_and_watermark_witness :
    (exOracle2.BU 1).nodes ≠ [] ∧
    ((FindFunctionPoolArgs exOracle2 (FindFunctionPoolArgs exOracle2 exClassified 0) 1).funcInfo
        1).PoolArgFirst = 1 ∧
    (FindFunctionPoolArgs exOracle2 (FindFunctionPoolArgs exOracle2 exClassified 0)
        1).EqClass2LastPoolArg 0 = some 2 :=
  ⟨by decide,
   ((C4_slot_range_and_watermark exOracle2 (FindFunctionPoolArgs exOracle2 exClassified 0) 1
      (by decide)).2 0 (by decide)).1 0 (by decide),
   ((C4_slot_range_and_watermark exOracle2 (FindFunctionPoolArgs exOracle2 exClassified 0) 1
      (by decide)).2 0 (by decide)).2.2.2.2.1 0 (by decide) (by decide)⟩

/-- C4 fails for a function whose graph has no node: `g` is in the class of
`f`, whose watermark is 0 once `f` is planned; `FindFunctionPoolArgs` returns
at line 276 before it assigns the slot range, so `PoolArgFirst` of `g` is 0
and not one past the watermark.  The planning loop of a run leaves the
same. -/
theorem C4_counterexample :
    findClass (FindFunctionPoolArgs exNoNodesOracle exClassified 0).FuncECs 1 = some 0 ∧
      (FindFunctionPoolArgs exNoNodesOracle exClassified 0).EqClass2LastPoolArg 0 = some 0 ∧
      (exNoNodesOracle.BU 1).nodes = [] ∧
      ¬ ((FindFunctionPoolArgs exNoNodesOracle
          (FindFunctionPoolArgs exNoNodesOracle exClassified 0) 1).funcInfo 1).PoolArgFirst =
        0 + 1 ∧
      ((FindFunctionPoolArgs exNoNodesOracle
          (FindFunctionPoolArgs exNoNodesOracle exClassified 0) 1).funcInfo 1).PoolArgFirst = 0 ∧
      findClass (planned exNoNodesOracle exModule).FuncECs 1 = some 0 ∧
      (planned exNoNodesOracle exModule).EqClass2LastPoolArg 0 = some 0 ∧
      ((planned exNoNodesOracle exModule).funcInfo 1).PoolArgFirst = 0 := by
  decide

/-! ## Classification of indirect call targets (C9) -/

theorem SameClass.symm {ecs : FuncId → Option FuncId} {a b : FuncId}
    (h : SameClass ecs a b) : SameClass ecs b a :=
  ⟨fun hb => h.1 (h.2.trans hb), h.2.symm⟩

theorem SameClass.trans {ecs : FuncId → Option FuncId} {a b c : FuncId}
    (h1 : SameClass ecs a b) (h2 : SameClass ecs b c) : SameClass ecs a c :=
  ⟨h1.1, h1.2.trans h2.2⟩

theorem addElement_sameClass (ecs : FuncId → Option FuncId) (e a b : FuncId)
    (h : SameClass ecs a b) : SameClass (addElement ecs e) a b := by
  unfold addElement
  cases he : ecs e with
  | some l => exact h
  | none =>
    obtain ⟨h1, h2⟩ := h
    unfold findClass at h1 h2
    have ha : a ≠ e := fun hae => h1 (hae ▸ he)
    have hb : b ≠ e := fun hbe => h1 (h2.trans (hbe ▸ he))
    constructor
    · simpa [findClass, ha] using h1
    · simpa [findClass, ha, hb] using h2

theorem addElement_self (ecs : FuncId → Option FuncId) (e : FuncId) :
    SameClass (addElement ecs e) e e := by
  unfold addElement
  cases he : ecs e with
  | some l => exact ⟨by simp [findClass, he], rfl⟩
  | none => exact ⟨by simp [findClass], rfl⟩

theorem unionSetsWith_sameClass (ecs : FuncId → Option FuncId) (e1 e2 a b : FuncId)
    (h : SameClass ecs a b) : SameClass (unionSetsWith ecs e1 e2) a b := by
  have hm := addElement_sameClass _ e2 a b (addElement_sameClass ecs e1 a b h)
  unfold unionSetsWith
  simp only []
  generalize addElement (addElement ecs e1) e2 = m at hm
  obtain ⟨h1, h2⟩ := hm
  unfold findClass at h1 h2
  cases hm1 : m e1 with
  | none => exact ⟨h1, h2⟩
  | some l1 =>
    cases hm2 : m e2 with
    | none => exact ⟨h1, h2⟩
    | some l2 =>
      show (if m a = some l2 then some l1 else m a) ≠ none ∧
        (if m a = some l2 then some l1 else m a) = (if m b = some l2 then some l1 else m b)
      constructor
      · by_cases hc : m a = some l2
        · simp [hc]
        · simpa [hc] using h1
      · rw [← h2]

theorem unionSetsWith_joins (ecs : FuncId → Option FuncId) (e1 e2 : FuncId) :
    SameClass (unionSetsWith ecs e1 e2) e1 e2 := by
  have h1 : SameClass (addElement (addElement ecs e1) e2) e1 e1 :=
    addElement_sameClass _ e2 e1 e1 (addElement_self ecs e1)
  have h2 : SameClass (addElement (addElement ecs e1) e2) e2 e2 := addElement_self _ e2
  unfold unionSetsWith
  simp only []
  generalize addElement (addElement ecs e1) e2 = m at h1 h2
  cases hm1 : m e1 with
  | none => exact absurd hm1 h1.1
  | some l1 =>
    cases hm2 : m e2 with
    | none => exact absurd hm2 h2.1
    | some l2 =>
      simp only [SameClass, findClass, hm1, hm2]
      by_cases hc : l1 = l2
      · simp [hc]
      · simp [hc]

theorem classifyCallees_CurModule (cs : CallSite) (l : List GlobalValue)
    (running : Option FuncId) (PA : PoolAllocate) :
    (classifyCallees cs l running PA).CurModule = PA.CurModule := by
  induction l generalizing running PA with
  | nil => rfl
  | cons g rest ih =>
    cases g with
    | var v => exact ih running PA
    | function f =>
      cases running with
      | none => simp only [classifyCallees]; rw [ih]
      | some r => simp only [classifyCallees]; rw [ih]

theorem classifyCallees_sameClass (cs : CallSite) (l : List GlobalValue)
    (running : Option FuncId) (PA : PoolAllocate) (a b : FuncId)
    (h : SameClass PA.FuncECs a b) :
    SameClass (classifyCallees cs l running PA).FuncECs a b := by
  induction l generalizing running PA with
  | nil => exact h
  | cons g rest ih =>
    cases g with
    | var v => exact ih running PA h
    | function f =>
      cases running with
      | none =>
        simp only [classifyCallees]
        exact ih _ _ (addElement_sameClass _ _ _ _ h)
      | some r =>
        simp only [classifyCallees]
        exact ih _ _ (unionSetsWith_sameClass _ _ _ _ _ h)

/-- With a running class, every callee ends in the class of its first member. -/
theorem classifyCallees_running (cs : CallSite) (l : List GlobalValue) (r : FuncId)
    (PA : PoolAllocate) (hr : SameClass PA.FuncECs r r) (f : FuncId)
    (hf : GlobalValue.function f ∈ l) :
    SameClass (classifyCallees cs l (some r) PA).FuncECs r f := by
  induction l generalizing PA with
  | nil => simp at hf
  | cons g rest ih =>
    cases g with
    | var v =>
      have hf2 : GlobalValue.function f ∈ rest := by simpa using hf
      exact ih PA hr hf2
    | function f0 =>
      simp only [classifyCallees]
      rcases List.mem_cons.mp hf with h0 | hrest
      · have hEq : f = f0 := by injection h0
        subst hEq
        exact classifyCallees_sameClass _ _ _ _ _ _ (unionSetsWith_joins _ _ _)
      · exact ih _ (unionSetsWith_sameClass _ _ _ _ _ hr) hrest

/-- Any two callees of one site end in the same class. -/
theorem classifyCallees_joins (cs : CallSite) (l : List GlobalValue) (PA : PoolAllocate)
    (f1 f2 : FuncId) (h1 : GlobalValue.function f1 ∈ l) (h2 : GlobalValue.function f2 ∈ l) :
    SameClass (classifyCallees cs l none PA).FuncECs f1 f2 := by
  induction l generalizing PA with
  | nil => simp at h1
  | cons g rest ih =>
    cases g with
    | var v =>
      have h1r : GlobalValue.function f1 ∈ rest := by simpa using h1
      have h2r : GlobalValue.function f2 ∈ rest := by simpa using h2
      exact ih PA h1r h2r
    | function f0 =>
      simp only [classifyCallees]
      have key : ∀ f, GlobalValue.function f ∈ GlobalValue.function f0 :: rest →
          SameClass (classifyCallees cs rest (some f0)
            { CurModule := PA.CurModule, FuncECs := addElement PA.FuncECs f0,
              CallSiteTargets := PA.CallSiteTargets ++ [(cs, f0)],
              EqClass2LastPoolArg := PA.EqClass2LastPoolArg,
              FunctionInfo := PA.FunctionInfo, CollapseFlag := PA.CollapseFlag,
              cerr := PA.cerr }).FuncECs f0 f := by
        intro f hf
        rcases List.mem_cons.mp hf with h0 | hrest
        · have hEq : f = f0 := by injection h0
          subst hEq
          exact classifyCallees_sameClass _ _ _ _ _ _ (addElement_self _ _)
        · exact classifyCallees_running _ _ _ _ (addElement_self _ _) _ hrest
      exact (key f1 h1).symm.trans (key f2 h2)

theorem classifyCallSites_CurModule (TDG : DSGraph) (l : List DSCallSite)
    (PA : PoolAllocate) : (classifyCallSites TDG l PA).CurModule = PA.CurModule := by
  induction l generalizing PA with
  | nil => rfl
  | cons c rest ih =>
    simp only [classifyCallSites]
    split_ifs <;> simp [ih, classifyCallees_CurModule]

theorem classifyCallSites_sameClass (TDG : DSGraph) (l : List DSCallSite)
    (PA : PoolAllocate) (a b : FuncId) (h : SameClass PA.FuncECs a b) :
    SameClass (classifyCallSites TDG l PA).FuncECs a b := by
  induction l generalizing PA with
  | nil => exact h
  | cons c rest ih =>
    simp only [classifyCallSites]
    split_ifs
    all_goals first
      | exact ih _ (classifyCallees_sameClass _ _ _ _ _ _ h)
      | exact ih _ h

theorem classifyCallSites_joins (TDG : DSGraph) (l : List DSCallSite) (PA : PoolAllocate)
    (CSI : DSCallSite) (hC : CSI ∈ l) (hI : CSI.isIndirectCall = true) (f1 f2 : FuncId)
    (h1 : GlobalValue.function f1 ∈ TDG.globals CSI.calleeNode)
    (h2 : GlobalValue.function f2 ∈ TDG.globals CSI.calleeNode) :
    SameClass (classifyCallSites TDG l PA).FuncECs f1 f2 := by
  induction l generalizing PA with
  | nil => simp at hC
  | cons c rest ih =>
    rcases List.mem_cons.mp hC with h0 | hrest
    · subst h0
      simp only [classifyCallSites, hI, if_true]
      exact classifyCallSites_sameClass _ _ _ _ _ (classifyCallees_joins _ _ _ _ _ h1 h2)
    · simp only [classifyCallSites]
      split_ifs <;> exact ih _ hrest

theorem classifyFunctions_CurModule (O : Oracle) (l : List FuncId) (PA : PoolAllocate) :
    (classifyFunctions O l PA).CurModule = PA.CurModule := by
  induction l generalizing PA with
  | nil => rfl
  | cons c rest ih =>
    simp only [classifyFunctions]
    split_ifs <;> simp [ih, classifyCallSites_CurModule]

theorem classifyFunctions_sameClass (O : Oracle) (l : List FuncId) (PA : PoolAllocate)
    (a b : FuncId) (h : SameClass PA.FuncECs a b) :
    SameClass (classifyFunctions O l PA).FuncECs a b := by
  induction l generalizing PA with
  | nil => exact h
  | cons c rest ih =>
    simp only [classifyFunctions]
    split_ifs
    · exact ih _ h
    · exact ih _ (classifyCallSites_sameClass _ _ _ _ _ h)

theorem classifyFunctions_joins (O : Oracle) (l : List FuncId) (PA : PoolAllocate)
    (F : FuncId) (hF : F ∈ l) (hB : PA.isExternal F = false)
    (CSI : DSCallSite) (hC : CSI ∈ (O.TD F).functionCalls) (hI : CSI.isIndirectCall = true)
    (f1 f2 : FuncId)
    (h1 : GlobalValue.function f1 ∈ (O.TD F).globals CSI.calleeNode)
    (h2 : GlobalValue.function f2 ∈ (O.TD F).globals CSI.calleeNode) :
    SameClass (classifyFunctions O l PA).FuncECs f1 f2 := by
  induction l generalizing PA with
  | nil => simp at hF
  | cons c rest ih =>
    have hext : ∀ PA1 : PoolAllocate, PA1.CurModule = PA.CurModule →
        PA1.isExternal F = false := by
      intro PA1 hm
      simpa [PoolAllocate.isExternal, hm] using hB
    rcases List.mem_cons.mp hF with h0 | hrest
    · subst h0
      simp only [classifyFunctions, hB]
      exact classifyFunctions_sameClass _ _ _ _ _
        (classifyCallSites_joins _ _ _ CSI hC hI f1 f2 h1 h2)
    · simp only [classifyFunctions]
      split_ifs
      · exact ih _ hrest hB
      · exact ih _ hrest (hext _ (classifyCallSites_CurModule _ _ _))

/-- C9: after `buildIndirectFunctionSets`, for every indirect call site of a
function with a body, any two functions among the globals of the callee node
of the site have the same class, and each has a class (a single candidate is
the case of the two being the same function). -/
theorem C9_candidates_share_class (O : Oracle) (PA : PoolAllocate) (F : FuncId)
    (CSI : DSCallSite) (f1 f2 : FuncId)
    (hF : F < PA.CurModule.functions.length) (hB : PA.isExternal F = false)
    (hC : CSI ∈ (O.TD F).functionCalls) (hI : CSI.isIndirectCall = true)
    (h1 : GlobalValue.function f1 ∈ (O.TD F).globals CSI.calleeNode)
    (h2 : GlobalValue.function f2 ∈ (O.TD F).globals CSI.calleeNode) :
    findClass (buildIndirectFunctionSets O PA).FuncECs f1 =
        findClass (buildIndirectFunctionSets O PA).FuncECs f2 ∧
      findClass (buildIndirectFunctionSets O PA).FuncECs f1 ≠ none ∧
      findClass (buildIndirectFunctionSets O PA).FuncECs f2 ≠ none := by
  have h := classifyFunctions_joins O (List.range PA.CurModule.functions.length) PA F
    (List.mem_range.mpr hF) hB CSI hC hI f1 f2 h1 h2
  exact ⟨h.2, h.1, h.symm.1⟩

/-- C9 at the example: `f` and `g`, the two candidates of the call in `h`,
end in one class. -/
theorem C9_candidates_share_class_witness :
    findClass exClassified.FuncECs 0 = findClass exClassified.FuncECs 1 ∧
      findClass exClassified.FuncECs 0 ≠ none ∧ findClass exClassified.FuncECs 1 ≠ none :=
  C9_candidates_share_class exOracle (PoolAllocate.initial (AddPoolPrototypes exModule)) 2
    { isIndirectCall := true, callSite := 7, calleeNode := 0 } 0 1
    (by decide) (by decide) (by decide) (by decide) (by decide) (by decide)

/-! ## Reachability marking -/

theorem filter_notMem_length_le (l S S' : List NodeId) (h : S ⊆ S') :
    (l.filter (fun v => decide (v ∉ S'))).length ≤
      (l.filter (fun v => decide (v ∉ S))).length := by
  induction l with
  | nil => simp
  | cons a t ih =>
    by_cases h1 : a ∈ S
    · have h2 : a ∈ S' := h h1
      simpa [List.filter_cons, h1, h2] using ih
    · by_cases h2 : a ∈ S'
      · simp only [List.filter_cons, h1, h2, not_true_eq_false, decide_False,
          not_false_eq_true, decide_True, if_true, List.length_cons]
        simp only [Bool.false_eq_true, if_false]
        omega
      · simpa [List.filter_cons, h1, h2] using ih

theorem filter_notMem_length_lt (l S : List NodeId) (n : NodeId) (hn : n ∈ l)
    (hS : n ∉ S) :
    (l.filter (fun v => decide (v ∉ n :: S))).length <
      (l.filter (fun v => decide (v ∉ S))).length := by
  induction l with
  | nil => simp at hn
  | cons a t ih =>
    by_cases ha : a = n
    · subst ha
      have hle := filter_notMem_length_le t S (a :: S) (List.subset_cons_self a S)
      have e1 : (a :: t).filter (fun v => decide (v ∉ a :: S)) =
          t.filter (fun v => decide (v ∉ a :: S)) := by
        rw [List.filter_cons]; simp
      have e2 : (a :: t).filter (fun v => decide (v ∉ S)) =
          a :: t.filter (fun v => decide (v ∉ S)) := by
        rw [List.filter_cons]; simp [hS]
      rw [e1, e2, List.length_cons]
      omega
    · have hn2 : n ∈ t := by
        rcases List.mem_cons.mp hn with h | h
        · exact absurd h.symm ha
        · exact h
      have ih2 := ih hn2
      by_cases h1 : a ∈ S
      · simpa [List.filter_cons, h1, ha] using ih2
      · simpa [List.filter_cons, h1, ha] using ih2

theorem unvisited_mono (G : DSGraph) (S S' : List NodeId) (h : S ⊆ S') :
    unvisited G S' ≤ unvisited G S :=
  filter_notMem_length_le _ S S' h

theorem unvisited_lt (G : DSGraph) (S : List NodeId) (n : NodeId)
    (hn : n < G.nodes.length) (hS : n ∉ S) : unvisited G (n :: S) < unvisited G S :=
  filter_notMem_length_lt _ S n (List.mem_range.mpr hn) hS

theorem unvisited_le_length (G : DSGraph) (S : List NodeId) :
    unvisited G S ≤ G.nodes.length := by
  unfold unvisited
  calc ((List.range G.nodes.length).filter (fun v => decide (v ∉ S))).length
      ≤ (List.range G.nodes.length).length := List.length_filter_le _ _
    _ = G.nodes.length := List.length_range _

theorem lt_length_of_links_ne_nil (G : DSGraph) (n : NodeId) (h : G.links n ≠ []) :
    n < G.nodes.length := by
  by_contra hlt
  have hnone : G.nodes[n]? = none := List.getElem?_eq_none (Nat.le_of_not_lt hlt)
  exact h (by simp [DSGraph.links, hnone])

theorem lt_length_of_isHeapNode (G : DSGraph) (n : NodeId) (h : G.isHeapNode n = true) :
    n < G.nodes.length := by
  by_contra hlt
  have hnone : G.nodes[n]? = none := List.getElem?_eq_none (Nat.le_of_not_lt hlt)
  simp [DSGraph.isHeapNode, hnone] at h

/-- With enough fuel the marking keeps the set, adds the node, and holds the
link targets of every node it adds. -/
theorem markReachableFuel_spec (G : DSGraph) (fuel : Nat) :
    ∀ (n : NodeId) (S : List NodeId), unvisited G S < fuel →
      S ⊆ markReachableFuel G fuel n S ∧ n ∈ markReachableFuel G fuel n S ∧
      (∀ v ∈ markReachableFuel G fuel n S, v ∉ S →
        ∀ m ∈ G.links v, m ∈ markReachableFuel G fuel n S) := by
  induction fuel with
  | zero => intro n S h; exact absurd h (Nat.not_lt_zero _)
  | succ fuel ihf =>
    intro n S h
    have fold : ∀ (L acc : List NodeId), unvisited G acc < fuel →
        acc ⊆ L.foldl (fun a m => markReachableFuel G fuel m a) acc ∧
        (∀ m ∈ L, m ∈ L.foldl (fun a m => markReachableFuel G fuel m a) acc) ∧
        (∀ v ∈ L.foldl (fun a m => markReachableFuel G fuel m a) acc, v ∉ acc →
          ∀ m ∈ G.links v, m ∈ L.foldl (fun a m => markReachableFuel G fuel m a) acc) := by
      intro L
      induction L with
      | nil =>
        intro acc _
        exact ⟨fun _ hx => hx, fun m hm => absurd hm (List.not_mem_nil m),
          fun v hv hna => absurd hv hna⟩
      | cons m0 L ihL =>
        intro acc hacc
        obtain ⟨h1, h2, h3⟩ := ihf m0 acc hacc
        have hacc1 : unvisited G (markReachableFuel G fuel m0 acc) < fuel :=
          Nat.lt_of_le_of_lt (unvisited_mono G _ _ h1) hacc
        obtain ⟨k1, k2, k3⟩ := ihL (markReachableFuel G fuel m0 acc) hacc1
        simp only [List.foldl_cons]
        refine ⟨fun x hx => k1 (h1 hx), ?_, ?_⟩
        · intro m hm
          rcases List.mem_cons.mp hm with h0 | hr
          · subst h0; exact k1 h2
          · exact k2 m hr
        · intro v hv hna m hm
          by_cases hv1 : v ∈ markReachableFuel G fuel m0 acc
          · exact k1 (h3 v hv1 hna m hm)
          · exact k3 v hv hv1 m hm
    unfold markReachableFuel
    by_cases hn : n ∈ S
    · rw [if_pos hn]
      exact ⟨fun _ hx => hx, hn, fun v hv hna => absurd hv hna⟩
    · rw [if_neg hn]
      by_cases hl : G.links n = []
      · simp only [hl, List.foldl_nil]
        refine ⟨List.subset_cons_self n S, List.mem_cons_self n S, ?_⟩
        intro v hv hna m hm
        rcases List.mem_cons.mp hv with h0 | hr
        · subst h0; rw [hl] at hm; exact absurd hm (List.not_mem_nil m)
        · exact absurd hr hna
      · have hlt := lt_length_of_links_ne_nil G n hl
        have hacc : unvisited G (n :: S) < fuel := by
          have := unvisited_lt G S n hlt hn
          omega
        obtain ⟨f1, f2, f3⟩ := fold (G.links n) (n :: S) hacc
        refine ⟨fun x hx => f1 (List.mem_cons_of_mem n hx), f1 (List.mem_cons_self n S), ?_⟩
        intro v hv hna m hm
        by_cases hvn : v = n
        · subst hvn; exact f2 m hm
        · have : v ∉ n :: S := by
            intro hc
            rcases List.mem_cons.mp hc with h0 | hr
            · exact hvn h0
            · exact hna hr
          exact f3 v hv this m hm

theorem markReachableNodes_spec (G : DSGraph) (n : NodeId) (S : List NodeId) :
    S ⊆ markReachableNodes G n S ∧ n ∈ markReachableNodes G n S ∧
      (∀ v ∈ markReachableNodes G n S, v ∉ S →
        ∀ m ∈ G.links v, m ∈ markReachableNodes G n S) :=
  markReachableFuel_spec G (G.nodes.length + 1) n S
    (Nat.lt_succ_of_le (unvisited_le_length G S))

theorem markReachableNodes_closed (G : DSGraph) (n : NodeId) (S : List NodeId)
    (h : Closed G S) : Closed G (markReachableNodes G n S) := by
  obtain ⟨h1, _, h3⟩ := markReachableNodes_spec G n S
  intro v hv m hm
  by_cases hS : v ∈ S
  · exact h1 (h v hS m hm)
  · exact h3 v hv hS m hm

theorem Closed.reach {G : DSGraph} {S : List NodeId} (h : Closed G S) {a b : NodeId}
    (ha : a ∈ S) (hr : Reach G a b) : b ∈ S := by
  induction hr with
  | refl => exact ha
  | step _ hl ih => exact h _ ih _ hl

theorem closed_nil (G : DSGraph) : Closed G [] :=
  fun v hv => absurd hv (List.not_mem_nil v)

theorem markRoots_spec (G : DSGraph) (fg : List NodeId) :
    ∀ (l S : List NodeId), Closed G S →
      Closed G (markRoots G fg l S) ∧ S ⊆ markRoots G fg l S ∧
      (∀ i ∈ l, ((G.isIncomplete i || G.isGlobalNode i || decide (i ∈ fg))
          && G.isHeapNode i) = true → i ∈ markRoots G fg l S) := by
  intro l
  induction l with
  | nil =>
    intro S hS
    exact ⟨hS, fun _ hx => hx, fun i hi => absurd hi (List.not_mem_nil i)⟩
  | cons a t ih =>
    intro S hS
    unfold markRoots
    by_cases hc : ((G.isIncomplete a || G.isGlobalNode a || decide (a ∈ fg))
        && G.isHeapNode a) = true
    · rw [if_pos hc]
      obtain ⟨m1, m2, _⟩ := markReachableNodes_spec G a S
      obtain ⟨k1, k2, k3⟩ := ih _ (markReachableNodes_closed G a S hS)
      refine ⟨k1, fun x hx => k2 (m1 hx), ?_⟩
      intro i hi hci
      rcases List.mem_cons.mp hi with h0 | hr
      · subst h0; exact k2 m2
      · exact k3 i hr hci
    · rw [if_neg hc]
      obtain ⟨k1, k2, k3⟩ := ih S hS
      refine ⟨k1, k2, ?_⟩
      intro i hi hci
      rcases List.mem_cons.mp hi with h0 | hr
      · subst h0; exact absurd hci hc
      · exact k3 i hr hci

theorem foldGlobals_spec (G : DSGraph) :
    ∀ (l : List (Option NodeId)) (S : List NodeId), Closed G S →
      Closed G (l.foldl (fun S gh => match gh with
        | some n => markReachableNodes G n S
        | none => S) S) ∧
      S ⊆ l.foldl (fun S gh => match gh with
        | some n => markReachableNodes G n S
        | none => S) S ∧
      (∀ g, some g ∈ l → g ∈ l.foldl (fun S gh => match gh with
        | some n => markReachableNodes G n S
        | none => S) S) := by
  intro l
  induction l with
  | nil =>
    intro S hS
    exact ⟨hS, fun _ hx => hx, fun g hg => absurd hg (List.not_mem_nil _)⟩
  | cons a t ih =>
    intro S hS
    simp only [List.foldl_cons]
    cases a with
    | none =>
      obtain ⟨k1, k2, k3⟩ := ih S hS
      refine ⟨k1, k2, ?_⟩
      intro g hg
      rcases List.mem_cons.mp hg with h0 | hr
      · cases h0
      · exact k3 g hr
    | some n =>
      obtain ⟨m1, m2, _⟩ := markReachableNodes_spec G n S
      obtain ⟨k1, k2, k3⟩ := ih _ (markReachableNodes_closed G n S hS)
      refine ⟨k1, fun x hx => k2 (m1 hx), ?_⟩
      intro g hg
      rcases List.mem_cons.mp hg with h0 | hr
      · have : g = n := by injection h0
        subst this; exact k2 m2
      · exact k3 g hr

theorem nodesFromGlobals_spec (G : DSGraph) :
    Closed G (nodesFromGlobals G) ∧
      (∀ g, some g ∈ G.scalarGlobals → g ∈ nodesFromGlobals G) := by
  obtain ⟨h1, _, h3⟩ := foldGlobals_spec G G.scalarGlobals [] (closed_nil G)
  exact ⟨h1, h3⟩

theorem markReturn_spec (G : DSGraph) (S : List NodeId) (hS : Closed G S) :
    Closed G (markReturn G S) ∧ S ⊆ markReturn G S ∧
      (∀ r, G.returnNode = some r → G.isHeapNode r = true → r ∈ markReturn G S) := by
  unfold markReturn
  cases hr : G.returnNode with
  | none => exact ⟨hS, fun _ hx => hx, fun r h => by cases h⟩
  | some r0 =>
    simp only []
    by_cases hh : G.isHeapNode r0 = true
    · rw [if_pos hh]
      obtain ⟨m1, m2, _⟩ := markReachableNodes_spec G r0 S
      refine ⟨markReachableNodes_closed G r0 S hS, m1, ?_⟩
      intro r h _
      have : r = r0 := by injection h.symm
      subst this; exact m2
    · rw [if_neg hh]
      refine ⟨hS, fun _ hx => hx, ?_⟩
      intro r h hr2
      have : r = r0 := by injection h.symm
      subst this; exact absurd hr2 hh

theorem markLive_closed (G : DSGraph) (fg : List NodeId) (name : String)
    (S : List NodeId) (hS : Closed G S) : Closed G (markLive G fg name S) := by
  unfold markLive
  split_ifs
  · exact (markReturn_spec G _ (markRoots_spec G fg _ S hS).1).1
  · exact (markReturn_spec G _ hS).1

theorem funcInfo_of_none (PA : PoolAllocate) (F : FuncId) (h : PA.FunctionInfo F = none) :
    PA.funcInfo F = FuncInfo.fresh := by
  simp [PoolAllocate.funcInfo, h]

theorem mem_liveNodes (O : Oracle) (PA : PoolAllocate) (F : FuncId) (n : NodeId) :
    n ∈ liveNodes O PA F ↔
      n ∈ markLive (O.BU F) (nodesFromGlobals (O.BU F)) (PA.getName F)
        (PA.funcInfo F).MarkedNodes ∧ (O.BU F).isHeapNode n = true := by
  simp [liveNodes, List.mem_filter]

/-! ## Liveness (C5, C6) -/

/-- C5, as the code has it: for a function that is not `main`, a heap node is
in the live set whenever it is reachable from a heap node that is global,
incomplete or reachable from the node of a global of the scalar map (each
such heap node being reachable from itself); and every node of the live set
is a heap node. -/
theorem C5_live_set_from_heap_roots (O : Oracle) (PA : PoolAllocate) (F : FuncId)
    (hG : (O.BU F).nodes ≠ []) (hfresh : PA.FunctionInfo F = none)
    (hmain : PA.getName F ≠ "main") :
    (∀ r n, (O.BU F).isHeapNode r = true →
        ((O.BU F).isGlobalNode r = true ∨ (O.BU F).isIncomplete r = true ∨
          ∃ g, some g ∈ (O.BU F).scalarGlobals ∧ Reach (O.BU F) g r) →
        Reach (O.BU F) r n → (O.BU F).isHeapNode n = true →
        n ∈ ((FindFunctionPoolArgs O PA F).funcInfo F).MarkedNodes) ∧
      (∀ n ∈ ((FindFunctionPoolArgs O PA F).funcInfo F).MarkedNodes,
        (O.BU F).isHeapNode n = true) := by
  rw [FindFunctionPoolArgs_funcInfo O PA F hG]
  simp only []
  constructor
  · intro r n hr hroot hreach hn
    rw [mem_liveNodes]
    refine ⟨?_, hn⟩
    rw [funcInfo_of_none PA F hfresh]
    obtain ⟨g1, g2⟩ := nodesFromGlobals_spec (O.BU F)
    have hcl := markLive_closed (O.BU F) (nodesFromGlobals (O.BU F)) (PA.getName F)
      FuncInfo.fresh.MarkedNodes (closed_nil _)
    refine hcl.reach ?_ hreach
    unfold markLive
    rw [if_pos hmain]
    obtain ⟨r1, _, r3⟩ := markRoots_spec (O.BU F) (nodesFromGlobals (O.BU F))
      (List.range (O.BU F).nodes.length) FuncInfo.fresh.MarkedNodes (closed_nil _)
    refine (markReturn_spec _ _ r1).2.1 (r3 r ?_ ?_)
    · exact List.mem_range.mpr (lt_length_of_isHeapNode _ _ hr)
    · rcases hroot with h | h | ⟨g, hg, hgr⟩
      · simp [h, hr]
      · simp [h, hr]
      · have : r ∈ nodesFromGlobals (O.BU F) := g1.reach (g2 g hg) hgr
        simp [this, hr]
  · intro n hn
    exact ((mem_liveNodes O PA F n).mp hn).2

/-- C5 at the example: in `g` the heap node 0 is global, so it is live. -/
theorem C5_live_set_from_heap_roots_witness :
    (exMainOracle.BU 2).nodes ≠ [] ∧
      (PoolAllocate.initial exMainModule).FunctionInfo 2 = none ∧
      (PoolAllocate.initial exMainModule).getName 2 ≠ "main" ∧
      0 ∈ ((FindFunctionPoolArgs exMainOracle (PoolAllocate.initial exMainModule) 2).funcInfo
        2).MarkedNodes :=
  ⟨by decide, rfl, by decide,
   (C5_live_set_from_heap_roots exMainOracle (PoolAllocate.initial exMainModule) 2
      (by decide) rfl (by decide)).1 0 0 (by decide) (Or.inl (by decide))
      (Reach.refl 0) (by decide)⟩

/-- C5 as stated fails: in `f` the heap node 1 is reachable from the
incomplete node 0, which is not a heap node, and is not in the live set; in
`main` the heap node 0 is global and incomplete and is not in the live set. -/
theorem C5_counterexample :
    (exArgGraph.isIncomplete 0 = true ∧ Reach exArgGraph 0 1 ∧
      exArgGraph.isHeapNode 1 = true ∧
      1 ∉ ((FindFunctionPoolArgs exMainOracle (PoolAllocate.initial exMainModule) 0).funcInfo
        0).MarkedNodes) ∧
    (exGlobalGraph.isGlobalNode 0 = true ∧ exGlobalGraph.isIncomplete 0 = true ∧
      exGlobalGraph.isHeapNode 0 = true ∧
      0 ∉ ((FindFunctionPoolArgs exMainOracle (PoolAllocate.initial exMainModule) 1).funcInfo
        1).MarkedNodes) :=
  ⟨⟨by decide, Reach.step (Reach.refl 0) (by decide), by decide, by decide⟩,
   ⟨by decide, by decide, by decide, by decide⟩⟩

/-- C6: for a function whose graph has nodes, `main` included, a returned
node that is a heap node is in the live set after `FindFunctionPoolArgs`, with
every heap node reachable from it, and it has a slot: its position in the live
set, counted from `PoolArgFirst`, is below `PoolArgLast`. -/
theorem C6_return_node_live (O : Oracle) (PA : PoolAllocate) (F : FuncId) (r : NodeId)
    (hG : (O.BU F).nodes ≠ []) (hfresh : PA.FunctionInfo F = none)
    (hr : (O.BU F).returnNode = some r) (hh : (O.BU F).isHeapNode r = true) :
    r ∈ ((FindFunctionPoolArgs O PA F).funcInfo F).MarkedNodes ∧
      (∀ n, Reach (O.BU F) r n → (O.BU F).isHeapNode n = true →
        n ∈ ((FindFunctionPoolArgs O PA F).funcInfo F).MarkedNodes) ∧
      (∃ i : Nat, ((FindFunctionPoolArgs O PA F).funcInfo F).MarkedNodes[i]? = some r ∧
        ((FindFunctionPoolArgs O PA F).funcInfo F).PoolArgFirst + (i : Int) <
          ((FindFunctionPoolArgs O PA F).funcInfo F).PoolArgLast) := by
  rw [FindFunctionPoolArgs_funcInfo O PA F hG]
  simp only []
  have hcl := markLive_closed (O.BU F) (nodesFromGlobals (O.BU F)) (PA.getName F)
    (PA.funcInfo F).MarkedNodes (by rw [funcInfo_of_none PA F hfresh]; exact closed_nil _)
  have hroot : r ∈ markLive (O.BU F) (nodesFromGlobals (O.BU F)) (PA.getName F)
      (PA.funcInfo F).MarkedNodes := by
    unfold markLive
    have key : ∀ S, r ∈ markReturn (O.BU F) S := by
      intro S
      unfold markReturn
      rw [hr]
      simp only [hh, if_true]
      exact (markReachableNodes_spec _ r S).2.1
    exact key _
  have hall : ∀ n, Reach (O.BU F) r n → (O.BU F).isHeapNode n = true →
      n ∈ liveNodes O PA F := by
    intro n hreach hn
    exact (mem_liveNodes O PA F n).mpr ⟨hcl.reach hroot hreach, hn⟩
  have hmem : r ∈ liveNodes O PA F := hall r (Reach.refl r) hh
  refine ⟨hmem, hall, ?_⟩
  obtain ⟨i, hi, hget⟩ := List.getElem_of_mem hmem
  refine ⟨i, ?_, ?_⟩
  · rw [List.getElem?_eq_getElem hi, hget]
  · have : (i : Int) < ((liveNodes O PA F).length : Int) := by exact_mod_cast hi
    omega

/-- C6 at the example: `f` returns its heap node 0, which gets slot 0. -/
theorem C6_return_node_live_witness :
    (exOracle.BU 0).nodes ≠ [] ∧ exClassified.FunctionInfo 0 = none ∧
      (exOracle.BU 0).returnNode = some 0 ∧ (exOracle.BU 0).isHeapNode 0 = true ∧
      0 ∈ ((FindFunctionPoolArgs exOracle exClassified 0).funcInfo 0).MarkedNodes :=
  ⟨by decide, by decide, by decide, by decide,
   (C6_return_node_live exOracle exClassified 0 0 (by decide) (by decide) (by decide)
      (by decide)).1⟩

/-! ## Pool lifetime code (C7) -/

theorem getElem?_lt_length {α : Type} (l : List α) (r : Nat) (a : α)
    (h : l[r]? = some a) : r < l.length := by
  by_contra hlt
  rw [List.getElem?_eq_none (Nat.le_of_not_lt hlt)] at h
  cases h

theorem insertBeforeTerminator_blocks (x : Instruction) (r : Nat) (C : PoolCode) (q : Nat) :
    (insertBeforeTerminator x r C).blocks[q]? =
      if q = r then (C.blocks[q]?).map (appendInst x) else C.blocks[q]? := by
  unfold insertBeforeTerminator
  cases h : C.blocks[r]? with
  | none =>
    by_cases hq : q = r
    · subst hq; simp [h]
    · simp [hq]
  | some b =>
    have hlt := getElem?_lt_length _ _ _ h
    simp only [List.getElem?_set]
    by_cases hq : q = r
    · subst hq; simp [h, hlt, appendInst]
    · have : ¬ r = q := fun e => hq e.symm
      simp [hq, this]

theorem insertBeforeTerminator_length (x : Instruction) (r : Nat) (C : PoolCode) :
    (insertBeforeTerminator x r C).blocks.length = C.blocks.length := by
  unfold insertBeforeTerminator
  cases C.blocks[r]? <;> simp

theorem insertBeforeTerminator_insertPoint (x : Instruction) (r : Nat) (C : PoolCode) :
    (insertBeforeTerminator x r C).insertPoint =
      if r = 0 ∧ ∃ b, C.blocks[0]? = some b ∧ C.insertPoint = b.insts.length
      then C.insertPoint + 1 else C.insertPoint := by
  unfold insertBeforeTerminator
  cases h : C.blocks[r]? with
  | none =>
    have : ¬ (r = 0 ∧ ∃ b, C.blocks[0]? = some b ∧ C.insertPoint = b.insts.length) := by
      rintro ⟨h0, b, hb, _⟩
      subst h0
      rw [h] at hb; cases hb
    simp only [this, if_false]
  | some b =>
    simp only []
    by_cases h0 : r = 0
    · subst h0
      by_cases hip : C.insertPoint = b.insts.length
      · have : ∃ b', C.blocks[0]? = some b' ∧ C.insertPoint = b'.insts.length := ⟨b, h, hip⟩
        rw [if_pos ⟨rfl, hip⟩, if_pos ⟨rfl, this⟩]
      · have : ¬ ∃ b', C.blocks[0]? = some b' ∧ C.insertPoint = b'.insts.length := by
          rintro ⟨b', hb', hip'⟩
          rw [h] at hb'
          injection hb' with e
          subst e
          exact hip hip'
        rw [if_neg (fun hc => hip hc.2), if_neg (fun hc => this hc.2)]
    · simp [h0]

theorem insertBeforeTerminator_other (x : Instruction) (r : Nat) (C : PoolCode) :
    (insertBeforeTerminator x r C).PoolDescriptors = C.PoolDescriptors ∧
      (insertBeforeTerminator x r C).cerr = C.cerr ∧
      (insertBeforeTerminator x r C).numPools = C.numPools := by
  unfold insertBeforeTerminator
  cases C.blocks[r]? <;> simp

/-- The loop over the returning blocks (lines 533-535). -/
theorem foldl_insertBeforeTerminator (x : Instruction) :
    ∀ (L : List Nat) (C : PoolCode), L.Nodup →
      (L.foldl (fun c r => insertBeforeTerminator x r c) C).blocks.length = C.blocks.length ∧
      (∀ q, (L.foldl (fun c r => insertBeforeTerminator x r c) C).blocks[q]? =
        if q ∈ L then (C.blocks[q]?).map (appendInst x) else C.blocks[q]?) ∧
      (L.foldl (fun c r => insertBeforeTerminator x r c) C).insertPoint =
        (if 0 ∈ L ∧ ∃ b, C.blocks[0]? = some b ∧ C.insertPoint = b.insts.length
         then C.insertPoint + 1 else C.insertPoint) ∧
      (L.foldl (fun c r => insertBeforeTerminator x r c) C).PoolDescriptors =
        C.PoolDescriptors ∧
      (L.foldl (fun c r => insertBeforeTerminator x r c) C).cerr = C.cerr ∧
      (L.foldl (fun c r => insertBeforeTerminator x r c) C).numPools = C.numPools := by
  intro L
  induction L with
  | nil => intro C _; simp
  | cons r L ih =>
    intro C hnd
    have hr : r ∉ L := (List.nodup_cons.mp hnd).1
    obtain ⟨i1, i2, i3, i4, i5, i6⟩ := ih (insertBeforeTerminator x r C) (List.nodup_cons.mp hnd).2
    obtain ⟨o1, o2, o3⟩ := insertBeforeTerminator_other x r C
    simp only [List.foldl_cons]
    refine ⟨by rw [i1, insertBeforeTerminator_length], ?_, ?_, by rw [i4, o1],
      by rw [i5, o2], by rw [i6, o3]⟩
    · intro q
      rw [i2 q, insertBeforeTerminator_blocks]
      by_cases hq : q = r
      · subst hq; simp [hr]
      · by_cases hqL : q ∈ L
        · simp [hq, hqL]
        · simp [hq, hqL]
    · rw [i3, insertBeforeTerminator_insertPoint, insertBeforeTerminator_blocks]
      by_cases h0 : r = 0
      · subst h0
        have h0L : (0 : Nat) ∉ L := hr
        simp [h0L]
      · have h0' : ¬ (0 = r) := fun e => h0 e.symm
        simp [h0, h0']

theorem pooledBlock_succ (bare : Bool) (P P' Q : List Instruction) (k : Nat) (b : BasicBlock) :
    pooledBlock bare P Q (k + 1) b = pooledBlock bare P' Q (k + 1) b := by
  simp [pooledBlock]

theorem rep_insertAtEntry (B : List BasicBlock) (C : PoolCode) (P Q : List Instruction)
    (x : Instruction) (h : PoolCodeRep B C P Q) :
    PoolCodeRep B (insertAtEntry x C) (P ++ [x]) Q := by
  obtain ⟨hlen, hblk, hip⟩ := h
  by_cases hB : B = []
  · subst hB
    have hC : C.blocks = [] := List.length_eq_zero.mp (by simpa using hlen)
    refine ⟨?_, ?_, fun hne => absurd rfl hne⟩
    · simp [insertAtEntry, hC]
    · intro r b hb; simp at hb
  · have hipv := hip hB
    obtain ⟨b0, Bt, hBe⟩ := List.exists_cons_of_ne_nil hB
    cases hC : C.blocks with
    | nil => rw [hC, hBe] at hlen; simp at hlen
    | cons c0 ct =>
      have hb0 : B[0]? = some b0 := by rw [hBe]; simp
      have hc0 : c0 = pooledBlock (entryIsBareReturn B) P Q 0 b0 := by
        have := hblk 0 b0 hb0
        rw [hC] at this
        simpa using this
      have hinsts : c0.insts = P ++ (b0.insts ++
          (if b0.term = Terminator.ret ∧ ¬ ((0 : Nat) = 0 ∧ entryIsBareReturn B = true)
           then Q else [])) := by
        rw [hc0]; simp [pooledBlock]
      refine ⟨?_, ?_, fun _ => ?_⟩
      · simp only [insertAtEntry, hC, List.length_cons]
        rw [← hlen, hC, List.length_cons]
      · intro r b hb
        cases r with
        | zero =>
          have hbe : b = b0 := by
            rw [hb0] at hb
            injection hb with e
            exact e.symm
          subst hbe
          simp only [insertAtEntry, hC, List.getElem?_cons_zero, Option.some.injEq]
          rw [hinsts, hipv, List.take_left, List.drop_left]
          rw [hc0]
          simp [pooledBlock]
        | succ k =>
          have := hblk (k + 1) b hb
          rw [hC] at this
          simp only [insertAtEntry, hC]
          rw [List.getElem?_cons_succ] at this ⊢
          rw [this]
          exact congrArg some (pooledBlock_succ _ _ _ _ _ _)
      · simp only [insertAtEntry, hC, hipv, List.length_append, List.length_singleton]

theorem mem_returnNodes (B : List BasicBlock) (q : Nat) :
    q ∈ returnNodes B ↔ ∃ b, B[q]? = some b ∧ b.term = Terminator.ret := by
  unfold returnNodes
  rw [List.mem_filter, List.mem_range]
  constructor
  · rintro ⟨_, h2⟩
    cases hb : B[q]? with
    | none => simp [hb] at h2
    | some b => exact ⟨b, rfl, by simpa [hb] using h2⟩
  · rintro ⟨b, hb, ht⟩
    exact ⟨getElem?_lt_length _ _ _ hb, by simp [hb, ht]⟩

theorem returnNodes_nodup (B : List BasicBlock) : (returnNodes B).Nodup :=
  List.Nodup.filter _ (List.nodup_range _)

theorem entryIsBareReturn_iff (B : List BasicBlock) (b0 : BasicBlock) (h : B[0]? = some b0) :
    entryIsBareReturn B = true ↔ b0.insts = [] ∧ b0.term = Terminator.ret := by
  simp [entryIsBareReturn, h, List.isEmpty_iff]

theorem rep_destroys (B : List BasicBlock) (C : PoolCode) (P Q : List Instruction)
    (x : Instruction) (h : PoolCodeRep B C P Q) :
    PoolCodeRep B ((returnNodes B).foldl (fun c r => insertBeforeTerminator x r c) C)
      (if entryIsBareReturn B = true then P ++ [x] else P) (Q ++ [x]) := by
  obtain ⟨hlen, hblk, hip⟩ := h
  obtain ⟨f1, f2, f3, _, _, _⟩ :=
    foldl_insertBeforeTerminator x (returnNodes B) C (returnNodes_nodup B)
  refine ⟨by rw [f1, hlen], ?_, ?_⟩
  · intro r b hb
    rw [f2 r, hblk r b hb]
    by_cases hret : b.term = Terminator.ret
    · have hmem : r ∈ returnNodes B := (mem_returnNodes B r).mpr ⟨b, hb, hret⟩
      rw [if_pos hmem]
      by_cases hr0 : r = 0
      · subst hr0
        by_cases hbare : entryIsBareReturn B = true
        · have hempty := ((entryIsBareReturn_iff B b hb).mp hbare).1
          simp [pooledBlock, appendInst, hbare, hempty, hret]
        · simp [pooledBlock, appendInst, hbare, hret]
      · simp [pooledBlock, appendInst, hr0, hret]
    · have hmem : r ∉ returnNodes B := by
        intro hc
        obtain ⟨b', hb', ht⟩ := (mem_returnNodes B r).mp hc
        rw [hb] at hb'
        injection hb' with e
        subst e
        exact hret ht
      rw [if_neg hmem]
      by_cases hr0 : r = 0
      · subst hr0
        have hbare : ¬ entryIsBareReturn B = true := fun hc =>
          hret ((entryIsBareReturn_iff B b hb).mp hc).2
        simp [pooledBlock, hbare, hret]
      · simp [pooledBlock, hr0, hret]
  · intro hne
    have hipv := hip hne
    obtain ⟨b0, Bt, hBe⟩ := List.exists_cons_of_ne_nil hne
    have hb0 : B[0]? = some b0 := by rw [hBe]; simp
    have hc0 := hblk 0 b0 hb0
    rw [f3, hc0]
    by_cases hbare : entryIsBareReturn B = true
    · obtain ⟨hempty, hret⟩ := (entryIsBareReturn_iff B b0 hb0).mp hbare
      have hmem : 0 ∈ returnNodes B := (mem_returnNodes B 0).mpr ⟨b0, hb0, hret⟩
      simp [pooledBlock, hbare, hempty, hmem, hipv]
    · have hcond : ¬ (0 ∈ returnNodes B ∧ ∃ b, some (pooledBlock (entryIsBareReturn B) P Q 0 b0)
          = some b ∧ C.insertPoint = b.insts.length) := by
        rintro ⟨hmem, b, hbe, hlen2⟩
        injection hbe with e
        subst e
        obtain ⟨b', hb', ht⟩ := (mem_returnNodes B 0).mp hmem
        rw [hb0] at hb'
        injection hb' with e2
        subst e2
        have hne0 : b0.insts ≠ [] := fun he =>
          hbare ((entryIsBareReturn_iff B b0 hb0).mpr ⟨he, ht⟩)
        have hpos : 0 < b0.insts.length := List.length_pos.mpr hne0
        have hl : (pooledBlock (entryIsBareReturn B) P Q 0 b0).insts.length =
            P.length + b0.insts.length +
              (if b0.term = Terminator.ret ∧ ¬ ((0 : Nat) = 0 ∧ entryIsBareReturn B = true)
               then Q else []).length := by
          simp [pooledBlock, Nat.add_assoc]
        rw [hipv, hl] at hlen2
        omega
      rw [if_neg hcond, if_neg hbare, hipv]

theorem rep_createPool (G : DSGraph) (fname : String) (NewF : FuncId) (B : List BasicBlock)
    (i : Nat) (Node : NodeId) (C : PoolCode) (P Q : List Instruction)
    (h : PoolCodeRep B C P Q) :
    PoolCodeRep B (createPool G fname NewF (returnNodes B) i Node C)
      (P ++ entryPrefix G (entryIsBareReturn B) i [Node]) (Q ++ exitCode i [Node]) := by
  have h1 := rep_insertAtEntry B C P Q (Instruction.allocaPD i) h
  have h2 : PoolCodeRep B
      (match G.nodeType Node with
        | some _ => insertAtEntry (Instruction.allocaPD i) C
        | none => { insertAtEntry (Instruction.allocaPD i) C with
            cerr := (insertAtEntry (Instruction.allocaPD i) C).cerr ++
              [Diag.nodeCollapsing fname] })
      (P ++ [Instruction.allocaPD i]) Q := by
    cases G.nodeType Node with
    | some s => exact h1
    | none => exact h1
  have h3 := rep_insertAtEntry B _ _ Q (Instruction.callPoolInit i (elSize G Node)) h2
  have h4 := rep_destroys B
    { (insertAtEntry (Instruction.callPoolInit i (elSize G Node))
        (match G.nodeType Node with
          | some _ => insertAtEntry (Instruction.allocaPD i) C
          | none => { insertAtEntry (Instruction.allocaPD i) C with
              cerr := (insertAtEntry (Instruction.allocaPD i) C).cerr ++
                [Diag.nodeCollapsing fname] })) with
      numPools := (insertAtEntry (Instruction.callPoolInit i (elSize G Node))
        (match G.nodeType Node with
          | some _ => insertAtEntry (Instruction.allocaPD i) C
          | none => { insertAtEntry (Instruction.allocaPD i) C with
              cerr := (insertAtEntry (Instruction.allocaPD i) C).cerr ++
                [Diag.nodeCollapsing fname] })).numPools + 1,
      PoolDescriptors := mapInsert (insertAtEntry (Instruction.callPoolInit i (elSize G Node))
        (match G.nodeType Node with
          | some _ => insertAtEntry (Instruction.allocaPD i) C
          | none => { insertAtEntry (Instruction.allocaPD i) C with
              cerr := (insertAtEntry (Instruction.allocaPD i) C).cerr ++
                [Diag.nodeCollapsing fname] })).PoolDescriptors Node (Value.alloca NewF i) }
    _ _ (Instruction.callPoolDestroy i) h3
  have e : createPool G fname NewF (returnNodes B) i Node C = _ := rfl
  unfold createPool
  simp only [elSize] at h4 ⊢
  convert h4 using 1
  · by_cases hb : entryIsBareReturn B = true <;> simp [entryPrefix, hb, elSize]

theorem entryPrefix_cons (G : DSGraph) (bare : Bool) (i : Nat) (n : NodeId)
    (rest : List NodeId) :
    entryPrefix G bare i (n :: rest) =
      entryPrefix G bare i [n] ++ entryPrefix G bare (i + 1) rest := by
  simp [entryPrefix]

theorem exitCode_cons (i : Nat) (n : NodeId) (rest : List NodeId) :
    exitCode i (n :: rest) = exitCode i [n] ++ exitCode (i + 1) rest := by
  simp [exitCode]

theorem rep_createPoolsLoop (G : DSGraph) (fname : String) (NewF : FuncId)
    (B : List BasicBlock) :
    ∀ (N : List NodeId) (i : Nat) (C : PoolCode) (P Q : List Instruction),
      PoolCodeRep B C P Q →
      PoolCodeRep B (createPoolsLoop G fname NewF (returnNodes B) i N C)
        (P ++ entryPrefix G (entryIsBareReturn B) i N) (Q ++ exitCode i N) := by
  intro N
  induction N with
  | nil =>
    intro i C P Q h
    simpa [createPoolsLoop, entryPrefix, exitCode] using h
  | cons n rest ih =>
    intro i C P Q h
    have h1 := ih (i + 1) _ _ _ (rep_createPool G fname NewF B i n C P Q h)
    rw [entryPrefix_cons, exitCode_cons, ← List.append_assoc, ← List.append_assoc]
    exact h1

/-- The blocks that `CreatePools` builds, in closed form. -/
theorem CreatePools_rep (G : DSGraph) (fname : String) (NewF : FuncId)
    (B : List BasicBlock) (N : List NodeId) (PD : List (NodeId × Value)) :
    PoolCodeRep B (CreatePools G fname NewF B N PD)
      (entryPrefix G (entryIsBareReturn B) 0 N) (exitCode 0 N) := by
  have h0 : PoolCodeRep B
      { blocks := B, insertPoint := 0, PoolDescriptors := PD, cerr := [], numPools := 0 }
      [] [] := by
    refine ⟨rfl, ?_, fun _ => rfl⟩
    intro r b hb
    simp [pooledBlock, hb]
  have h1 := rep_createPoolsLoop G fname NewF B N 0 _ _ _ h0
  simpa [CreatePools] using h1

theorem countP_isPoolInit_entryPrefix (G : DSGraph) (bare : Bool) (i : Nat) :
    ∀ (N : List NodeId) (s : Nat),
      (entryPrefix G bare s N).countP (isPoolInit i) =
        if s ≤ i ∧ i < s + N.length then 1 else 0 := by
  intro N
  induction N with
  | nil =>
    intro s
    rw [if_neg (by simp only [List.length_nil]; omega)]
    rfl
  | cons n rest ih =>
    intro s
    rw [entryPrefix_cons, List.countP_append, ih (s + 1)]
    have hhead : (entryPrefix G bare s [n]).countP (isPoolInit i) =
        if s = i then 1 else 0 := by
      cases bare <;> simp [entryPrefix, List.countP_cons, isPoolInit]
    rw [hhead]
    simp only [List.length_cons]
    by_cases hs : s = i
    · rw [if_pos hs, if_neg (by omega), if_pos (by omega)]
    · rw [if_neg hs]
      by_cases h2 : s + 1 ≤ i ∧ i < s + 1 + rest.length
      · rw [if_pos h2, if_pos (by omega)]
      · rw [if_neg h2, if_neg (by omega)]

theorem countP_isPoolDestroy_entryPrefix (G : DSGraph) (bare : Bool) (i : Nat) :
    ∀ (N : List NodeId) (s : Nat),
      (entryPrefix G bare s N).countP (isPoolDestroy i) =
        if bare = true ∧ s ≤ i ∧ i < s + N.length then 1 else 0 := by
  intro N
  induction N with
  | nil =>
    intro s
    rw [if_neg (by simp only [List.length_nil]; omega)]
    rfl
  | cons n rest ih =>
    intro s
    rw [entryPrefix_cons, List.countP_append, ih (s + 1)]
    have hhead : (entryPrefix G bare s [n]).countP (isPoolDestroy i) =
        if bare = true ∧ s = i then 1 else 0 := by
      cases bare <;> simp [entryPrefix, List.countP_cons, isPoolDestroy]
    rw [hhead]
    simp only [List.length_cons]
    cases bare with
    | false => simp
    | true =>
      simp only [true_and]
      by_cases hs : s = i
      · rw [if_pos hs, if_neg (by omega), if_pos (by omega)]
      · rw [if_neg hs]
        by_cases h2 : s + 1 ≤ i ∧ i < s + 1 + rest.length
        · rw [if_pos h2, if_pos (by omega)]
        · rw [if_neg h2, if_neg (by omega)]

theorem countP_isPoolDestroy_exitCode (i : Nat) :
    ∀ (N : List NodeId) (s : Nat),
      (exitCode s N).countP (isPoolDestroy i) =
        if s ≤ i ∧ i < s + N.length then 1 else 0 := by
  intro N
  induction N with
  | nil =>
    intro s
    rw [if_neg (by simp only [List.length_nil]; omega)]
    rfl
  | cons n rest ih =>
    intro s
    rw [exitCode_cons, List.countP_append, ih (s + 1)]
    have hhead : (exitCode s [n]).countP (isPoolDestroy i) = if s = i then 1 else 0 := by
      simp [exitCode, List.countP_cons, isPoolDestroy]
    rw [hhead]
    simp only [List.length_cons]
    by_cases hs : s = i
    · rw [if_pos hs, if_neg (by omega), if_pos (by omega)]
    · rw [if_neg hs]
      by_cases h2 : s + 1 ≤ i ∧ i < s + 1 + rest.length
      · rw [if_pos h2, if_pos (by omega)]
      · rw [if_neg h2, if_neg (by omega)]

theorem countP_isPoolInit_exitCode (i : Nat) :
    ∀ (N : List NodeId) (s : Nat), (exitCode s N).countP (isPoolInit i) = 0 := by
  intro N
  induction N with
  | nil => intro s; simp [exitCode]
  | cons n rest ih =>
    intro s
    rw [exitCode_cons, List.countP_append, ih (s + 1)]
    simp [exitCode, List.countP_cons, isPoolInit]

theorem countP_isAnyPoolDestroy_exitCode :
    ∀ (N : List NodeId) (s : Nat), (exitCode s N).countP isAnyPoolDestroy = N.length := by
  intro N
  induction N with
  | nil => intro s; simp [exitCode]
  | cons n rest ih =>
    intro s
    rw [exitCode_cons, List.countP_append, ih (s + 1)]
    simp [exitCode, List.countP_cons, isAnyPoolDestroy]
    omega

theorem countP_isAnyPoolDestroy_entryPrefix (G : DSGraph) (bare : Bool) :
    ∀ (N : List NodeId) (s : Nat),
      (entryPrefix G bare s N).countP isAnyPoolDestroy =
        if bare = true then N.length else 0 := by
  intro N
  induction N with
  | nil => intro s; simp [entryPrefix]
  | cons n rest ih =>
    intro s
    rw [entryPrefix_cons, List.countP_append, ih (s + 1)]
    cases bare <;> simp [entryPrefix, List.countP_cons, isAnyPoolDestroy]
    omega

theorem mem_exitCode (i : Nat) :
    ∀ (N : List NodeId) (s : Nat), s ≤ i → i < s + N.length →
      Instruction.callPoolDestroy i ∈ exitCode s N := by
  intro N
  induction N with
  | nil => intro s h1 h2; simp at h2; omega
  | cons n rest ih =>
    intro s h1 h2
    by_cases hs : s = i
    · subst hs; simp [exitCode]
    · have := ih (s + 1) (by omega) (by simp at h2; omega)
      simp [exitCode, this]

/-- The call to `poolinit` for the node at position `i` splits the code put
before `InsertPoint`; when the entry block is a bare return, the call to
`pooldestroy` for the node comes after it. -/
theorem entryPrefix_split (G : DSGraph) (bare : Bool) (i : Nat) (n : NodeId) :
    ∀ (N : List NodeId) (s : Nat), s ≤ i → N[i - s]? = some n →
      ∃ X Y, entryPrefix G bare s N = X ++ Instruction.callPoolInit i (elSize G n) :: Y ∧
        (bare = true → Instruction.callPoolDestroy i ∈ Y) := by
  intro N
  induction N with
  | nil => intro s _ h; simp at h
  | cons n0 rest ih =>
    intro s h1 h2
    by_cases hs : s = i
    · subst hs
      have hn : n0 = n := by simpa using h2
      subst hn
      refine ⟨[Instruction.allocaPD s],
        (if bare = true then [Instruction.callPoolDestroy s] else []) ++
          entryPrefix G bare (s + 1) rest, by simp [entryPrefix], ?_⟩
      intro hb
      simp [hb]
    · have hlt : s < i := by omega
      have hidx : i - s = (i - (s + 1)) + 1 := by omega
      rw [hidx, List.getElem?_cons_succ] at h2
      obtain ⟨X, Y, hXY, hY⟩ := ih (s + 1) (by omega) h2
      refine ⟨entryPrefix G bare s [n0] ++ X, Y, ?_, hY⟩
      rw [entryPrefix_cons, hXY, List.append_assoc]

theorem CreatePools_blockInsts (G : DSGraph) (fname : String) (NewF : FuncId)
    (B : List BasicBlock) (N : List NodeId) (PD : List (NodeId × Value)) (r : Nat) :
    blockInsts (CreatePools G fname NewF B N PD).blocks r =
      match B[r]? with
      | some b => (pooledBlock (entryIsBareReturn B)
          (entryPrefix G (entryIsBareReturn B) 0 N) (exitCode 0 N) r b).insts
      | none => [] := by
  obtain ⟨hlen, hblk, _⟩ := CreatePools_rep G fname NewF B N PD
  cases hb : B[r]? with
  | some b => simp [blockInsts, hblk r b hb]
  | none =>
    have hge : B.length ≤ r := by
      by_contra hlt
      rw [List.getElem?_eq_getElem (Nat.lt_of_not_le hlt)] at hb
      cases hb
    have : (CreatePools G fname NewF B N PD).blocks[r]? = none :=
      List.getElem?_eq_none (by rw [hlen]; exact hge)
    simp [blockInsts, this]

theorem countP_original (B : List BasicBlock) (h : OriginalOnly B) (r : Nat) (b : BasicBlock)
    (hb : B[r]? = some b) (p : Instruction → Bool)
    (hp : ∀ k, p (Instruction.original k) = false) : b.insts.countP p = 0 := by
  rw [List.countP_eq_zero]
  intro x hx
  obtain ⟨k, hk⟩ := h b (List.getElem?_mem hb) x hx
  rw [hk, hp k]
  simp

theorem lt_length_of_getElem?_some {α : Type} (l : List α) (i : Nat) (a : α)
    (h : l[i]? = some a) : 0 ≤ i ∧ i < 0 + l.length ∧ i < l.length := by
  have := getElem?_lt_length l i a h
  omega

/-- The calls to `poolinit` for a node in a block built by `CreatePools`. -/
theorem CreatePools_countP_init (G : DSGraph) (fname : String) (NewF : FuncId)
    (B : List BasicBlock) (N : List NodeId) (PD : List (NodeId × Value))
    (hO : OriginalOnly B) (i : Nat) (n : NodeId) (hi : N[i]? = some n) (r : Nat) :
    (blockInsts (CreatePools G fname NewF B N PD).blocks r).countP (isPoolInit i) =
      if r = 0 ∧ B ≠ [] then 1 else 0 := by
  rw [CreatePools_blockInsts]
  have hr := lt_length_of_getElem?_some N i n hi
  cases hb : B[r]? with
  | none =>
    have : ¬ (r = 0 ∧ B ≠ []) := by
      rintro ⟨h0, hne⟩
      subst h0
      obtain ⟨b0, Bt, hBe⟩ := List.exists_cons_of_ne_nil hne
      rw [hBe] at hb
      simp at hb
    simp [this]
  | some b =>
    have hB : B ≠ [] := by
      intro he
      rw [he] at hb
      simp at hb
    have horig := countP_original B hO r b hb (isPoolInit i) (fun k => rfl)
    simp only [pooledBlock, List.countP_append, horig]
    have hr1 := hr.1
    have hr2 := hr.2.1
    have hr := hr.2.2
    by_cases h0 : r = 0
    · simp only [h0, if_true, countP_isPoolInit_entryPrefix, hr1, hr2, and_self, true_and]
      split_ifs <;> simp [countP_isPoolInit_exitCode, hB]
    · simp only [h0, if_false, false_and, List.countP_nil]
      split_ifs <;> simp [countP_isPoolInit_exitCode]

/-- The calls to `pooldestroy` for a node in a block built by `CreatePools`. -/
theorem CreatePools_countP_destroy (G : DSGraph) (fname : String) (NewF : FuncId)
    (B : List BasicBlock) (N : List NodeId) (PD : List (NodeId × Value))
    (hO : OriginalOnly B) (i : Nat) (n : NodeId) (hi : N[i]? = some n) (r : Nat) :
    (blockInsts (CreatePools G fname NewF B N PD).blocks r).countP (isPoolDestroy i) =
      if r ∈ returnNodes B then 1 else 0 := by
  rw [CreatePools_blockInsts]
  have hr := lt_length_of_getElem?_some N i n hi
  cases hb : B[r]? with
  | none =>
    have : r ∉ returnNodes B := by
      intro hc
      obtain ⟨b, hb', _⟩ := (mem_returnNodes B r).mp hc
      rw [hb] at hb'
      cases hb'
    simp [this]
  | some b =>
    have horig := countP_original B hO r b hb (isPoolDestroy i) (fun k => rfl)
    have hr := hr.2.2
    have hmem : r ∈ returnNodes B ↔ b.term = Terminator.ret := by
      rw [mem_returnNodes]
      constructor
      · rintro ⟨b', hb', ht⟩
        rw [hb] at hb'
        injection hb' with e
        subst e
        exact ht
      · intro ht
        exact ⟨b, hb, ht⟩
    simp only [pooledBlock, List.countP_append, horig, hmem]
    by_cases h0 : r = 0
    · subst h0
      by_cases hbare : entryIsBareReturn B = true
      · have hret := ((entryIsBareReturn_iff B b hb).mp hbare).2
        simp [countP_isPoolDestroy_entryPrefix, hr, hbare, hret]
      · by_cases hret : b.term = Terminator.ret
        · simp [countP_isPoolDestroy_entryPrefix, countP_isPoolDestroy_exitCode, hr, hbare,
            hret]
        · simp [countP_isPoolDestroy_entryPrefix, hbare, hret]
    · by_cases hret : b.term = Terminator.ret
      · simp [countP_isPoolDestroy_exitCode, hr, h0, hret]
      · simp [h0, hret]

/-- The number of calls to `pooldestroy` in a block built by `CreatePools`. -/
theorem CreatePools_countP_anyDestroy (G : DSGraph) (fname : String) (NewF : FuncId)
    (B : List BasicBlock) (N : List NodeId) (PD : List (NodeId × Value))
    (hO : OriginalOnly B) (r : Nat) :
    (blockInsts (CreatePools G fname NewF B N PD).blocks r).countP isAnyPoolDestroy =
      if r ∈ returnNodes B then N.length else 0 := by
  rw [CreatePools_blockInsts]
  cases hb : B[r]? with
  | none =>
    have : r ∉ returnNodes B := by
      intro hc
      obtain ⟨b, hb', _⟩ := (mem_returnNodes B r).mp hc
      rw [hb] at hb'
      cases hb'
    simp [this]
  | some b =>
    have horig := countP_original B hO r b hb isAnyPoolDestroy (fun k => rfl)
    have hmem : r ∈ returnNodes B ↔ b.term = Terminator.ret := by
      rw [mem_returnNodes]
      constructor
      · rintro ⟨b', hb', ht⟩
        rw [hb] at hb'
        injection hb' with e
        subst e
        exact ht
      · intro ht
        exact ⟨b, hb, ht⟩
    simp only [pooledBlock, List.countP_append, horig, hmem]
    by_cases h0 : r = 0
    · subst h0
      by_cases hbare : entryIsBareReturn B = true
      · have hret := ((entryIsBareReturn_iff B b hb).mp hbare).2
        simp [countP_isAnyPoolDestroy_entryPrefix, hbare, hret]
      · by_cases hret : b.term = Terminator.ret
        · simp [countP_isAnyPoolDestroy_entryPrefix, countP_isAnyPoolDestroy_exitCode, hbare,
            hret]
        · simp [countP_isAnyPoolDestroy_entryPrefix, hbare, hret]
    · by_cases hret : b.term = Terminator.ret
      · simp [countP_isAnyPoolDestroy_exitCode, h0, hret]
      · simp [h0, hret]

/-- In the entry block the call to `poolinit` for a node stands before
`InsertPoint`, and the call to `pooldestroy` for the node, if the block
returns, stands after it. -/
theorem CreatePools_entry_split (G : DSGraph) (fname : String) (NewF : FuncId)
    (B : List BasicBlock) (N : List NodeId) (PD : List (NodeId × Value))
    (i : Nat) (n : NodeId) (hi : N[i]? = some n) (hB : B ≠ []) :
    ∃ X Y, blockInsts (CreatePools G fname NewF B N PD).blocks 0 =
        X ++ Instruction.callPoolInit i (elSize G n) :: Y ∧
      X.length < (CreatePools G fname NewF B N PD).insertPoint ∧
      (0 ∈ returnNodes B → Instruction.callPoolDestroy i ∈ Y) := by
  rw [CreatePools_blockInsts]
  have hip := (CreatePools_rep G fname NewF B N PD).2.2 hB
  have hr := lt_length_of_getElem?_some N i n hi
  obtain ⟨b0, Bt, hBe⟩ := List.exists_cons_of_ne_nil hB
  have hb0 : B[0]? = some b0 := by rw [hBe]; simp
  obtain ⟨X, Y, hXY, hY⟩ := entryPrefix_split G (entryIsBareReturn B) i n N 0 (Nat.zero_le i)
    (by simpa using hi)
  rw [hb0]
  refine ⟨X, Y ++ b0.insts ++
    (if b0.term = Terminator.ret ∧ ¬ ((0 : Nat) = 0 ∧ entryIsBareReturn B = true)
     then exitCode 0 N else []), ?_, ?_, ?_⟩
  · simp [pooledBlock, hXY]
  · rw [hip, hXY]
    simp
  · intro hmem
    obtain ⟨b', hb', ht⟩ := (mem_returnNodes B 0).mp hmem
    rw [hb0] at hb'
    injection hb' with e
    subst e
    by_cases hbare : entryIsBareReturn B = true
    · simp [hY hbare]
    · have := mem_exitCode i N 0 hr.1 hr.2.1
      simp [hbare, ht, this]

theorem CreatePools_mem_destroy (G : DSGraph) (fname : String) (NewF : FuncId)
    (B : List BasicBlock) (N : List NodeId) (PD : List (NodeId × Value))
    (i : Nat) (n : NodeId) (hi : N[i]? = some n) (r : Nat) (hr : r ∈ returnNodes B) :
    Instruction.callPoolDestroy i ∈ blockInsts (CreatePools G fname NewF B N PD).blocks r := by
  by_cases h0 : r = 0
  · subst h0
    have hB : B ≠ [] := by
      intro he
      rw [he] at hr
      simp [returnNodes] at hr
    obtain ⟨X, Y, hXY, _, hY⟩ := CreatePools_entry_split G fname NewF B N PD i n hi hB
    rw [hXY]
    simp [hY hr]
  · rw [CreatePools_blockInsts]
    obtain ⟨b, hb, ht⟩ := (mem_returnNodes B r).mp hr
    have hrng := lt_length_of_getElem?_some N i n hi
    have := mem_exitCode i N 0 hrng.1 hrng.2.1
    simp [hb, pooledBlock, h0, ht, this]

theorem not_mem_returnNodes_of_successor (B : List BasicBlock) (x y : Nat)
    (h : y ∈ successors B x) : x ∉ returnNodes B := by
  intro hc
  obtain ⟨b, hb, ht⟩ := (mem_returnNodes B x).mp hc
  simp [successors, hb, ht] at h

theorem chain_tail_has_predecessor {R : Nat → Nat → Prop} :
    ∀ (l : List Nat) (a : Nat), List.Chain' R (a :: l) → ∀ x ∈ l, ∃ z, R z x := by
  intro l
  induction l with
  | nil => intro a _ x hx; simp at hx
  | cons y l ih =>
    intro a hc x hx
    rw [List.chain'_cons] at hc
    rcases List.mem_cons.mp hx with h0 | hr
    · subst h0; exact ⟨a, hc.1⟩
    · exact ih y hc.2 x hr

/-- Along a chain of blocks other than the entry block that ends in a return,
a pool is never created and is destroyed once. -/
theorem tail_trace (B : List BasicBlock) (ins : Nat → List Instruction)
    (pI pD : Instruction → Bool) (d : Instruction)
    (hI : ∀ r, r ≠ 0 → (ins r).countP pI = 0)
    (hD : ∀ r, (ins r).countP pD = if r ∈ returnNodes B then 1 else 0)
    (hM : ∀ r ∈ returnNodes B, d ∈ ins r) :
    ∀ (l : List Nat), List.Chain' (fun a b => b ∈ successors B a) l →
      (∀ x ∈ l, x ≠ 0) → (∃ last, l.getLast? = some last ∧ last ∈ returnNodes B) →
      (l.flatMap ins).countP pI = 0 ∧ (l.flatMap ins).countP pD = 1 ∧ d ∈ l.flatMap ins := by
  intro l
  induction l with
  | nil => rintro _ _ ⟨last, h, _⟩; simp at h
  | cons x l ih =>
    intro hc hne hlast
    cases l with
    | nil =>
      obtain ⟨last, h1, h2⟩ := hlast
      have : last = x := by simpa using h1.symm
      subst this
      simp only [List.flatMap_cons, List.flatMap_nil, List.append_nil]
      refine ⟨hI last (hne last (List.mem_cons_self _ _)), ?_, hM last h2⟩
      rw [hD last, if_pos h2]
    | cons y l =>
      rw [List.chain'_cons] at hc
      have hx : x ∉ returnNodes B := not_mem_returnNodes_of_successor B x y hc.1
      obtain ⟨i1, i2, i3⟩ := ih hc.2 (fun z hz => hne z (List.mem_cons_of_mem _ hz))
        (by simpa using hlast)
      rw [List.flatMap_cons, List.countP_append, List.countP_append, i1, i2,
        hI x (hne x (List.mem_cons_self _ _)), hD x, if_neg hx]
      exact ⟨rfl, rfl, List.mem_append_right _ i3⟩

/-- On a path from the entry to a return a pool is created once, destroyed
once, and created before it is destroyed. -/
theorem path_trace (B : List BasicBlock) (ins : Nat → List Instruction)
    (pI pD : Instruction → Bool) (c d : Instruction)
    (hI : ∀ r, r ≠ 0 → (ins r).countP pI = 0) (hI0 : (ins 0).countP pI = 1)
    (hD : ∀ r, (ins r).countP pD = if r ∈ returnNodes B then 1 else 0)
    (hM : ∀ r ∈ returnNodes B, d ∈ ins r)
    (hS : ∃ X Y, ins 0 = X ++ c :: Y ∧ (0 ∈ returnNodes B → d ∈ Y))
    (hE : EntryHasNoPredecessor B) (p : List Nat) (hp : IsEntryToReturnPath B p) :
    (p.flatMap ins).countP pI = 1 ∧ (p.flatMap ins).countP pD = 1 ∧
      ∃ X Y, p.flatMap ins = X ++ c :: Y ∧ d ∈ Y := by
  obtain ⟨hhead, hchain, last, b, hlast, hb, ht⟩ := hp
  have hret : last ∈ returnNodes B := (mem_returnNodes B last).mpr ⟨b, hb, ht⟩
  obtain ⟨X, Y, hXY, hY⟩ := hS
  cases p with
  | nil => simp at hhead
  | cons a rest =>
    have ha : a = 0 := by simpa using hhead
    subst ha
    cases rest with
    | nil =>
      have hl0 : last = 0 := by simpa using hlast.symm
      subst hl0
      simp only [List.flatMap_cons, List.flatMap_nil, List.append_nil]
      refine ⟨hI0, ?_, X, Y, hXY, hY hret⟩
      rw [hD 0, if_pos hret]
    | cons y l =>
      have hc2 := hchain
      rw [List.chain'_cons] at hc2
      have h0 : (0 : Nat) ∉ returnNodes B := not_mem_returnNodes_of_successor B 0 y hc2.1
      have hne : ∀ x ∈ y :: l, x ≠ 0 := by
        intro x hx h0x
        obtain ⟨z, hz⟩ := chain_tail_has_predecessor (y :: l) 0 hchain x hx
        rw [h0x] at hz
        exact hE z hz
      obtain ⟨t1, t2, t3⟩ := tail_trace B ins pI pD d hI hD hM (y :: l) hc2.2 hne
        ⟨last, by simpa using hlast, hret⟩
      rw [List.flatMap_cons, List.countP_append, List.countP_append, t1, t2, hI0, hD 0,
        if_neg h0]
      refine ⟨rfl, rfl, X, Y ++ (y :: l).flatMap ins, ?_, List.mem_append_right _ t3⟩
      rw [hXY]
      simp

/-- C7: `CreatePools` keeps the blocks and their terminators and adds, for
the node at each position of the list, one alloca and one call to `poolinit`
in the entry block before `InsertPoint` (the first instruction of the input
function, which ends at the position the inserted code has pushed it to), and
one call to `pooldestroy` at the end of every block whose terminator is a
return.  So, in a body made of instructions of the input
program, each block has one call to `poolinit` per node if it is the entry
block and none otherwise, one call to `pooldestroy` per node if it returns and
none otherwise; and when no block branches to the entry block, along every
path from the entry to a return each pool is created once, destroyed once,
and created before it is destroyed. -/
theorem C7_create_pools (G : DSGraph) (fname : String) (NewF : FuncId)
    (B : List BasicBlock) (N : List NodeId) (PD : List (NodeId × Value)) :
    ((CreatePools G fname NewF B N PD).blocks.length = B.length ∧
      ∀ r b, B[r]? = some b →
        (CreatePools G fname NewF B N PD).blocks[r]? =
          some (pooledBlock (entryIsBareReturn B) (entryPrefix G (entryIsBareReturn B) 0 N)
            (exitCode 0 N) r b)) ∧
    (B ≠ [] →
      (CreatePools G fname NewF B N PD).insertPoint =
        (entryPrefix G (entryIsBareReturn B) 0 N).length ∧
      ∀ i n, N[i]? = some n →
        ∃ X Y, blockInsts (CreatePools G fname NewF B N PD).blocks 0 =
            X ++ Instruction.callPoolInit i (elSize G n) :: Y ∧
          X.length < (CreatePools G fname NewF B N PD).insertPoint) ∧
    (OriginalOnly B → ∀ r,
      (∀ i n, N[i]? = some n →
        (blockInsts (CreatePools G fname NewF B N PD).blocks r).countP (isPoolInit i) =
          (if r = 0 ∧ B ≠ [] then 1 else 0) ∧
        (blockInsts (CreatePools G fname NewF B N PD).blocks r).countP (isPoolDestroy i) =
          (if r ∈ returnNodes B then 1 else 0)) ∧
      (blockInsts (CreatePools G fname NewF B N PD).blocks r).countP isAnyPoolDestroy =
        (if r ∈ returnNodes B then N.length else 0)) ∧
    (OriginalOnly B → EntryHasNoPredecessor B → ∀ p, IsEntryToReturnPath B p →
      ∀ i n, N[i]? = some n →
        (pathTrace (CreatePools G fname NewF B N PD).blocks p).countP (isPoolInit i) = 1 ∧
        (pathTrace (CreatePools G fname NewF B N PD).blocks p).countP (isPoolDestroy i) = 1 ∧
        ∃ X Y, pathTrace (CreatePools G fname NewF B N PD).blocks p =
            X ++ Instruction.callPoolInit i (elSize G n) :: Y ∧
          Instruction.callPoolDestroy i ∈ Y) := by
  refine ⟨⟨(CreatePools_rep G fname NewF B N PD).1, (CreatePools_rep G fname NewF B N PD).2.1⟩,
    ?_, ?_, ?_⟩
  · intro hB
    refine ⟨(CreatePools_rep G fname NewF B N PD).2.2 hB, fun i n hi => ?_⟩
    obtain ⟨X, Y, h1, h2, _⟩ := CreatePools_entry_split G fname NewF B N PD i n hi hB
    exact ⟨X, Y, h1, h2⟩
  · intro hO r
    exact ⟨fun i n hi => ⟨CreatePools_countP_init G fname NewF B N PD hO i n hi r,
      CreatePools_countP_destroy G fname NewF B N PD hO i n hi r⟩,
      CreatePools_countP_anyDestroy G fname NewF B N PD hO r⟩
  · intro hO hE p hp i n hi
    have hB : B ≠ [] := by
      intro he
      obtain ⟨_, _, last, b, _, hb, _⟩ := hp
      rw [he] at hb
      simp at hb
    have hI0 := CreatePools_countP_init G fname NewF B N PD hO i n hi 0
    rw [if_pos ⟨rfl, hB⟩] at hI0
    obtain ⟨X, Y, h1, _, h3⟩ := CreatePools_entry_split G fname NewF B N PD i n hi hB
    exact path_trace B (blockInsts (CreatePools G fname NewF B N PD).blocks)
      (isPoolInit i) (isPoolDestroy i) _ _
      (fun r hr => by
        rw [CreatePools_countP_init G fname NewF B N PD hO i n hi r]
        exact if_neg (fun hc => hr hc.1))
      hI0
      (CreatePools_countP_destroy G fname NewF B N PD hO i n hi)
      (CreatePools_mem_destroy G fname NewF B N PD i n hi)
      ⟨X, Y, h1, h3⟩ hE p hp

theorem exBranchBlocks_original : OriginalOnly exBranchBlocks := by
  intro b hb x hx
  simp only [exBranchBlocks, List.mem_cons, List.mem_singleton, List.not_mem_nil,
    or_false] at hb
  rcases hb with h | h | h <;> subst h <;> simp at hx <;> exact ⟨_, hx⟩

theorem exBranchBlocks_entry : EntryHasNoPredecessor exBranchBlocks := by
  intro r
  match r with
  | 0 => decide
  | 1 => decide
  | 2 => decide
  | _ + 3 => simp [successors, exBranchBlocks]

theorem exBranchBlocks_path : IsEntryToReturnPath exBranchBlocks [0, 2] :=
  ⟨rfl, by simp [successors, exBranchBlocks],
    2, { insts := [], term := Terminator.ret }, rfl, rfl, rfl⟩

/-- C7 at the example: with two nodes to pool, the path through blocks 0 and
2 creates pool 1 once and destroys it once. -/
theorem C7_create_pools_witness :
    exBranchBlocks ≠ [] ∧ OriginalOnly exBranchBlocks ∧
      EntryHasNoPredecessor exBranchBlocks ∧ IsEntryToReturnPath exBranchBlocks [0, 2] ∧
      (pathTrace (CreatePools exArgGraph "f" 0 exBranchBlocks [1, 0] []).blocks
        [0, 2]).countP (isPoolInit 1) = 1 ∧
      (pathTrace (CreatePools exArgGraph "f" 0 exBranchBlocks [1, 0] []).blocks
        [0, 2]).countP (isPoolDestroy 1) = 1 :=
  ⟨by decide, exBranchBlocks_original, exBranchBlocks_entry, exBranchBlocks_path,
   ((C7_create_pools exArgGraph "f" 0 exBranchBlocks [1, 0] []).2.2.2
      exBranchBlocks_original exBranchBlocks_entry [0, 2] exBranchBlocks_path 1 0 rfl).1,
   ((C7_create_pools exArgGraph "f" 0 exBranchBlocks [1, 0] []).2.2.2
      exBranchBlocks_original exBranchBlocks_entry [0, 2] exBranchBlocks_path 1 0 rfl).2.1⟩

/-! ## The planning phase -/

theorem FindFunctionPoolArgs_of_empty (O : Oracle) (PA : PoolAllocate) (F : FuncId)
    (h : (O.BU F).nodes = []) : FindFunctionPoolArgs O PA F = PA := by
  unfold FindFunctionPoolArgs
  simp [h]

theorem firstPoolArg_nonneg (PA : PoolAllocate) (F : FuncId)
    (h : ∀ c w, PA.EqClass2LastPoolArg c = some w → 0 ≤ w) : 0 ≤ firstPoolArg PA F := by
  cases hc : findClass PA.FuncECs F with
  | none => simp [firstPoolArg, hc]
  | some c =>
    cases hw : PA.EqClass2LastPoolArg c with
    | none => simp [firstPoolArg, hc, hw]
    | some w =>
      have := h c w hw
      simp only [firstPoolArg, hc, hw]
      omega

theorem firstPoolArg_of_watermark (PA : PoolAllocate) (F c : FuncId) (W : Int)
    (hc : findClass PA.FuncECs F = some c) (hW : PA.EqClass2LastPoolArg c = some W) :
    firstPoolArg PA F = W + 1 := by
  simp [firstPoolArg, hc, hW]

theorem PlanInv_FindFunctionPoolArgs (O : Oracle) (PA : PoolAllocate) (F : FuncId)
    (h : PlanInv PA) : PlanInv (FindFunctionPoolArgs O PA F) := by
  by_cases hG : (O.BU F).nodes = []
  · rw [FindFunctionPoolArgs_of_empty O PA F hG]; exact h
  · obtain ⟨h1, h2, h3⟩ := h
    have hfirst := firstPoolArg_nonneg PA F h1
    have hinfo := FindFunctionPoolArgs_funcInfo O PA F hG
    have hwm := FindFunctionPoolArgs_watermark O PA F hG
    have hlenpos : liveNodes O PA F ≠ [] → (1 : Int) ≤ ((liveNodes O PA F).length : Int) := by
      intro hne
      have := List.length_pos.mpr hne
      omega
    refine ⟨?_, ?_, ?_⟩
    · intro c w hw
      rw [hwm c] at hw
      split_ifs at hw with hcond
      · injection hw with e
        have := hlenpos hcond.2
        omega
      · exact h1 c w hw
    · intro G c hc hm
      rw [FindFunctionPoolArgs_FuncECs] at hc
      by_cases hGF : G = F
      · subst hGF
        have hmk : (FindFunctionPoolArgs O PA G).marked G = liveNodes O PA G := by
          simp [PoolAllocate.marked, hinfo]
        rw [hmk] at hm ⊢
        refine ⟨firstPoolArg PA G + ((liveNodes O PA G).length : Int) - 1, ?_, ?_, ?_⟩
        · rw [hwm c, if_pos ⟨hc, hm⟩]
        · rw [hinfo]; exact hfirst
        · rw [hinfo]; simp
      · have hmk : (FindFunctionPoolArgs O PA F).marked G = PA.marked G := by
          simp [PoolAllocate.marked, FindFunctionPoolArgs_funcInfo_ne O PA F G hGF]
        rw [hmk] at hm ⊢
        rw [FindFunctionPoolArgs_funcInfo_ne O PA F G hGF]
        obtain ⟨W, hW, hW1, hW2⟩ := h2 G c hc hm
        by_cases hcond : findClass PA.FuncECs F = some c ∧ liveNodes O PA F ≠ []
        · refine ⟨firstPoolArg PA F + ((liveNodes O PA F).length : Int) - 1, ?_, hW1, ?_⟩
          · rw [hwm c, if_pos hcond]
          · rw [firstPoolArg_of_watermark PA F c W hcond.1 hW]
            have := hlenpos hcond.2
            omega
        · exact ⟨W, by rw [hwm c, if_neg hcond]; exact hW, hW1, hW2⟩
    · intro G
      by_cases hGF : G = F
      · subst hGF
        rw [hinfo]
        exact h3 G
      · rw [FindFunctionPoolArgs_funcInfo_ne O PA F G hGF]
        exact h3 G

theorem PlanInv_planPhase (O : Oracle) (l : List FuncId) (PA : PoolAllocate)
    (h : PlanInv PA) : PlanInv (planPhase O l PA) := by
  induction l generalizing PA with
  | nil => exact h
  | cons I rest ih =>
    simp only [planPhase]
    split_ifs
    · exact ih _ (PlanInv_FindFunctionPoolArgs O PA I h)
    · exact ih _ h

theorem planPhase_FuncECs (O : Oracle) (l : List FuncId) (PA : PoolAllocate) :
    (planPhase O l PA).FuncECs = PA.FuncECs := by
  induction l generalizing PA with
  | nil => rfl
  | cons I rest ih =>
    simp only [planPhase]
    split_ifs
    · rw [ih, FindFunctionPoolArgs_FuncECs]
    · exact ih _

theorem planPhase_CurModule (O : Oracle) (l : List FuncId) (PA : PoolAllocate) :
    (planPhase O l PA).CurModule = PA.CurModule := by
  induction l generalizing PA with
  | nil => rfl
  | cons I rest ih =>
    simp only [planPhase]
    split_ifs
    · rw [ih, FindFunctionPoolArgs_CurModule]
    · exact ih _

theorem classifyCallees_frame (cs : CallSite) (l : List GlobalValue)
    (running : Option FuncId) (PA : PoolAllocate) :
    (classifyCallees cs l running PA).EqClass2LastPoolArg = PA.EqClass2LastPoolArg ∧
      (classifyCallees cs l running PA).FunctionInfo = PA.FunctionInfo := by
  induction l generalizing running PA with
  | nil => exact ⟨rfl, rfl⟩
  | cons g rest ih =>
    cases g with
    | var v => exact ih running PA
    | function f =>
      cases running with
      | none => simp only [classifyCallees]; exact ih _ _
      | some r => simp only [classifyCallees]; exact ih _ _

theorem classifyCallSites_frame (TDG : DSGraph) (l : List DSCallSite) (PA : PoolAllocate) :
    (classifyCallSites TDG l PA).EqClass2LastPoolArg = PA.EqClass2LastPoolArg ∧
      (classifyCallSites TDG l PA).FunctionInfo = PA.FunctionInfo := by
  induction l generalizing PA with
  | nil => exact ⟨rfl, rfl⟩
  | cons c rest ih =>
    simp only [classifyCallSites]
    split_ifs
    all_goals first
      | exact ih _
      | (obtain ⟨i1, i2⟩ := ih (classifyCallees c.callSite (TDG.globals c.calleeNode) none _)
         obtain ⟨c1, c2⟩ := classifyCallees_frame c.callSite (TDG.globals c.calleeNode) none _
         exact ⟨i1.trans c1, i2.trans c2⟩)

theorem classifyFunctions_frame (O : Oracle) (l : List FuncId) (PA : PoolAllocate) :
    (classifyFunctions O l PA).EqClass2LastPoolArg = PA.EqClass2LastPoolArg ∧
      (classifyFunctions O l PA).FunctionInfo = PA.FunctionInfo := by
  induction l generalizing PA with
  | nil => exact ⟨rfl, rfl⟩
  | cons c rest ih =>
    simp only [classifyFunctions]
    split_ifs
    · exact ih _
    · obtain ⟨i1, i2⟩ := ih (classifyCallSites (O.TD c) (O.TD c).functionCalls PA)
      obtain ⟨c1, c2⟩ := classifyCallSites_frame (O.TD c) (O.TD c).functionCalls PA
      exact ⟨i1.trans c1, i2.trans c2⟩

theorem PlanInv_planned (O : Oracle) (M : Module) : PlanInv (planned O M) := by
  unfold planned
  apply PlanInv_planPhase
  obtain ⟨c1, c2⟩ := classifyFunctions_frame O
    (List.range (PoolAllocate.initial (AddPoolPrototypes M)).CurModule.functions.length)
    (PoolAllocate.initial (AddPoolPrototypes M))
  unfold buildIndirectFunctionSets
  have hFI : ∀ F, (classifyFunctions O
      (List.range (PoolAllocate.initial (AddPoolPrototypes M)).CurModule.functions.length)
      (PoolAllocate.initial (AddPoolPrototypes M))).funcInfo F = FuncInfo.fresh := by
    intro F
    unfold PoolAllocate.funcInfo
    rw [c2]
    rfl
  refine ⟨?_, ?_, ?_⟩
  · intro c w hw
    rw [c1] at hw
    simp [PoolAllocate.initial] at hw
  · intro F c _ hm
    exfalso
    apply hm
    unfold PoolAllocate.marked
    rw [hFI F]
    rfl
  · intro F
    rw [hFI F]
    exact ⟨rfl, rfl, rfl⟩

/-! ## The cloning phase -/

theorem cloneArgs_some (PA : PoolAllocate) (F : FuncId) (ArgTys : List Ty)
    (ArgNodes : List NodeId) (h : cloneArgs PA F (PA.funcInfo F) = some (ArgTys, ArgNodes)) :
    ArgTys = injectedTys PA F ∧ ArgNodes = (PA.funcInfo F).ArgNodes ++ PA.marked F ∧
      ArgNodes ≠ [] := by
  unfold cloneArgs at h
  unfold injectedTys PoolAllocate.marked
  cases hc : findClass PA.FuncECs F with
  | none =>
    simp only [hc] at h ⊢
    split_ifs at h with h1 h2
    injection h with e
    injection e with e1 e2
    refine ⟨?_, e2.symm, ?_⟩
    · rw [← e1]; exact List.map_const' _ _
    · rw [← e2]
      intro he
      rw [he] at h2
      exact h2 rfl
  | some c =>
    simp only [hc] at h ⊢
    cases hw : PA.EqClass2LastPoolArg c with
    | none => simp [hw] at h
    | some W =>
      simp only [hw] at h ⊢
      split_ifs at h with h2
      injection h with e
      injection e with e1 e2
      refine ⟨e1.symm, e2.symm, ?_⟩
      rw [← e2]
      intro he
      rw [he] at h2
      exact h2 rfl

theorem cloneArgs_isSome (PA : PoolAllocate) (F : FuncId) (hm : PA.marked F ≠ [])
    (hw : ∀ c, findClass PA.FuncECs F = some c → ∃ W, PA.EqClass2LastPoolArg c = some W) :
    ∃ ArgTys ArgNodes, cloneArgs PA F (PA.funcInfo F) = some (ArgTys, ArgNodes) := by
  have hne : ((PA.funcInfo F).ArgNodes ++ (PA.funcInfo F).MarkedNodes).isEmpty = false := by
    apply isEmpty_false_of_ne_nil
    intro he
    exact hm (List.append_eq_nil.mp he).2
  have hme : (PA.funcInfo F).MarkedNodes.isEmpty = false := isEmpty_false_of_ne_nil _ hm
  unfold cloneArgs
  cases hc : findClass PA.FuncECs F with
  | none => simp [hme, hne]
  | some c =>
    obtain ⟨W, hW⟩ := hw c hc
    simp [hW, hne]

/-- What a call of `MakeFunctionClone` that makes a clone does. -/
theorem MakeFunctionClone_some (O : Oracle) (PA : PoolAllocate) (F New : FuncId)
    (PA' : PoolAllocate) (h : MakeFunctionClone O PA F = (some New, PA')) :
    ∃ f ArgTys ArgNodes, PA.CurModule.functions[F]? = some f ∧ (O.BU F).nodes ≠ [] ∧
      cloneArgs PA F (PA.funcInfo F) = some (ArgTys, ArgNodes) ∧
      New = PA.CurModule.functions.length ∧
      PA' = ({ PA with CurModule :=
                { PA.CurModule with
                  functions := PA.CurModule.functions ++ [cloneFunction f ArgTys] } }
              ).setFuncInfo F
          { PA.funcInfo F with
            ArgNodes := ArgNodes
            PoolDescriptors := bindArgNodes PA.CurModule.functions.length ArgNodes
              (firstBoundArg PA F (PA.funcInfo F)) (PA.funcInfo F).PoolDescriptors
            NewToOldValueMap := invertValueMap (localValueMap PA F f ArgTys ArgNodes)
              (PA.funcInfo F).NewToOldValueMap
            Clone := some PA.CurModule.functions.length } := by
  unfold MakeFunctionClone at h
  cases hf : PA.CurModule.functions[F]? with
  | none => simp [hf] at h
  | some f =>
    simp only [hf] at h
    by_cases hG : (O.BU F).nodes.isEmpty = true
    · simp [hG] at h
    · simp only [hG] at h
      cases hca : cloneArgs PA F (PA.funcInfo F) with
      | none => simp [hca] at h
      | some p =>
        obtain ⟨ArgTys, ArgNodes⟩ := p
        simp only [hca] at h
        have hne : (O.BU F).nodes ≠ [] := by
          intro he
          rw [he] at hG
          exact hG rfl
        injection h with h1 h2
        injection h1 with h1
        exact ⟨f, ArgTys, ArgNodes, rfl, hne, rfl, h1.symm, h2.symm⟩

/-- What a call of `MakeFunctionClone` that returns null leaves. -/
theorem MakeFunctionClone_none (O : Oracle) (PA : PoolAllocate) (F : FuncId)
    (PA' : PoolAllocate) (h : MakeFunctionClone O PA F = (none, PA')) :
    PA' = PA ∨ PA' = PA.setFuncInfo F (PA.funcInfo F) := by
  unfold MakeFunctionClone at h
  cases hf : PA.CurModule.functions[F]? with
  | none =>
    simp only [hf] at h
    injection h with _ h2
    exact Or.inl h2.symm
  | some f =>
    simp only [hf] at h
    by_cases hG : (O.BU F).nodes.isEmpty = true
    · simp only [hG, if_true] at h
      injection h with _ h2
      exact Or.inl h2.symm
    · simp only [hG] at h
      cases hca : cloneArgs PA F (PA.funcInfo F) with
      | none =>
        simp only [hca] at h
        injection h with _ h2
        exact Or.inr h2.symm
      | some p =>
        simp [hca] at h

theorem funcInfo_setFuncInfo_self (PA : PoolAllocate) (F k : FuncId) :
    (PA.setFuncInfo F (PA.funcInfo F)).funcInfo k = PA.funcInfo k := by
  by_cases hk : k = F
  · subst hk; exact funcInfo_setFuncInfo_same _ _ _
  · exact funcInfo_setFuncInfo_ne _ _ _ _ hk

/-- What no call of `MakeFunctionClone` changes. -/
theorem MakeFunctionClone_frame (O : Oracle) (PA : PoolAllocate) (F : FuncId) :
    (MakeFunctionClone O PA F).2.FuncECs = PA.FuncECs ∧
      (MakeFunctionClone O PA F).2.EqClass2LastPoolArg = PA.EqClass2LastPoolArg ∧
      (MakeFunctionClone O PA F).2.CurModule.numGlobals = PA.CurModule.numGlobals ∧
      (∀ k, k ≠ F → (MakeFunctionClone O PA F).2.funcInfo k = PA.funcInfo k) ∧
      (∀ k, ((MakeFunctionClone O PA F).2.funcInfo k).MarkedNodes = (PA.funcInfo k).MarkedNodes ∧
        ((MakeFunctionClone O PA F).2.funcInfo k).PoolArgFirst = (PA.funcInfo k).PoolArgFirst ∧
        ((MakeFunctionClone O PA F).2.funcInfo k).PoolArgLast = (PA.funcInfo k).PoolArgLast) := by
  cases hR : MakeFunctionClone O PA F with
  | mk R PA' =>
    cases R with
    | none =>
      rcases MakeFunctionClone_none O PA F PA' hR with h | h
      · subst h
        exact ⟨rfl, rfl, rfl, fun k _ => rfl, fun k => ⟨rfl, rfl, rfl⟩⟩
      · subst h
        refine ⟨rfl, rfl, rfl, fun k _ => funcInfo_setFuncInfo_self _ _ _, fun k => ?_⟩
        rw [funcInfo_setFuncInfo_self]
        exact ⟨rfl, rfl, rfl⟩
    | some New =>
      obtain ⟨f, ArgTys, ArgNodes, _, _, _, _, hPA⟩ := MakeFunctionClone_some O PA F New PA' hR
      subst hPA
      refine ⟨rfl, rfl, rfl, fun k hk => ?_, fun k => ?_⟩
      · simp [PoolAllocate.funcInfo, PoolAllocate.setFuncInfo, hk]
      · by_cases hk : k = F
        · subst hk
          simp [PoolAllocate.funcInfo, PoolAllocate.setFuncInfo]
        · simp [PoolAllocate.funcInfo, PoolAllocate.setFuncInfo, hk]

theorem clonePhase_cons (O : Oracle) (I : FuncId) (rest : List FuncId) (PA : PoolAllocate)
    (FM : List (FuncId × FuncId)) :
    clonePhase O (I :: rest) (PA, FM) =
      if PA.isExternal I = true then clonePhase O rest (PA, FM)
      else clonePhase O rest ((MakeFunctionClone O PA I).2,
        match (MakeFunctionClone O PA I).1 with
        | some R => mapSet FM I R
        | none => FM) := by
  simp only [clonePhase]
  cases hE : PA.isExternal I with
  | true => simp
  | false =>
    simp only [Bool.not_false, if_true]
    cases hR : MakeFunctionClone O PA I with
    | mk R PA' =>
      cases R <;> simp

/-- What the cloning loop does not change. -/
theorem clonePhase_frame (O : Oracle) (l : List FuncId) :
    ∀ (PA : PoolAllocate) (FM : List (FuncId × FuncId)),
      (clonePhase O l (PA, FM)).1.FuncECs = PA.FuncECs ∧
      (clonePhase O l (PA, FM)).1.EqClass2LastPoolArg = PA.EqClass2LastPoolArg ∧
      (clonePhase O l (PA, FM)).1.CurModule.numGlobals = PA.CurModule.numGlobals ∧
      (∀ k, k ∉ l → (clonePhase O l (PA, FM)).1.funcInfo k = PA.funcInfo k) ∧
      (∀ k, ((clonePhase O l (PA, FM)).1.funcInfo k).MarkedNodes = (PA.funcInfo k).MarkedNodes ∧
        ((clonePhase O l (PA, FM)).1.funcInfo k).PoolArgFirst = (PA.funcInfo k).PoolArgFirst ∧
        ((clonePhase O l (PA, FM)).1.funcInfo k).PoolArgLast = (PA.funcInfo k).PoolArgLast) := by
  induction l with
  | nil => intro PA FM; exact ⟨rfl, rfl, rfl, fun k _ => rfl, fun k => ⟨rfl, rfl, rfl⟩⟩
  | cons I rest ih =>
    intro PA FM
    rw [clonePhase_cons]
    split_ifs
    · obtain ⟨a1, a2, a3, a4, a5⟩ := ih PA FM
      exact ⟨a1, a2, a3, fun k hk => a4 k (fun hc => hk (List.mem_cons_of_mem _ hc)), a5⟩
    · obtain ⟨a1, a2, a3, a4, a5⟩ := ih (MakeFunctionClone O PA I).2
        (match (MakeFunctionClone O PA I).1 with
          | some R => mapSet FM I R
          | none => FM)
      obtain ⟨b1, b2, b3, b4, b5⟩ := MakeFunctionClone_frame O PA I
      refine ⟨a1.trans b1, a2.trans b2, a3.trans b3, fun k hk => ?_, fun k => ?_⟩
      · rw [a4 k (fun hc => hk (List.mem_cons_of_mem _ hc))]
        exact b4 k (fun hc => hk (hc ▸ List.mem_cons_self _ _))
      · obtain ⟨c1, c2, c3⟩ := a5 k
        obtain ⟨d1, d2, d3⟩ := b5 k
        exact ⟨c1.trans d1, c2.trans d2, c3.trans d3⟩

theorem marked_clonePhase (O : Oracle) (l : List FuncId) (PA : PoolAllocate)
    (FM : List (FuncId × FuncId)) (k : FuncId) :
    (clonePhase O l (PA, FM)).1.marked k = PA.marked k :=
  ((clonePhase_frame O l PA FM).2.2.2.2 k).1

theorem injectedTys_congr (PA PA' : PoolAllocate) (F : FuncId)
    (h1 : PA'.FuncECs = PA.FuncECs) (h2 : PA'.EqClass2LastPoolArg = PA.EqClass2LastPoolArg)
    (h3 : PA'.marked F = PA.marked F) : injectedTys PA' F = injectedTys PA F := by
  unfold injectedTys
  rw [h1, h2, h3]

theorem injectedTys_replicate (PA : PoolAllocate) (F : FuncId) :
    injectedTys PA F = List.replicate (injectedTys PA F).length Ty.PoolDescPtrTy := by
  unfold injectedTys
  cases hc : findClass PA.FuncECs F with
  | none => simp
  | some c =>
    cases hW : PA.EqClass2LastPoolArg c with
    | none => simp [hW]
    | some W => simp [hW]

/-! ## Number of injected parameters (C1) -/

/-- C1: every clone that `MakeFunctionClone` returns during the cloning phase
of a run has its pool descriptor parameters in front of the parameters of the
function, as many as the function has live nodes when it has no class, and as
many as the watermark of its class plus one when it has a class. -/
theorem C1_injected_parameter_count (O : Oracle) (M : Module) (pre : List FuncId)
    (F New : FuncId) (PA' : PoolAllocate)
    (h : MakeFunctionClone O (clonePhase O pre (planned O M, [])).1 F = (some New, PA')) :
    ∃ f newF k, (clonePhase O pre (planned O M, [])).1.CurModule.functions[F]? = some f ∧
      PA'.CurModule.functions[New]? = some newF ∧
      newF.paramTypes = List.replicate k Ty.PoolDescPtrTy ++ f.paramTypes ∧
      (findClass (planned O M).FuncECs F = none → k = ((planned O M).marked F).length) ∧
      (∀ c, findClass (planned O M).FuncECs F = some c →
        ∃ W, (planned O M).EqClass2LastPoolArg c = some W ∧ (k : Int) = W + 1) := by
  obtain ⟨f, ArgTys, ArgNodes, hf, _, hca, hNew, hPA⟩ := MakeFunctionClone_some O _ F New PA' h
  obtain ⟨hTys, _, _⟩ := cloneArgs_some _ F ArgTys ArgNodes hca
  obtain ⟨e1, e2, _, _, _⟩ := clonePhase_frame O pre (planned O M) []
  have e3 := marked_clonePhase O pre (planned O M) [] F
  rw [injectedTys_congr _ _ F e1 e2 e3] at hTys
  obtain ⟨w1, _, _⟩ := PlanInv_planned O M
  refine ⟨f, cloneFunction f ArgTys, ArgTys.length, hf, ?_, ?_, ?_, ?_⟩
  · subst hPA hNew
    simp [PoolAllocate.setFuncInfo]
  · rw [hTys]
    show (injectedTys (planned O M) F) ++ f.paramTypes = _
    rw [← injectedTys_replicate]
  · intro hc
    rw [hTys]
    simp [injectedTys, hc]
  · intro c hc
    cases hW : (planned O M).EqClass2LastPoolArg c with
    | none =>
      exfalso
      unfold cloneArgs at hca
      have hc' : findClass (clonePhase O pre (planned O M, [])).1.FuncECs F = some c := by
        rw [e1]; exact hc
      simp [hc', e2, hW] at hca
    | some W =>
      refine ⟨W, rfl, ?_⟩
      rw [hTys]
      have := w1 c W hW
      simp only [injectedTys, hc, hW, List.length_replicate]
      omega

/-- C1 at the example: `f` is in the class of `f` and `g`, whose watermark is
0 after planning; its clone has one pool descriptor parameter. -/
theorem C1_injected_parameter_count_witness :
    MakeFunctionClone exOracle (clonePhase exOracle [] (planned exOracle exModule, [])).1 0 =
        (some 7,
          (MakeFunctionClone exOracle
            (clonePhase exOracle [] (planned exOracle exModule, [])).1 0).2) ∧
      ∃ f newF k,
        (clonePhase exOracle [] (planned exOracle exModule, [])).1.CurModule.functions[0]? =
          some f ∧
        (MakeFunctionClone exOracle (clonePhase exOracle [] (planned exOracle exModule, [])).1
          0).2.CurModule.functions[7]? = some newF ∧
        newF.paramTypes = List.replicate k Ty.PoolDescPtrTy ++ f.paramTypes ∧
        (findClass (planned exOracle exModule).FuncECs 0 = none →
          k = ((planned exOracle exModule).marked 0).length) ∧
        (∀ c, findClass (planned exOracle exModule).FuncECs 0 = some c →
          ∃ W, (planned exOracle exModule).EqClass2LastPoolArg c = some W ∧ (k : Int) = W + 1) :=
  ⟨Prod.ext (by decide) rfl,
   C1_injected_parameter_count exOracle exModule [] 0 7 _ (Prod.ext (by decide) rfl)⟩

/-! ## Maps -/

theorem mapFind_nil {α β : Type} [DecidableEq α] (k : α) :
    mapFind ([] : List (α × β)) k = none := rfl

theorem mapFind_cons {α β : Type} [DecidableEq α] (e : α × β) (m : List (α × β)) (k : α) :
    mapFind (e :: m) k = if e.1 = k then some e.2 else mapFind m k := by
  unfold mapFind
  by_cases h : e.1 = k
  · simp [List.find?_cons, h]
  · simp [List.find?_cons, h]

theorem mapFind_eq_none_iff {α β : Type} [DecidableEq α] (m : List (α × β)) (k : α) :
    mapFind m k = none ↔ k ∉ m.map Prod.fst := by
  induction m with
  | nil => simp [mapFind_nil]
  | cons e m ih =>
    rw [mapFind_cons]
    by_cases h : e.1 = k
    · simp [h]
    · have h' : ¬ k = e.1 := fun hc => h hc.symm
      simp [h, h', ih]

theorem mapFind_append_singleton {α β : Type} [DecidableEq α] (m : List (α × β))
    (k k' : α) (v : β) :
    mapFind (m ++ [(k, v)]) k' =
      match mapFind m k' with
      | some x => some x
      | none => if k = k' then some v else none := by
  induction m with
  | nil => simp [mapFind_cons, mapFind_nil]
  | cons e m ih =>
    rw [List.cons_append, mapFind_cons, mapFind_cons]
    by_cases h : e.1 = k'
    · simp [h]
    · simp [h, ih]

theorem mapFind_mapInsert {α β : Type} [DecidableEq α] (m : List (α × β)) (k k' : α) (v : β) :
    mapFind (mapInsert m k v) k' =
      match mapFind m k' with
      | some x => some x
      | none => if k = k' then some v else none := by
  unfold mapInsert
  by_cases h : k ∈ m.map Prod.fst
  · rw [if_pos h]
    cases hf : mapFind m k' with
    | some x => rfl
    | none =>
      have hk' := (mapFind_eq_none_iff m k').mp hf
      have : ¬ k = k' := fun hc => hk' (hc ▸ h)
      simp [this]
  · rw [if_neg h, mapFind_append_singleton]

theorem mapFind_map_replace {α β : Type} [DecidableEq α] (m : List (α × β)) (k k' : α)
    (v : β) :
    mapFind (m.map (fun e => if e.1 = k then (k, v) else e)) k' =
      if k' = k then (if k ∈ m.map Prod.fst then some v else none) else mapFind m k' := by
  induction m with
  | nil => simp [mapFind_nil]
  | cons e m ih =>
    rw [List.map_cons, mapFind_cons, mapFind_cons, ih]
    by_cases he : e.1 = k
    · by_cases hk : k' = k
      · subst hk; simp [he]
      · have h1 : ¬ k = k' := fun hc => hk hc.symm
        have h2 : ¬ e.1 = k' := fun hc => hk (hc.symm.trans he)
        simp [he, hk, h1, h2]
    · by_cases hk : k' = k
      · subst hk
        have h1 : ¬ k' = e.1 := fun hc => he hc.symm
        have h2 : k' ∈ e.1 :: List.map Prod.fst m ↔ k' ∈ List.map Prod.fst m := by
          rw [List.mem_cons]
          exact ⟨fun h => h.resolve_left h1, Or.inr⟩
        simp only [he, if_false, if_true, List.map_cons]
        by_cases h3 : k' ∈ List.map Prod.fst m
        · rw [if_pos h3, if_pos (h2.mpr h3)]
        · rw [if_neg h3, if_neg (fun hc => h3 (h2.mp hc))]
      · simp [he, hk]

theorem mapFind_mapSet {α β : Type} [DecidableEq α] (m : List (α × β)) (k k' : α) (v : β) :
    mapFind (mapSet m k v) k' = if k' = k then some v else mapFind m k' := by
  unfold mapSet
  by_cases h : k ∈ m.map Prod.fst
  · rw [if_pos h, mapFind_map_replace, if_pos h]
  · rw [if_neg h, mapFind_append_singleton]
    have hn := (mapFind_eq_none_iff m k).mpr h
    by_cases hk : k' = k
    · subst hk
      simp [hn]
    · have : ¬ k = k' := fun hc => hk hc.symm
      cases hf : mapFind m k' <;> simp [hk, this]

/-! ## Invariant of the cloning phase -/

theorem getElem?_append_of_some {α : Type} (l e : List α) (i : Nat) (a : α)
    (h : l[i]? = some a) : (l ++ e)[i]? = some a := by
  rw [List.getElem?_append_left (getElem?_lt_length l i a h)]
  exact h

theorem MakeFunctionClone_isSome (O : Oracle) (PA : PoolAllocate) (F : FuncId) (f : Function)
    (ArgTys : List Ty) (ArgNodes : List NodeId)
    (hf : PA.CurModule.functions[F]? = some f) (hG : (O.BU F).nodes ≠ [])
    (hca : cloneArgs PA F (PA.funcInfo F) = some (ArgTys, ArgNodes)) :
    (MakeFunctionClone O PA F).1 = some PA.CurModule.functions.length := by
  unfold MakeFunctionClone
  simp [hf, isEmpty_false_of_ne_nil _ hG, hca]

theorem ClonedAs_congr (P0 PA PA' : PoolAllocate) (F N : FuncId)
    (hm : ∀ (i : Nat) (a : Function), PA.CurModule.functions[i]? = some a →
      PA'.CurModule.functions[i]? = some a)
    (hi : PA'.funcInfo F = PA.funcInfo F) (h : ClonedAs P0 PA F N) : ClonedAs P0 PA' F N := by
  obtain ⟨h1, ⟨f, h2, h3⟩, h4, h5, h6, h7⟩ := h
  refine ⟨h1, ⟨f, hm _ _ h2, hm _ _ h3⟩, h4, ?_, ?_, ?_⟩
  · rw [hi]; exact h5
  · rw [hi]; exact h6
  · rw [hi]; exact h7

theorem CloneInv_of_none (P0 PA PA' : PoolAllocate) (FM : List (FuncId × FuncId))
    (F : FuncId) (hPA : PA' = PA ∨ PA' = PA.setFuncInfo F (PA.funcInfo F)) (h : CloneInv P0 PA FM) :
    CloneInv P0 PA' FM := by
  rcases hPA with e | e
  · rw [e]; exact h
  · obtain ⟨h1, h2, h3, h4, h5, h6, h7⟩ := h
    have hfi : ∀ k, PA'.funcInfo k = PA.funcInfo k := by
      intro k; rw [e]; exact funcInfo_setFuncInfo_self _ _ _
    have hmod : PA'.CurModule = PA.CurModule := by rw [e]; rfl
    refine ⟨by rw [e]; exact h1, by rw [e]; exact h2, by rw [hmod]; exact h3, ?_, ?_, ?_, h7⟩
    · intro k; rw [hfi k]; exact h4 k
    · intro k hk; rw [hfi k]; exact h5 k hk
    · intro k N hk
      exact ClonedAs_congr P0 PA PA' k N (fun i a hia => by rw [hmod]; exact hia) (hfi k)
        (h6 k N hk)

/-- One round of the cloning loop keeps the invariant. -/
theorem CloneInv_step (O : Oracle) (P0 PA : PoolAllocate) (FM : List (FuncId × FuncId))
    (I : FuncId) (hP : PlanInv P0) (h : CloneInv P0 PA FM) (hI : mapFind FM I = none) :
    CloneInv P0 (MakeFunctionClone O PA I).2
        (match (MakeFunctionClone O PA I).1 with
          | some R => mapSet FM I R
          | none => FM) ∧
      (∀ F, F ≠ I →
        mapFind (match (MakeFunctionClone O PA I).1 with
          | some R => mapSet FM I R
          | none => FM) F = mapFind FM F) ∧
      (PA.isExternal I = false → (O.BU I).nodes ≠ [] → P0.marked I ≠ [] →
        (MakeFunctionClone O PA I).1 ≠ none) := by
  have h' := h
  obtain ⟨h1, h2, ⟨ext, h3⟩, h4, h5, h6, h7⟩ := h
  have hfiI : PA.funcInfo I = P0.funcInfo I := h5 I hI
  have hmk : PA.marked I = P0.marked I := by
    unfold PoolAllocate.marked; rw [hfiI]
  refine ⟨?_, ?_, ?_⟩
  · cases hR : MakeFunctionClone O PA I with
    | mk R PA' =>
      cases R with
      | none => exact CloneInv_of_none P0 PA PA' FM I (MakeFunctionClone_none O PA I PA' hR) h'
      | some New =>
        obtain ⟨f, ArgTys, ArgNodes, hf, hG, hca, hNew, hPA⟩ :=
          MakeFunctionClone_some O PA I New PA' hR
        obtain ⟨hTys, hNodes, hNe⟩ := cloneArgs_some PA I ArgTys ArgNodes hca
        have hTys0 : ArgTys = injectedTys P0 I := by
          rw [hTys]; exact injectedTys_congr P0 PA I h1 h2 hmk
        have hNodes0 : ArgNodes = P0.marked I := by
          rw [hNodes, hfiI, (hP.2.2 I).1, hmk]; rfl
        have hfun : PA'.CurModule.functions = PA.CurModule.functions ++ [cloneFunction f ArgTys] := by
          rw [hPA]; rfl
        have hstable : ∀ (i : Nat) (a : Function), PA.CurModule.functions[i]? = some a →
            PA'.CurModule.functions[i]? = some a := by
          intro i a hia
          rw [hfun]; exact getElem?_append_of_some _ _ _ _ hia
        have hother : ∀ k, k ≠ I → PA'.funcInfo k = PA.funcInfo k := by
          intro k hk
          rw [hPA]
          simp [PoolAllocate.funcInfo, PoolAllocate.setFuncInfo, hk]
        have hself : PA'.funcInfo I =
            { PA.funcInfo I with
              ArgNodes := ArgNodes
              PoolDescriptors := bindArgNodes PA.CurModule.functions.length ArgNodes
                (firstBoundArg PA I (PA.funcInfo I)) (PA.funcInfo I).PoolDescriptors
              NewToOldValueMap := invertValueMap (localValueMap PA I f ArgTys ArgNodes)
                (PA.funcInfo I).NewToOldValueMap
              Clone := some PA.CurModule.functions.length } := by
          rw [hPA]
          simp [PoolAllocate.funcInfo, PoolAllocate.setFuncInfo]
        have hlen0 : P0.CurModule.functions.length ≤ New := by
          rw [hNew, h3]; simp
        simp only []
        refine ⟨by rw [hPA]; exact h1, by rw [hPA]; exact h2,
          ⟨ext ++ [cloneFunction f ArgTys], by rw [hfun, h3, List.append_assoc]⟩, ?_, ?_, ?_, ?_⟩
        · intro k
          by_cases hk : k = I
          · subst hk; rw [hself]; exact h4 k
          · rw [hother k hk]; exact h4 k
        · intro k hk
          rw [mapFind_mapSet] at hk
          by_cases hkI : k = I
          · rw [if_pos hkI] at hk; cases hk
          · rw [if_neg hkI] at hk
            rw [hother k hkI]; exact h5 k hk
        · intro k N hk
          rw [mapFind_mapSet] at hk
          by_cases hkI : k = I
          · rw [if_pos hkI] at hk
            injection hk with hN
            subst hkI
            subst hN
            refine ⟨hlen0, ⟨f, hstable _ _ hf, ?_⟩, ?_, ?_, ?_, ?_⟩
            · rw [hfun, hNew, ← hTys0]
              simp
            · rw [← hNodes0]; exact hNe
            · rw [hself, hNew]
            · rw [hself]; exact hNodes0
            · rw [hself]
              simp only []
              rw [hfiI, (hP.2.2 k).2.1, hNodes0, hNew]
              unfold firstBoundArg
              rw [h1]
          · rw [if_neg hkI] at hk
            exact ClonedAs_congr P0 PA PA' k N hstable (hother k hkI) (h6 k N hk)
        · intro F1 F2 N hF1 hF2
          rw [mapFind_mapSet] at hF1 hF2
          have hfresh : ∀ k, mapFind FM k = some New → False := by
            intro k hk
            obtain ⟨_, ⟨f', _, hN'⟩, _⟩ := h6 k New hk
            have hlt := getElem?_lt_length _ _ _ hN'
            rw [hNew] at hlt
            exact Nat.lt_irrefl _ hlt
          by_cases a1 : F1 = I
          · by_cases a2 : F2 = I
            · rw [a1, a2]
            · rw [if_pos a1] at hF1
              rw [if_neg a2] at hF2
              injection hF1 with e
              subst e
              exact absurd hF2 (fun hc => hfresh F2 hc)
          · by_cases a2 : F2 = I
            · rw [if_neg a1] at hF1
              rw [if_pos a2] at hF2
              injection hF2 with e
              subst e
              exact absurd hF1 (fun hc => hfresh F1 hc)
            · rw [if_neg a1] at hF1
              rw [if_neg a2] at hF2
              exact h7 F1 F2 N hF1 hF2
  · intro F hF
    cases (MakeFunctionClone O PA I).1 with
    | none => rfl
    | some R => simp only []; rw [mapFind_mapSet, if_neg hF]
  · intro hE hG hm
    have hf : ∃ f, PA.CurModule.functions[I]? = some f := by
      cases hf : PA.CurModule.functions[I]? with
      | none => simp [PoolAllocate.isExternal, hf] at hE
      | some f => exact ⟨f, rfl⟩
    obtain ⟨f, hf⟩ := hf
    obtain ⟨ArgTys, ArgNodes, hca⟩ := cloneArgs_isSome PA I (by rw [hmk]; exact hm) (by
      intro c hc
      rw [h1] at hc
      obtain ⟨W, hW, _⟩ := hP.2.1 I c hc hm
      exact ⟨W, by rw [h2]; exact hW⟩)
    rw [MakeFunctionClone_isSome O PA I f ArgTys ArgNodes hf hG hca]
    simp

theorem MakeFunctionClone_functions (O : Oracle) (PA : PoolAllocate) (F : FuncId) :
    ∃ e, (MakeFunctionClone O PA F).2.CurModule.functions = PA.CurModule.functions ++ e := by
  cases hR : MakeFunctionClone O PA F with
  | mk R PA' =>
    cases R with
    | none =>
      rcases MakeFunctionClone_none O PA F PA' hR with h | h
      · exact ⟨[], by rw [h]; simp⟩
      · exact ⟨[], by rw [h]; simp [PoolAllocate.setFuncInfo]⟩
    | some New =>
      obtain ⟨f, ArgTys, ArgNodes, _, _, _, _, hPA⟩ := MakeFunctionClone_some O PA F New PA' hR
      exact ⟨[cloneFunction f ArgTys], by rw [hPA]; rfl⟩

theorem isExternal_of_append (PA PA' : PoolAllocate) (e : List Function) (F : FuncId)
    (h : PA'.CurModule.functions = PA.CurModule.functions ++ e)
    (hE : PA.isExternal F = false) : PA'.isExternal F = false := by
  unfold PoolAllocate.isExternal at hE ⊢
  cases hf : PA.CurModule.functions[F]? with
  | none => simp [hf] at hE
  | some f =>
    rw [h, getElem?_append_of_some _ _ _ _ hf]
    simpa [hf] using hE

/-- The cloning loop keeps the invariant, keeps the entries of `FuncMap`, and
clones every function with a body, a graph with nodes and live nodes. -/
theorem CloneInv_clonePhase (O : Oracle) (P0 : PoolAllocate) (hP : PlanInv P0) :
    ∀ (l : List FuncId) (PA : PoolAllocate) (FM : List (FuncId × FuncId)),
      CloneInv P0 PA FM → l.Nodup → (∀ F ∈ l, mapFind FM F = none) →
      CloneInv P0 (clonePhase O l (PA, FM)).1 (clonePhase O l (PA, FM)).2 ∧
      (∀ F N, mapFind FM F = some N → mapFind (clonePhase O l (PA, FM)).2 F = some N) ∧
      (∀ F ∈ l, PA.isExternal F = false → (O.BU F).nodes ≠ [] → P0.marked F ≠ [] →
        mapFind (clonePhase O l (PA, FM)).2 F ≠ none) := by
  intro l
  induction l with
  | nil =>
    intro PA FM h _ _
    exact ⟨h, fun F N hF => hF, fun F hF => absurd hF (List.not_mem_nil F)⟩
  | cons I rest ih =>
    intro PA FM h hnd hnone
    have hI : mapFind FM I = none := hnone I (List.mem_cons_self _ _)
    have hIrest : I ∉ rest := (List.nodup_cons.mp hnd).1
    rw [clonePhase_cons]
    by_cases hE : PA.isExternal I = true
    · rw [if_pos hE]
      obtain ⟨i1, i2, i3⟩ := ih PA FM h (List.nodup_cons.mp hnd).2
        (fun F hF => hnone F (List.mem_cons_of_mem _ hF))
      refine ⟨i1, i2, ?_⟩
      intro F hF hFE hG hm
      rcases List.mem_cons.mp hF with h0 | hr
      · subst h0; rw [hE] at hFE; cases hFE
      · exact i3 F hr hFE hG hm
    · rw [if_neg hE]
      obtain ⟨s1, s2, s3⟩ := CloneInv_step O P0 PA FM I hP h hI
      obtain ⟨i1, i2, i3⟩ := ih _ _ s1 (List.nodup_cons.mp hnd).2 (by
        intro F hF
        have hFI : F ≠ I := fun hc => hIrest (hc ▸ hF)
        rw [s2 F hFI]
        exact hnone F (List.mem_cons_of_mem _ hF))
      refine ⟨i1, ?_, ?_⟩
      · intro F N hF
        have hFI : F ≠ I := by
          intro hc
          rw [hc, hI] at hF
          cases hF
        exact i2 F N (by rw [s2 F hFI]; exact hF)
      · intro F hF hFE hG hm
        rcases List.mem_cons.mp hF with h0 | hr
        · subst h0
          have hsome := s3 hFE hG hm
          obtain ⟨R, hR⟩ : ∃ R, (MakeFunctionClone O PA F).1 = some R := by
            cases hR : (MakeFunctionClone O PA F).1 with
            | none => exact absurd hR hsome
            | some R => exact ⟨R, rfl⟩
          have hset : mapFind (match (MakeFunctionClone O PA F).1 with
              | some R => mapSet FM F R
              | none => FM) F = some R := by
            rw [hR]
            simp only []
            rw [mapFind_mapSet, if_pos rfl]
          intro hc
          rw [i2 F R hset] at hc
          cases hc
        · obtain ⟨e, he⟩ := MakeFunctionClone_functions O PA I
          exact i3 F hr (isExternal_of_append PA _ e F he hFE) hG hm

theorem CloneInv_initial (P0 : PoolAllocate) : CloneInv P0 P0 [] :=
  ⟨rfl, rfl, ⟨[], by simp⟩, fun _ => ⟨rfl, rfl, rfl⟩, fun _ _ => rfl,
    fun F N h => by simp [mapFind_nil] at h, fun F1 F2 N h => by simp [mapFind_nil] at h⟩

/-- The state when the cloning phase of a run is over. -/
theorem CloneInv_cloned (O : Oracle) (M : Module) :
    CloneInv (planned O M) (cloned O M).1 (cloned O M).2 ∧
      (∀ F, F < (planned O M).CurModule.functions.length →
        (planned O M).isExternal F = false → (O.BU F).nodes ≠ [] →
        (planned O M).marked F ≠ [] → mapFind (cloned O M).2 F ≠ none) := by
  obtain ⟨h1, _, h3⟩ := CloneInv_clonePhase O (planned O M) (PlanInv_planned O M)
    (List.range (planned O M).CurModule.functions.length) (planned O M) []
    (CloneInv_initial _) (List.nodup_range _) (fun F _ => mapFind_nil F)
  exact ⟨h1, fun F hF => h3 F (List.mem_range.mpr hF)⟩

/-! ## Clones of one class (C2) -/

/-- C2: when the cloning phase of a run is over, two functions of one class
that both have a clone in `FuncMap` have clones with the same number of pool
descriptor parameters in front of their own parameters. -/
theorem C2_class_clones_same_arity (O : Oracle) (M : Module) (F1 F2 N1 N2 c : FuncId)
    (h1 : mapFind (cloned O M).2 F1 = some N1) (h2 : mapFind (cloned O M).2 F2 = some N2)
    (hc1 : findClass (cloned O M).1.FuncECs F1 = some c)
    (hc2 : findClass (cloned O M).1.FuncECs F2 = some c) :
    ∃ k f1 f2 n1 n2, (cloned O M).1.CurModule.functions[F1]? = some f1 ∧
      (cloned O M).1.CurModule.functions[F2]? = some f2 ∧
      (cloned O M).1.CurModule.functions[N1]? = some n1 ∧
      (cloned O M).1.CurModule.functions[N2]? = some n2 ∧
      n1.paramTypes = List.replicate k Ty.PoolDescPtrTy ++ f1.paramTypes ∧
      n2.paramTypes = List.replicate k Ty.PoolDescPtrTy ++ f2.paramTypes := by
  obtain ⟨⟨e1, _, _, _, _, h6, _⟩, _⟩ := CloneInv_cloned O M
  obtain ⟨_, ⟨f1, a1, a2⟩, _⟩ := h6 F1 N1 h1
  obtain ⟨_, ⟨f2, b1, b2⟩, _⟩ := h6 F2 N2 h2
  rw [e1] at hc1 hc2
  have hsame : injectedTys (planned O M) F1 = injectedTys (planned O M) F2 := by
    unfold injectedTys
    rw [hc1, hc2]
  refine ⟨(injectedTys (planned O M) F1).length, f1, f2, _, _, a1, b1, a2, b2, ?_, ?_⟩
  · show injectedTys (planned O M) F1 ++ f1.paramTypes = _
    rw [← injectedTys_replicate]
  · show injectedTys (planned O M) F2 ++ f2.paramTypes = _
    rw [hsame, ← injectedTys_replicate]

/-- C2 at the example where `f` and `g` both have live nodes: their clones
are the functions 7 and 8. -/
theorem C2_class_clones_same_arity_witness :
    mapFind (cloned exOracle2 exModule).2 0 = some 7 ∧
      mapFind (cloned exOracle2 exModule).2 1 = some 8 ∧
      findClass (cloned exOracle2 exModule).1.FuncECs 0 = some 0 ∧
      findClass (cloned exOracle2 exModule).1.FuncECs 1 = some 0 ∧
      ∃ k f1 f2 n1 n2, (cloned exOracle2 exModule).1.CurModule.functions[0]? = some f1 ∧
        (cloned exOracle2 exModule).1.CurModule.functions[1]? = some f2 ∧
        (cloned exOracle2 exModule).1.CurModule.functions[7]? = some n1 ∧
        (cloned exOracle2 exModule).1.CurModule.functions[8]? = some n2 ∧
        n1.paramTypes = List.replicate k Ty.PoolDescPtrTy ++ f1.paramTypes ∧
        n2.paramTypes = List.replicate k Ty.PoolDescPtrTy ++ f2.paramTypes :=
  ⟨by decide, by decide, by decide, by decide,
   C2_class_clones_same_arity exOracle2 exModule 0 1 7 8 0 (by decide) (by decide)
     (by decide) (by decide)⟩

/-! ## A class member without live nodes (C3) -/

/-- C3 on the example: `g` has a body and a graph with a node, it is in the
class of `f`, which has a watermark after planning, and it has no live node;
`MakeFunctionClone` returns null for it, in the run as well, while `f` is
cloned. -/
theorem C3_class_member_without_live_nodes_is_not_cloned :
    (planned exOracle exModule).isExternal 1 = false ∧ (exOracle.BU 1).nodes ≠ [] ∧
      findClass (planned exOracle exModule).FuncECs 1 = some 0 ∧
      findClass (planned exOracle exModule).FuncECs 0 = some 0 ∧
      (planned exOracle exModule).EqClass2LastPoolArg 0 = some 0 ∧
      (planned exOracle exModule).marked 0 = [0] ∧
      (planned exOracle exModule).marked 1 = [] ∧
      (MakeFunctionClone exOracle (planned exOracle exModule) 1).1 = none ∧
      mapFind (cloned exOracle exModule).2 0 = some 7 ∧
      mapFind (cloned exOracle exModule).2 1 = none := by
  decide

/-! ## Signature of a clone (C10) -/

theorem mapFind_mapOldArgs (F New : FuncId) (pos i : Nat) :
    ∀ (l : List Nat) (VM : List (Value × Value)),
      mapFind (mapOldArgs F New pos l VM) (Value.argument F i) =
        if i ∈ l then some (Value.argument New (pos + i)) else mapFind VM (Value.argument F i) := by
  intro l
  induction l with
  | nil => intro VM; simp [mapOldArgs]
  | cons j rest ih =>
    intro VM
    simp only [mapOldArgs]
    rw [ih, mapFind_mapSet]
    by_cases hr : i ∈ rest
    · simp [hr]
    · by_cases hij : i = j
      · subst hij; simp [hr]
      · have : ¬ Value.argument F i = Value.argument F j := by
          intro hc; injection hc with _ e; exact hij e
        simp [hr, hij, this]

theorem mapFind_mapIdentity (K : Value) :
    ∀ (vs : List Value) (VM : List (Value × Value)), K ∉ vs →
      mapFind (mapIdentity vs VM) K = mapFind VM K := by
  intro vs
  induction vs with
  | nil => intro VM _; rfl
  | cons v rest ih =>
    intro VM hK
    have h1 : K ≠ v := fun hc => hK (hc ▸ List.mem_cons_self _ _)
    have h2 : K ∉ rest := fun hc => hK (List.mem_cons_of_mem _ hc)
    unfold mapIdentity
    rw [List.foldl_cons]
    have := ih (mapSet VM v v) h2
    unfold mapIdentity at this
    rw [this, mapFind_mapSet, if_neg h1]

theorem mapFind_foldl_body (F New : FuncId) (K : Value) (hK : ∀ j, K ≠ Value.body F j) :
    ∀ (l : List Nat) (VM : List (Value × Value)),
      mapFind (l.foldl (fun m j => mapSet m (Value.body F j) (Value.body New j)) VM) K =
        mapFind VM K := by
  intro l
  induction l with
  | nil => intro VM; rfl
  | cons j rest ih =>
    intro VM
    rw [List.foldl_cons, ih, mapFind_mapSet, if_neg (hK j)]

/-- The entry of an old formal in the local value map. -/
theorem mapFind_cloneValueMap_argument (F New : FuncId) (f : Function)
    (numArgsNew NIpos numFuncs numGlobals i : Nat) (hi : i < f.paramTypes.length)
    (hne : NIpos ≠ numArgsNew) :
    mapFind (cloneValueMap F New f numArgsNew NIpos numFuncs numGlobals) (Value.argument F i) =
      some (Value.argument New (NIpos + i)) := by
  unfold cloneValueMap CloneFunctionInto
  simp only []
  rw [mapFind_foldl_body F New _ (fun j hc => by cases hc)]
  rw [mapFind_mapIdentity _ _ _ (by simp), mapFind_mapIdentity _ _ _ (by simp)]
  rw [if_pos hne, mapFind_mapOldArgs, if_pos (List.mem_range.mpr hi)]

/-- C10: a clone that `MakeFunctionClone` makes of a function in the cloning
phase of a run, the function not having been cloned before, has for parameter
types `k` pool descriptor types followed by the parameter types of the
function in their order, has the return type and the variadic flag of the
function, and the value map of the call sends the formal at position `i` of
the function to the formal at position `k + i` of the clone. -/
theorem C10_clone_signature (O : Oracle) (M : Module) (pre : List FuncId)
    (F New : FuncId) (PA' : PoolAllocate) (hF : F ∉ pre)
    (h : MakeFunctionClone O (clonePhase O pre (planned O M, [])).1 F = (some New, PA')) :
    ∃ f newF k ArgNodes,
      (clonePhase O pre (planned O M, [])).1.CurModule.functions[F]? = some f ∧
      PA'.CurModule.functions[New]? = some newF ∧
      newF.paramTypes = List.replicate k Ty.PoolDescPtrTy ++ f.paramTypes ∧
      newF.returnType = f.returnType ∧ newF.isVarArg = f.isVarArg ∧
      cloneArgs (clonePhase O pre (planned O M, [])).1 F
        ((clonePhase O pre (planned O M, [])).1.funcInfo F) =
          some (List.replicate k Ty.PoolDescPtrTy, ArgNodes) ∧
      (PA'.funcInfo F).NewToOldValueMap =
        invertValueMap (localValueMap (clonePhase O pre (planned O M, [])).1 F f
          (List.replicate k Ty.PoolDescPtrTy) ArgNodes) [] ∧
      (∀ i, i < f.paramTypes.length →
        mapFind (localValueMap (clonePhase O pre (planned O M, [])).1 F f
            (List.replicate k Ty.PoolDescPtrTy) ArgNodes) (Value.argument F i) =
          some (Value.argument New (k + i))) := by
  obtain ⟨f, ArgTys, ArgNodes, hf, _, hca, hNew, hPA⟩ := MakeFunctionClone_some O _ F New PA' h
  obtain ⟨hTys, hNodes, _⟩ := cloneArgs_some _ F ArgTys ArgNodes hca
  obtain ⟨e1, e2, _, e4, _⟩ := clonePhase_frame O pre (planned O M) []
  have hfi := e4 F hF
  obtain ⟨_, _, w3⟩ := PlanInv_planned O M
  have hrep : ArgTys = List.replicate ArgTys.length Ty.PoolDescPtrTy := by
    rw [hTys]; exact injectedTys_replicate _ _
  have hpos : firstOldArg (clonePhase O pre (planned O M, [])).1 F ArgNodes = ArgTys.length := by
    unfold firstOldArg
    unfold cloneArgs at hca
    cases hc : findClass (clonePhase O pre (planned O M, [])).1.FuncECs F with
    | none =>
      simp only [hc] at hca ⊢
      split_ifs at hca
      injection hca with e
      injection e with t1 t2
      rw [← t1, ← t2, hfi, (w3 F).1]
      simp
    | some c =>
      simp only [hc] at hca ⊢
      cases hW : (clonePhase O pre (planned O M, [])).1.EqClass2LastPoolArg c with
      | none => simp [hW] at hca
      | some W =>
        simp only [hW] at hca ⊢
        split_ifs at hca
        injection hca with e
        injection e with t1 t2
        rw [← t1]
        simp
  refine ⟨f, cloneFunction f ArgTys, ArgTys.length, ArgNodes, hf, ?_, ?_, rfl, rfl, ?_, ?_, ?_⟩
  · subst hPA hNew
    simp [PoolAllocate.setFuncInfo]
  · show ArgTys ++ f.paramTypes = _
    rw [← hrep]
  · rw [← hrep]; exact hca
  · rw [← hrep, hPA]
    simp only [funcInfo_setFuncInfo_same]
    rw [hfi, (w3 F).2.2]
  · intro i hi
    rw [← hrep]
    unfold localValueMap
    rw [mapFind_cloneValueMap_argument F _ f _ _ _ _ i hi (by
      rw [hpos]
      show ArgTys.length ≠ (ArgTys ++ f.paramTypes).length
      rw [List.length_append]
      omega)]
    rw [hpos, hNew]

/-- C10 at the example: the clone of `f`, function 7, has one pool descriptor
parameter in front of the parameter of `f`. -/
theorem C10_clone_signature_witness :
    (0 : FuncId) ∉ ([] : List FuncId) ∧
      MakeFunctionClone exOracle (clonePhase exOracle [] (planned exOracle exModule, [])).1 0 =
        (some 7,
          (MakeFunctionClone exOracle
            (clonePhase exOracle [] (planned exOracle exModule, [])).1 0).2) ∧
      ∃ f newF k ArgNodes,
        (clonePhase exOracle [] (planned exOracle exModule, [])).1.CurModule.functions[0]? =
          some f ∧
        (MakeFunctionClone exOracle (clonePhase exOracle [] (planned exOracle exModule, [])).1
          0).2.CurModule.functions[7]? = some newF ∧
        newF.paramTypes = List.replicate k Ty.PoolDescPtrTy ++ f.paramTypes ∧
        newF.returnType = f.returnType ∧ newF.isVarArg = f.isVarArg ∧
        cloneArgs (clonePhase exOracle [] (planned exOracle exModule, [])).1 0
          ((clonePhase exOracle [] (planned exOracle exModule, [])).1.funcInfo 0) =
            some (List.replicate k Ty.PoolDescPtrTy, ArgNodes) ∧
        ((MakeFunctionClone exOracle (clonePhase exOracle [] (planned exOracle exModule, [])).1
          0).2.funcInfo 0).NewToOldValueMap =
          invertValueMap (localValueMap (clonePhase exOracle [] (planned exOracle exModule, [])).1
            0 f (List.replicate k Ty.PoolDescPtrTy) ArgNodes) [] ∧
        (∀ i, i < f.paramTypes.length →
          mapFind (localValueMap (clonePhase exOracle [] (planned exOracle exModule, [])).1 0 f
              (List.replicate k Ty.PoolDescPtrTy) ArgNodes) (Value.argument 0 i) =
            some (Value.argument 7 (k + i))) :=
  ⟨by simp, Prod.ext (by decide) rfl,
   C10_clone_signature exOracle exModule [] 0 7 _ (by simp) (Prod.ext (by decide) rfl)⟩

/-! ## Pool descriptors of a function -/

theorem bindArgNodes_eq_bindWith (New : FuncId) :
    ∀ (l : List NodeId) (pos : Nat) (PD : List (NodeId × Value)),
      bindArgNodes New l pos PD = bindWith (Value.argument New) l pos PD := by
  intro l
  induction l with
  | nil => intro pos PD; rfl
  | cons n rest ih => intro pos PD; simp only [bindArgNodes, bindWith]; exact ih _ _

theorem mapFind_bindWith_old (mk : Nat → Value) (n : NodeId) (v : Value) :
    ∀ (l : List NodeId) (pos : Nat) (PD : List (NodeId × Value)),
      mapFind PD n = some v → mapFind (bindWith mk l pos PD) n = some v := by
  intro l
  induction l with
  | nil => intro pos PD h; exact h
  | cons a rest ih =>
    intro pos PD h
    simp only [bindWith]
    apply ih
    rw [mapFind_mapInsert, h]

theorem mapFind_bindWith_notin (mk : Nat → Value) (n : NodeId) :
    ∀ (l : List NodeId) (pos : Nat) (PD : List (NodeId × Value)),
      n ∉ l → mapFind (bindWith mk l pos PD) n = mapFind PD n := by
  intro l
  induction l with
  | nil => intro pos PD _; rfl
  | cons a rest ih =>
    intro pos PD h
    have h1 : ¬ a = n := fun hc => h (hc ▸ List.mem_cons_self _ _)
    have h2 : n ∉ rest := fun hc => h (List.mem_cons_of_mem _ hc)
    simp only [bindWith]
    rw [ih _ _ h2, mapFind_mapInsert]
    cases mapFind PD n <;> simp [h1]

theorem mapFind_bindWith_in (mk : Nat → Value) (n : NodeId) :
    ∀ (l : List NodeId) (pos : Nat) (PD : List (NodeId × Value)),
      n ∈ l → mapFind PD n = none →
      ∃ j, l[j]? = some n ∧ mapFind (bindWith mk l pos PD) n = some (mk (pos + j)) := by
  intro l
  induction l with
  | nil => intro pos PD h _; simp at h
  | cons a rest ih =>
    intro pos PD h hnone
    simp only [bindWith]
    by_cases ha : a = n
    · subst ha
      refine ⟨0, by simp, ?_⟩
      apply mapFind_bindWith_old
      rw [mapFind_mapInsert, hnone]
      simp
    · have hr : n ∈ rest := by
        rcases List.mem_cons.mp h with h0 | h0
        · exact absurd h0.symm ha
        · exact h0
      obtain ⟨j, hj, hfind⟩ := ih (pos + 1) (mapInsert PD a (mk pos)) hr (by
        rw [mapFind_mapInsert, hnone]
        simp [ha])
      refine ⟨j + 1, by simpa using hj, ?_⟩
      rw [hfind]
      congr 2
      omega

theorem foldl_insertBeforeTerminator_other (x : Instruction) :
    ∀ (L : List Nat) (C : PoolCode),
      (L.foldl (fun c r => insertBeforeTerminator x r c) C).PoolDescriptors =
          C.PoolDescriptors ∧
        (L.foldl (fun c r => insertBeforeTerminator x r c) C).cerr = C.cerr := by
  intro L
  induction L with
  | nil => intro C; exact ⟨rfl, rfl⟩
  | cons r L ih =>
    intro C
    obtain ⟨i1, i2⟩ := ih (insertBeforeTerminator x r C)
    obtain ⟨o1, o2, _⟩ := insertBeforeTerminator_other x r C
    simp only [List.foldl_cons]
    exact ⟨i1.trans o1, i2.trans o2⟩

theorem insertAtEntry_other (x : Instruction) (C : PoolCode) :
    (insertAtEntry x C).PoolDescriptors = C.PoolDescriptors := by
  unfold insertAtEntry
  cases C.blocks <;> rfl

/-- The pool descriptors that the loop of `CreatePools` leaves. -/
theorem createPoolsLoop_PoolDescriptors (G : DSGraph) (fname : String) (NewF : FuncId)
    (R : List Nat) :
    ∀ (N : List NodeId) (i : Nat) (C : PoolCode),
      (createPoolsLoop G fname NewF R i N C).PoolDescriptors =
        bindWith (Value.alloca NewF) N i C.PoolDescriptors := by
  intro N
  induction N with
  | nil => intro i C; rfl
  | cons n rest ih =>
    intro i C
    simp only [createPoolsLoop, bindWith]
    rw [ih]
    congr 1
    unfold createPool
    simp only []
    rw [(foldl_insertBeforeTerminator_other _ R _).1]
    simp only [insertAtEntry_other]
    cases G.nodeType n <;> simp [insertAtEntry_other]

theorem CreatePools_PoolDescriptors (G : DSGraph) (fname : String) (NewF : FuncId)
    (B : List BasicBlock) (N : List NodeId) (PD : List (NodeId × Value)) :
    (CreatePools G fname NewF B N PD).PoolDescriptors = bindWith (Value.alloca NewF) N 0 PD := by
  unfold CreatePools
  rw [createPoolsLoop_PoolDescriptors]

/-! ## The rewriting phase -/

theorem pooledBlock_nil (bare : Bool) (r : Nat) (b : BasicBlock) :
    pooledBlock bare [] [] r b = b := by
  cases b
  simp [pooledBlock]

theorem isExternal_congr (PA PA' : PoolAllocate) (k : FuncId)
    (h : ∀ f, PA.CurModule.functions[k]? = some f →
      ∃ f', PA'.CurModule.functions[k]? = some f' ∧ f'.isExternal = f.isExternal)
    (hlen : PA'.CurModule.functions.length = PA.CurModule.functions.length) :
    PA'.isExternal k = PA.isExternal k := by
  unfold PoolAllocate.isExternal
  cases hf : PA.CurModule.functions[k]? with
  | none =>
    have hge : PA.CurModule.functions.length ≤ k := by
      by_contra hlt
      rw [List.getElem?_eq_getElem (Nat.lt_of_not_le hlt)] at hf
      cases hf
    rw [List.getElem?_eq_none (by rw [hlen]; exact hge)]
  | some f =>
    obtain ⟨f', hf', he⟩ := h f hf
    rw [hf']
    exact he

/-- What `ProcessFunctionBody` does not change. -/
theorem ProcessFunctionBody_frame (O : Oracle) (PA : PoolAllocate) (F NewF : FuncId) :
    (∀ k, k ≠ F → (ProcessFunctionBody O PA F NewF).funcInfo k = PA.funcInfo k) ∧
      ((ProcessFunctionBody O PA F NewF).funcInfo F).MarkedNodes = (PA.funcInfo F).MarkedNodes ∧
      ((ProcessFunctionBody O PA F NewF).funcInfo F).Clone = (PA.funcInfo F).Clone ∧
      (ProcessFunctionBody O PA F NewF).CurModule.functions.length =
        PA.CurModule.functions.length ∧
      (∀ idx : Nat, idx ≠ NewF → (ProcessFunctionBody O PA F NewF).CurModule.functions[idx]? =
        PA.CurModule.functions[idx]?) ∧
      (∀ k, (ProcessFunctionBody O PA F NewF).isExternal k = PA.isExternal k) := by
  unfold ProcessFunctionBody
  simp only []
  split_ifs with h1 h2
  · exact ⟨fun _ _ => rfl, rfl, rfl, rfl, fun _ _ => rfl, fun _ => rfl⟩
  · exact ⟨fun k hk => funcInfo_setFuncInfo_ne _ _ _ _ hk,
      by rw [funcInfo_setFuncInfo_same], by rw [funcInfo_setFuncInfo_same], rfl,
      fun _ _ => rfl, fun _ => rfl⟩
  · cases hnf : PA.CurModule.functions[NewF]? with
    | none =>
      simp only []
      exact ⟨fun k hk => funcInfo_setFuncInfo_ne _ _ _ _ hk,
        by rw [funcInfo_setFuncInfo_same], by rw [funcInfo_setFuncInfo_same], rfl,
        fun _ _ => rfl, fun _ => rfl⟩
    | some nf =>
      simp only []
      refine ⟨fun k hk => ?_, by rw [funcInfo_setFuncInfo_same],
        by rw [funcInfo_setFuncInfo_same], ?_, fun idx hidx => ?_, fun k => ?_⟩
      · simp [PoolAllocate.funcInfo, PoolAllocate.setFuncInfo, hk]
      · simp [PoolAllocate.setFuncInfo]
      · simp only [PoolAllocate.setFuncInfo]
        rw [List.getElem?_set_ne (fun hc => hidx hc.symm)]
      · apply isExternal_congr
        · intro f hf
          simp only [PoolAllocate.setFuncInfo]
          by_cases hk : k = NewF
          · subst hk
            rw [hnf] at hf
            injection hf with e
            subst e
            refine ⟨{ nf with blocks := (CreatePools (O.BU F) nf.name k nf.blocks
              (nodesToPA (O.BU F) (PA.funcInfo F).MarkedNodes)
              (PA.funcInfo F).PoolDescriptors).blocks }, ?_, rfl⟩
            rw [List.getElem?_set_self (getElem?_lt_length _ _ _ hnf)]
          · exact ⟨f, by rw [List.getElem?_set_ne (fun hc => hk hc.symm)]; exact hf, rfl⟩
        · simp [PoolAllocate.setFuncInfo]

/-- What `ProcessFunctionBody` does for a function whose graph has nodes:
the nodes to pool locally get local descriptors, and the body of the function
it is given gets the code of `CreatePools` for these nodes. -/
theorem ProcessFunctionBody_summary (O : Oracle) (PA : PoolAllocate) (F NewF : FuncId)
    (nf : Function) (hG : (O.BU F).nodes ≠ [])
    (hnf : PA.CurModule.functions[NewF]? = some nf) :
    (ProcessFunctionBody O PA F NewF).funcInfo F =
        { PA.funcInfo F with
          PoolDescriptors := bindWith (Value.alloca NewF)
            (nodesToPA (O.BU F) (PA.funcInfo F).MarkedNodes) 0
            (PA.funcInfo F).PoolDescriptors } ∧
      ∃ nf', (ProcessFunctionBody O PA F NewF).CurModule.functions[NewF]? = some nf' ∧
        nf'.blocks.length = nf.blocks.length ∧
        ∀ r b, nf.blocks[r]? = some b →
          nf'.blocks[r]? = some (pooledBlock (entryIsBareReturn nf.blocks)
            (entryPrefix (O.BU F) (entryIsBareReturn nf.blocks) 0
              (nodesToPA (O.BU F) (PA.funcInfo F).MarkedNodes))
            (exitCode 0 (nodesToPA (O.BU F) (PA.funcInfo F).MarkedNodes)) r b) := by
  have hE := isEmpty_false_of_ne_nil _ hG
  unfold ProcessFunctionBody
  simp only [hE, hnf]
  by_cases hN : nodesToPA (O.BU F) (PA.funcInfo F).MarkedNodes = []
  · simp only [hN, List.isEmpty_nil, if_true, Bool.false_eq_true, if_false]
    refine ⟨?_, nf, hnf, rfl, ?_⟩
    · rw [funcInfo_setFuncInfo_same]
      rfl
    · intro r b hb
      simp only [entryPrefix, exitCode]
      rw [pooledBlock_nil]
      exact hb
  · have hNE := isEmpty_false_of_ne_nil _ hN
    simp only [hNE, Bool.false_eq_true, if_false]
    refine ⟨?_, ?_⟩
    · rw [funcInfo_setFuncInfo_same, CreatePools_PoolDescriptors]
    · obtain ⟨c1, c2, _⟩ := CreatePools_rep (O.BU F) nf.name NewF nf.blocks
        (nodesToPA (O.BU F) (PA.funcInfo F).MarkedNodes) (PA.funcInfo F).PoolDescriptors
      refine ⟨{ nf with blocks := (CreatePools (O.BU F) nf.name NewF nf.blocks
        (nodesToPA (O.BU F) (PA.funcInfo F).MarkedNodes)
        (PA.funcInfo F).PoolDescriptors).blocks }, ?_, c1, c2⟩
      simp only [PoolAllocate.setFuncInfo]
      rw [List.getElem?_set_self (getElem?_lt_length _ _ _ hnf)]

theorem processPhase_cons (O : Oracle) (FM : List (FuncId × FuncId)) (I : FuncId)
    (rest : List FuncId) (PA : PoolAllocate) :
    processPhase O FM (I :: rest) PA =
      if PA.isExternal I = true then processPhase O FM rest PA
      else processPhase O FM rest (ProcessFunctionBody O PA I (newOf FM I)) := by
  simp only [processPhase, newOf]
  cases hE : PA.isExternal I with
  | true => simp
  | false =>
    simp only [Bool.not_false, if_true]
    cases mapFind FM I <;> simp

theorem processPhase_append (O : Oracle) (FM : List (FuncId × FuncId)) (l1 l2 : List FuncId) :
    ∀ PA : PoolAllocate,
      processPhase O FM (l1 ++ l2) PA = processPhase O FM l2 (processPhase O FM l1 PA) := by
  induction l1 with
  | nil => intro PA; rfl
  | cons I rest ih =>
    intro PA
    rw [List.cons_append, processPhase_cons, processPhase_cons]
    split_ifs
    · exact ih PA
    · exact ih _

/-- What the rewriting loop does not change. -/
theorem processPhase_frame (O : Oracle) (FM : List (FuncId × FuncId)) (l : List FuncId) :
    ∀ PA : PoolAllocate,
      (∀ k, (processPhase O FM l PA).isExternal k = PA.isExternal k) ∧
      (processPhase O FM l PA).CurModule.functions.length = PA.CurModule.functions.length ∧
      (∀ k, ((processPhase O FM l PA).funcInfo k).MarkedNodes = (PA.funcInfo k).MarkedNodes ∧
        ((processPhase O FM l PA).funcInfo k).Clone = (PA.funcInfo k).Clone) ∧
      (∀ k, k ∉ l → (processPhase O FM l PA).funcInfo k = PA.funcInfo k) ∧
      (∀ idx : Nat, (∀ J ∈ l, newOf FM J ≠ idx) →
        (processPhase O FM l PA).CurModule.functions[idx]? = PA.CurModule.functions[idx]?) := by
  induction l with
  | nil => intro PA; exact ⟨fun _ => rfl, rfl, fun _ => ⟨rfl, rfl⟩, fun _ _ => rfl, fun _ _ => rfl⟩
  | cons I rest ih =>
    intro PA
    rw [processPhase_cons]
    split_ifs
    · obtain ⟨a1, a2, a3, a4, a5⟩ := ih PA
      exact ⟨a1, a2, a3, fun k hk => a4 k (fun hc => hk (List.mem_cons_of_mem _ hc)),
        fun idx hidx => a5 idx (fun J hJ => hidx J (List.mem_cons_of_mem _ hJ))⟩
    · obtain ⟨a1, a2, a3, a4, a5⟩ := ih (ProcessFunctionBody O PA I (newOf FM I))
      obtain ⟨b1, b2, b3, b4, b5, b6⟩ := ProcessFunctionBody_frame O PA I (newOf FM I)
      refine ⟨fun k => (a1 k).trans (b6 k), a2.trans b4, fun k => ?_, fun k hk => ?_,
        fun idx hidx => ?_⟩
      · obtain ⟨c1, c2⟩ := a3 k
        by_cases hk : k = I
        · subst hk; exact ⟨c1.trans b2, c2.trans b3⟩
        · rw [b1 k hk] at c1 c2; exact ⟨c1, c2⟩
      · rw [a4 k (fun hc => hk (List.mem_cons_of_mem _ hc))]
        exact b1 k (fun hc => hk (hc ▸ List.mem_cons_self _ _))
      · rw [a5 idx (fun J hJ => hidx J (List.mem_cons_of_mem _ hJ))]
        exact b5 idx (fun hc => hidx I (List.mem_cons_self _ _) hc.symm)

/-! ## Owned and received nodes (C8) -/

theorem AddPoolPrototypes_prefix (M : Module) :
    ∃ e, (AddPoolPrototypes M).functions = M.functions ++ e := by
  unfold AddPoolPrototypes
  have key : ∀ (ps : List Function) (m : Module),
      ∃ e, (ps.foldl (fun m p => if m.functions.any (fun f => f.name == p.name) then m
        else { m with functions := m.functions ++ [p] }) m).functions = m.functions ++ e := by
    intro ps
    induction ps with
    | nil => intro m; exact ⟨[], by simp⟩
    | cons p rest ih =>
      intro m
      rw [List.foldl_cons]
      split_ifs
      · exact ih m
      · obtain ⟨e, he⟩ := ih { m with functions := m.functions ++ [p] }
        exact ⟨[p] ++ e, by rw [he, List.append_assoc]⟩
  exact key _ M

theorem planned_CurModule (O : Oracle) (M : Module) :
    (planned O M).CurModule = AddPoolPrototypes M := by
  unfold planned buildIndirectFunctionSets
  simp only []
  rw [planPhase_CurModule, classifyFunctions_CurModule]
  rfl

/-- The state of the pass when `run` returns, on a module with functions, is
the one the rewriting loop leaves, the diagnostics apart. -/
theorem run_state (O : Oracle) (M : Module) (hM : M.functions ≠ []) :
    (∀ k, (run O M).2.funcInfo k =
      (processPhase O (cloned O M).2 (List.range (planned O M).CurModule.functions.length)
        (cloned O M).1).funcInfo k) ∧
    (run O M).2.CurModule =
      (processPhase O (cloned O M).2 (List.range (planned O M).CurModule.functions.length)
        (cloned O M).1).CurModule := by
  have key : ∀ PA : PoolAllocate,
      (∀ k, (if PA.CollapseFlag = true then
          { PA with cerr := PA.cerr ++ [Diag.collapseSummary] } else PA).funcInfo k =
        PA.funcInfo k) ∧
      (if PA.CollapseFlag = true then
          { PA with cerr := PA.cerr ++ [Diag.collapseSummary] } else PA).CurModule =
        PA.CurModule := by
    intro PA
    split_ifs <;> exact ⟨fun _ => rfl, rfl⟩
  unfold run
  rw [isEmpty_false_of_ne_nil _ hM]
  simp only [Bool.false_eq_true, if_false]
  exact key _

theorem newOf_ne (O : Oracle) (M : Module) (F J : FuncId)
    (hF : F < (planned O M).CurModule.functions.length)
    (hJ : J < (planned O M).CurModule.functions.length) (hne : J ≠ F) :
    newOf (cloned O M).2 J ≠ newOf (cloned O M).2 F := by
  obtain ⟨⟨_, _, _, _, _, h6, h7⟩, _⟩ := CloneInv_cloned O M
  unfold newOf
  cases hj : mapFind (cloned O M).2 J with
  | none =>
    cases hf : mapFind (cloned O M).2 F with
    | none => exact hne
    | some N =>
      have := (h6 F N hf).1
      show J ≠ N
      intro hc
      rw [hc] at hJ
      exact Nat.lt_irrefl _ (Nat.lt_of_lt_of_le hJ this)
  | some N1 =>
    cases hf : mapFind (cloned O M).2 F with
    | none =>
      have := (h6 J N1 hj).1
      show N1 ≠ F
      intro hc
      rw [← hc] at hF
      exact Nat.lt_irrefl _ (Nat.lt_of_lt_of_le hF this)
    | some N2 =>
      simp only []
      intro hc
      subst hc
      exact hne (h7 J F N1 hj hf)

theorem range_split (n F : Nat) (hF : F < n) :
    ∃ l1 l2, List.range n = l1 ++ F :: l2 ∧ F ∉ l1 ∧ F ∉ l2 ∧
      (∀ J ∈ l1, J < n ∧ J ≠ F) ∧ (∀ J ∈ l2, J < n ∧ J ≠ F) := by
  obtain ⟨l1, l2, h⟩ := List.append_of_mem (List.mem_range.mpr hF)
  have hnd : (l1 ++ F :: l2).Nodup := h ▸ List.nodup_range n
  have hnd2 := List.nodup_middle.mp hnd
  have hnot : F ∉ l1 ++ l2 := (List.nodup_cons.mp hnd2).1
  have h1 : F ∉ l1 := fun hc => hnot (List.mem_append_left _ hc)
  have h2 : F ∉ l2 := fun hc => hnot (List.mem_append_right _ hc)
  refine ⟨l1, l2, h, h1, h2, ?_, ?_⟩
  · intro J hJ
    have : J ∈ List.range n := by rw [h]; exact List.mem_append_left _ hJ
    exact ⟨List.mem_range.mp this, fun hc => h1 (hc ▸ hJ)⟩
  · intro J hJ
    have : J ∈ List.range n := by
      rw [h]; exact List.mem_append_right _ (List.mem_cons_of_mem _ hJ)
    exact ⟨List.mem_range.mp this, fun hc => h2 (hc ▸ hJ)⟩

theorem mem_nodesToPA (G : DSGraph) (S : List NodeId) (v : NodeId) :
    v ∈ nodesToPA G S ↔ G.isHeapNode v = true ∧ v ∉ S := by
  unfold nodesToPA
  rw [List.mem_filter, List.mem_range]
  constructor
  · rintro ⟨_, h⟩
    simpa using h
  · rintro ⟨h1, h2⟩
    exact ⟨lt_length_of_isHeapNode G v h1, by simp [h1, h2]⟩

/-- The `FuncInfo` and the body that the rewriting loop of a run leaves for a
function with a body whose graph has nodes. -/
theorem processPhase_result (O : Oracle) (M : Module) (F : FuncId) (f : Function)
    (hF : M.functions[F]? = some f) (hB : f.isExternal = false)
    (hG : (O.BU F).nodes ≠ []) :
    (run O M).2.funcInfo F =
        { (cloned O M).1.funcInfo F with
          PoolDescriptors := bindWith (Value.alloca (newOf (cloned O M).2 F))
            (nodesToPA (O.BU F) ((cloned O M).1.funcInfo F).MarkedNodes) 0
            ((cloned O M).1.funcInfo F).PoolDescriptors } ∧
      (cloned O M).1.CurModule.functions[F]? = some f ∧
      F < (planned O M).CurModule.functions.length ∧
      (planned O M).isExternal F = false ∧
      ∃ nf nf', (cloned O M).1.CurModule.functions[newOf (cloned O M).2 F]? = some nf ∧
        (run O M).2.CurModule.functions[newOf (cloned O M).2 F]? = some nf' ∧
        nf'.blocks.length = nf.blocks.length ∧
        ∀ r b, nf.blocks[r]? = some b →
          nf'.blocks[r]? = some (pooledBlock (entryIsBareReturn nf.blocks)
            (entryPrefix (O.BU F) (entryIsBareReturn nf.blocks) 0
              (nodesToPA (O.BU F) ((cloned O M).1.funcInfo F).MarkedNodes))
            (exitCode 0 (nodesToPA (O.BU F) ((cloned O M).1.funcInfo F).MarkedNodes)) r b) := by
  have hM : M.functions ≠ [] := by
    intro he
    rw [he] at hF
    simp at hF
  obtain ⟨r1, r2⟩ := run_state O M hM
  obtain ⟨⟨_, _, ⟨ext, c3⟩, _, _, c6, _⟩, _⟩ := CloneInv_cloned O M
  obtain ⟨e, he⟩ := AddPoolPrototypes_prefix M
  have hP0f : (planned O M).CurModule.functions[F]? = some f := by
    rw [planned_CurModule, he]
    exact getElem?_append_of_some _ _ _ _ hF
  have hFlt := getElem?_lt_length _ _ _ hP0f
  have hcf : (cloned O M).1.CurModule.functions[F]? = some f := by
    rw [c3]; exact getElem?_append_of_some _ _ _ _ hP0f
  have hP0E : (planned O M).isExternal F = false := by
    simp [PoolAllocate.isExternal, hP0f, hB]
  have hcE : (cloned O M).1.isExternal F = false := by
    simp [PoolAllocate.isExternal, hcf, hB]
  obtain ⟨l1, l2, hsplit, hl1, hl2, hJ1, hJ2⟩ :=
    range_split (planned O M).CurModule.functions.length F hFlt
  have hnf : ∃ nf, (cloned O M).1.CurModule.functions[newOf (cloned O M).2 F]? = some nf := by
    unfold newOf
    cases hm : mapFind (cloned O M).2 F with
    | none => exact ⟨f, hcf⟩
    | some N =>
      obtain ⟨_, ⟨f', _, hN⟩, _⟩ := c6 F N hm
      exact ⟨_, hN⟩
  obtain ⟨nf, hnf⟩ := hnf
  obtain ⟨a1, _, _, a4, a5⟩ := processPhase_frame O (cloned O M).2 l1 (cloned O M).1
  have hne1 : ∀ J ∈ l1, newOf (cloned O M).2 J ≠ newOf (cloned O M).2 F :=
    fun J hJ => newOf_ne O M F J hFlt (hJ1 J hJ).1 (hJ1 J hJ).2
  have hne2 : ∀ J ∈ l2, newOf (cloned O M).2 J ≠ newOf (cloned O M).2 F :=
    fun J hJ => newOf_ne O M F J hFlt (hJ2 J hJ).1 (hJ2 J hJ).2
  have hnf1 : (processPhase O (cloned O M).2 l1 (cloned O M).1).CurModule.functions[
      newOf (cloned O M).2 F]? = some nf := by
    rw [a5 _ hne1]; exact hnf
  have hE1 : ¬ (processPhase O (cloned O M).2 l1 (cloned O M).1).isExternal F = true := by
    rw [a1 F, hcE]; simp
  obtain ⟨s1, nf', s2, s3, s4⟩ := ProcessFunctionBody_summary O
    (processPhase O (cloned O M).2 l1 (cloned O M).1) F (newOf (cloned O M).2 F) nf hG hnf1
  obtain ⟨_, _, _, b4, b5⟩ := processPhase_frame O (cloned O M).2 l2
    (ProcessFunctionBody O (processPhase O (cloned O M).2 l1 (cloned O M).1) F
      (newOf (cloned O M).2 F))
  have hfinal : processPhase O (cloned O M).2
      (List.range (planned O M).CurModule.functions.length) (cloned O M).1 =
      processPhase O (cloned O M).2 l2
        (ProcessFunctionBody O (processPhase O (cloned O M).2 l1 (cloned O M).1) F
          (newOf (cloned O M).2 F)) := by
    rw [hsplit, processPhase_append, processPhase_cons, if_neg hE1]
  rw [a4 F hl1] at s1 s4
  refine ⟨?_, hcf, hFlt, hP0E, nf, nf', hnf, ?_, s3, s4⟩
  · rw [r1 F, hfinal, b4 F hl2, s1]
  · rw [r2, hfinal, b5 _ hne2, s2]

/-- The role of a heap node, from what the three phases leave: `P0` after
planning, `PAc` and `FM` after cloning, `FI` the `FuncInfo` of the function
after rewriting. -/
theorem roles_of_heap_node (G : DSGraph) (P0 PAc : PoolAllocate)
    (FM : List (FuncId × FuncId)) (F : FuncId) (f : Function) (n : NodeId) (FI : FuncInfo)
    (hP : PlanInv P0) (hC : CloneInv P0 PAc FM)
    (hex : P0.marked F ≠ [] → mapFind FM F ≠ none)
    (hcf : PAc.CurModule.functions[F]? = some f)
    (hfin : FI = { PAc.funcInfo F with
      PoolDescriptors := bindWith (Value.alloca (newOf FM F))
        (nodesToPA G (PAc.funcInfo F).MarkedNodes) 0 (PAc.funcInfo F).PoolDescriptors })
    (hn : G.isHeapNode n = true) :
    (n ∈ FI.MarkedNodes ∧ n ∉ nodesToPA G FI.MarkedNodes ∧
        ∃ New pos k newF, mapFind FM F = some New ∧ FI.Clone = some New ∧
          PAc.CurModule.functions[New]? = some newF ∧
          newF.paramTypes = List.replicate k Ty.PoolDescPtrTy ++ f.paramTypes ∧ pos < k ∧
          mapFind FI.PoolDescriptors n = some (Value.argument New pos)) ∨
      (n ∉ FI.MarkedNodes ∧
        ∃ i, (nodesToPA G FI.MarkedNodes)[i]? = some n ∧
          mapFind FI.PoolDescriptors n = some (Value.alloca (newOf FM F) i)) := by
  obtain ⟨c1, c2, _, c4, c5, c6, _⟩ := hC
  obtain ⟨_, w2, w3⟩ := hP
  have hmkc : (PAc.funcInfo F).MarkedNodes = P0.marked F := (c4 F).1
  have hmk : FI.MarkedNodes = P0.marked F := by rw [hfin]; exact hmkc
  have hPDf : FI.PoolDescriptors = bindWith (Value.alloca (newOf FM F))
      (nodesToPA G (P0.marked F)) 0 (PAc.funcInfo F).PoolDescriptors := by
    rw [hfin, ← hmkc]
  have hCl : FI.Clone = (PAc.funcInfo F).Clone := by rw [hfin]
  rw [hmk]
  by_cases hm : n ∈ P0.marked F
  · left
    have hne : P0.marked F ≠ [] := List.ne_nil_of_mem hm
    obtain ⟨New, hFM⟩ : ∃ New, mapFind FM F = some New := by
      cases hx : mapFind FM F with
      | none => exact absurd hx (hex hne)
      | some New => exact ⟨New, rfl⟩
    obtain ⟨_, ⟨f', hf', hNf⟩, _, hClone, _, hPD⟩ := c6 F New hFM
    have hff : f' = f := by
      rw [hcf] at hf'
      injection hf' with e
      exact e.symm
    subst hff
    rw [bindArgNodes_eq_bindWith] at hPD
    obtain ⟨j, hj, hfind⟩ := mapFind_bindWith_in (Value.argument New) n
      (P0.marked F) (firstBoundArg P0 F (P0.funcInfo F)) [] hm (mapFind_nil n)
    have hjlt := getElem?_lt_length _ _ _ hj
    refine ⟨hm, fun hc => ((mem_nodesToPA _ _ _).mp hc).2 hm, New,
      firstBoundArg P0 F (P0.funcInfo F) + j,
      (injectedTys P0 F).length, _, hFM, by rw [hCl]; exact hClone, hNf, ?_, ?_, ?_⟩
    · show injectedTys P0 F ++ f'.paramTypes = _
      rw [← injectedTys_replicate]
    · unfold firstBoundArg injectedTys
      cases hc : findClass P0.FuncECs F with
      | none => simpa using hjlt
      | some c =>
        obtain ⟨W, hW, hnn, hle⟩ := w2 F c hc hne
        simp only [hW, List.length_replicate]
        split_ifs <;> omega
    · rw [hPDf]
      apply mapFind_bindWith_old
      rw [hPD]
      exact hfind
  · right
    have hin : n ∈ nodesToPA G (P0.marked F) := (mem_nodesToPA _ _ _).mpr ⟨hn, hm⟩
    have hnone : mapFind (PAc.funcInfo F).PoolDescriptors n = none := by
      cases hx : mapFind FM F with
      | none =>
        rw [c5 F hx, (w3 F).2.1]
        rfl
      | some New =>
        obtain ⟨_, _, _, _, _, hPD⟩ := c6 F New hx
        rw [hPD, bindArgNodes_eq_bindWith, mapFind_bindWith_notin _ _ _ _ _ hm]
        rfl
    obtain ⟨i, hi, hfind⟩ := mapFind_bindWith_in (Value.alloca (newOf FM F)) n
      (nodesToPA G (P0.marked F)) 0 (PAc.funcInfo F).PoolDescriptors hin hnone
    refine ⟨hm, i, hi, ?_⟩
    rw [hPDf, hfind]
    simp

/-- C8: after `run`, for a function with a body, every heap node of its graph
is either received (it is in `MarkedNodes`, it is not among the nodes given to
`CreatePools`, and its pool descriptor is one of the pool descriptor formals
of the clone of the function) or owned (it is not in `MarkedNodes`, it is one
of the nodes given to `CreatePools`, and its pool descriptor is the alloca
made for it in the function that is rewritten); the body that is rewritten is
the body of the clone, or of the function, with the code of `CreatePools` for
the owned nodes only. -/
theorem C8_owned_or_received (O : Oracle) (M : Module) (F : FuncId) (f : Function)
    (n : NodeId) (hF : M.functions[F]? = some f) (hB : f.isExternal = false)
    (hn : (O.BU F).isHeapNode n = true) :
    ((n ∈ ((run O M).2.funcInfo F).MarkedNodes ∧
        n ∉ nodesToPA (O.BU F) ((run O M).2.funcInfo F).MarkedNodes ∧
        ∃ New pos k newF, mapFind (cloned O M).2 F = some New ∧
          ((run O M).2.funcInfo F).Clone = some New ∧
          (cloned O M).1.CurModule.functions[New]? = some newF ∧
          newF.paramTypes = List.replicate k Ty.PoolDescPtrTy ++ f.paramTypes ∧ pos < k ∧
          mapFind ((run O M).2.funcInfo F).PoolDescriptors n =
            some (Value.argument New pos)) ∨
      (n ∉ ((run O M).2.funcInfo F).MarkedNodes ∧
        ∃ i, (nodesToPA (O.BU F) ((run O M).2.funcInfo F).MarkedNodes)[i]? = some n ∧
          mapFind ((run O M).2.funcInfo F).PoolDescriptors n =
            some (Value.alloca (newOf (cloned O M).2 F) i))) ∧
    (∃ nf nf', (cloned O M).1.CurModule.functions[newOf (cloned O M).2 F]? = some nf ∧
      (run O M).2.CurModule.functions[newOf (cloned O M).2 F]? = some nf' ∧
      nf'.blocks.length = nf.blocks.length ∧
      ∀ r b, nf.blocks[r]? = some b →
        nf'.blocks[r]? = some (pooledBlock (entryIsBareReturn nf.blocks)
          (entryPrefix (O.BU F) (entryIsBareReturn nf.blocks) 0
            (nodesToPA (O.BU F) ((run O M).2.funcInfo F).MarkedNodes))
          (exitCode 0 (nodesToPA (O.BU F) ((run O M).2.funcInfo F).MarkedNodes)) r b)) ∧
    (∀ v ∈ nodesToPA (O.BU F) ((run O M).2.funcInfo F).MarkedNodes,
      v ∉ ((run O M).2.funcInfo F).MarkedNodes ∧ (O.BU F).isHeapNode v = true) := by
  have hG : (O.BU F).nodes ≠ [] := by
    intro he
    have := lt_length_of_isHeapNode _ _ hn
    rw [he] at this
    simp at this
  obtain ⟨hfin, hcf, hFlt, hP0E, nf, nf', q1, q2, q3, q4⟩ := processPhase_result O M F f hF hB hG
  have hroles := roles_of_heap_node (O.BU F) (planned O M) (cloned O M).1 (cloned O M).2 F f n
    ((run O M).2.funcInfo F) (PlanInv_planned O M) (CloneInv_cloned O M).1
    ((CloneInv_cloned O M).2 F hFlt hP0E hG) hcf hfin hn
  have hmk : ((run O M).2.funcInfo F).MarkedNodes = ((cloned O M).1.funcInfo F).MarkedNodes := by
    rw [hfin]
  rw [← hmk] at q4
  exact ⟨hroles, ⟨nf, nf', q1, q2, q3, q4⟩,
    fun v hv => ⟨((mem_nodesToPA _ _ _).mp hv).2, ((mem_nodesToPA _ _ _).mp hv).1⟩⟩

/-- C8 at the example: the heap node of `f` is received through the formal 0
of its clone, the function 7. -/
theorem C8_owned_or_received_witness :
    exModule.functions[0]? = some (exFunction "f" [Ty.other 1]) ∧
      (exFunction "f" [Ty.other 1]).isExternal = false ∧
      (exOracle.BU 0).isHeapNode 0 = true ∧
      ((0 ∈ ((run exOracle exModule).2.funcInfo 0).MarkedNodes ∧
        0 ∉ nodesToPA (exOracle.BU 0) ((run exOracle exModule).2.funcInfo 0).MarkedNodes ∧
        ∃ New pos k newF, mapFind (cloned exOracle exModule).2 0 = some New ∧
          ((run exOracle exModule).2.funcInfo 0).Clone = some New ∧
          (cloned exOracle exModule).1.CurModule.functions[New]? = some newF ∧
          newF.paramTypes =
            List.replicate k Ty.PoolDescPtrTy ++ (exFunction "f" [Ty.other 1]).paramTypes ∧
          pos < k ∧
          mapFind ((run exOracle exModule).2.funcInfo 0).PoolDescriptors 0 =
            some (Value.argument New pos)) ∨
      (0 ∉ ((run exOracle exModule).2.funcInfo 0).MarkedNodes ∧
        ∃ i, (nodesToPA (exOracle.BU 0)
            ((run exOracle exModule).2.funcInfo 0).MarkedNodes)[i]? = some 0 ∧
          mapFind ((run exOracle exModule).2.funcInfo 0).PoolDescriptors 0 =
            some (Value.alloca (newOf (cloned exOracle exModule).2 0) i))) :=
  ⟨by decide, by decide, by decide,
   (C8_owned_or_received exOracle exModule 0 (exFunction "f" [Ty.other 1]) 0
      (by decide) (by decide) (by decide)).1⟩

theorem marked_def (PA : PoolAllocate) (F : FuncId) :
    PA.marked F = (PA.funcInfo F).MarkedNodes := rfl

/-! ## Each function is planned once -/

theorem FindFunctionPoolArgs_FunctionInfo_ne (O : Oracle) (PA : PoolAllocate) (F k : FuncId)
    (h : k ≠ F) : (FindFunctionPoolArgs O PA F).FunctionInfo k = PA.FunctionInfo k := by
  unfold FindFunctionPoolArgs
  cases findClass PA.FuncECs F <;> simp only [] <;> split_ifs <;>
    simp [PoolAllocate.setFuncInfo, h]

theorem planPhase_cons (O : Oracle) (I : FuncId) (rest : List FuncId) (PA : PoolAllocate) :
    planPhase O (I :: rest) PA =
      if PA.isExternal I = true then planPhase O rest PA
      else planPhase O rest (FindFunctionPoolArgs O PA I) := by
  simp only [planPhase]
  cases PA.isExternal I <;> simp

theorem planPhase_append (O : Oracle) (l1 l2 : List FuncId) :
    ∀ PA : PoolAllocate, planPhase O (l1 ++ l2) PA = planPhase O l2 (planPhase O l1 PA) := by
  induction l1 with
  | nil => intro PA; rfl
  | cons I rest ih =>
    intro PA
    rw [List.cons_append, planPhase_cons, planPhase_cons]
    split_ifs
    · exact ih PA
    · exact ih _

theorem planPhase_FunctionInfo_notin (O : Oracle) (l : List FuncId) (F : FuncId)
    (hF : F ∉ l) :
    ∀ PA : PoolAllocate, (planPhase O l PA).FunctionInfo F = PA.FunctionInfo F := by
  induction l with
  | nil => intro PA; rfl
  | cons I rest ih =>
    intro PA
    have h1 : F ≠ I := fun hc => hF (hc ▸ List.mem_cons_self _ _)
    have h2 : F ∉ rest := fun hc => hF (List.mem_cons_of_mem _ hc)
    rw [planPhase_cons]
    split_ifs
    · exact ih h2 PA
    · rw [ih h2, FindFunctionPoolArgs_FunctionInfo_ne O PA I F h1]

/-- In a run every function with a body is planned by one call of
`FindFunctionPoolArgs`, made in a state where the function has no `FuncInfo`
entry yet, and what the call records for the function is what the planning
phase leaves. -/
theorem planned_once (O : Oracle) (M : Module) (F : FuncId) (f : Function)
    (hF : M.functions[F]? = some f) (hB : f.isExternal = false) :
    ∃ PA : PoolAllocate, PA.FunctionInfo F = none ∧ PlanInv PA ∧
      PA.CurModule = AddPoolPrototypes M ∧ PA.FuncECs = (planned O M).FuncECs ∧
      (planned O M).funcInfo F = (FindFunctionPoolArgs O PA F).funcInfo F := by
  obtain ⟨e, he⟩ := AddPoolPrototypes_prefix M
  have hlt : F < (AddPoolPrototypes M).functions.length := by
    rw [he]
    exact getElem?_lt_length _ _ _ (getElem?_append_of_some _ e _ _ hF)
  obtain ⟨l1, l2, hsplit, hl1, hl2, _, _⟩ := range_split _ F hlt
  obtain ⟨c1, c2⟩ := classifyFunctions_frame O
    (List.range (PoolAllocate.initial (AddPoolPrototypes M)).CurModule.functions.length)
    (PoolAllocate.initial (AddPoolPrototypes M))
  have hcm := classifyFunctions_CurModule O
    (List.range (PoolAllocate.initial (AddPoolPrototypes M)).CurModule.functions.length)
    (PoolAllocate.initial (AddPoolPrototypes M))
  have hinv0 : PlanInv (buildIndirectFunctionSets O
      (PoolAllocate.initial (AddPoolPrototypes M))) := by
    have hFI : ∀ k, (buildIndirectFunctionSets O
        (PoolAllocate.initial (AddPoolPrototypes M))).funcInfo k = FuncInfo.fresh := by
      intro k
      unfold PoolAllocate.funcInfo buildIndirectFunctionSets
      rw [c2]
      rfl
    refine ⟨?_, ?_, ?_⟩
    · intro c w hw
      unfold buildIndirectFunctionSets at hw
      rw [c1] at hw
      simp [PoolAllocate.initial] at hw
    · intro k c _ hm
      exfalso
      apply hm
      rw [marked_def, hFI k]
      rfl
    · intro k
      rw [hFI k]
      exact ⟨rfl, rfl, rfl⟩
  have hplanned : planned O M =
      planPhase O (l1 ++ F :: l2)
        (buildIndirectFunctionSets O (PoolAllocate.initial (AddPoolPrototypes M))) := by
    unfold planned
    simp only []
    have : (buildIndirectFunctionSets O
        (PoolAllocate.initial (AddPoolPrototypes M))).CurModule.functions.length =
        (AddPoolPrototypes M).functions.length := by
      unfold buildIndirectFunctionSets
      rw [hcm]
      rfl
    rw [this, hsplit]
  have hmod1 : (planPhase O l1 (buildIndirectFunctionSets O
      (PoolAllocate.initial (AddPoolPrototypes M)))).CurModule = AddPoolPrototypes M := by
    rw [planPhase_CurModule]
    unfold buildIndirectFunctionSets
    rw [hcm]
    rfl
  have hE : ¬ (planPhase O l1 (buildIndirectFunctionSets O
      (PoolAllocate.initial (AddPoolPrototypes M)))).isExternal F = true := by
    unfold PoolAllocate.isExternal
    rw [hmod1, he, getElem?_append_of_some _ e _ _ hF]
    simp [hB]
  refine ⟨planPhase O l1 (buildIndirectFunctionSets O
    (PoolAllocate.initial (AddPoolPrototypes M))), ?_, PlanInv_planPhase O l1 _ hinv0, hmod1, ?_,
    ?_⟩
  · rw [planPhase_FunctionInfo_notin O l1 F hl1]
    unfold buildIndirectFunctionSets
    rw [c2]
    rfl
  · rw [hplanned, planPhase_FuncECs, planPhase_FuncECs]
  · rw [hplanned, planPhase_append, planPhase_cons, if_neg hE]
    unfold PoolAllocate.funcInfo
    rw [planPhase_FunctionInfo_notin O l2 F hl2]

/-! ## Tiling of the slots of a class -/

theorem firstPoolArg_eq_nextSlot (PA : PoolAllocate) (F c : FuncId)
    (hc : findClass PA.FuncECs F = some c) : firstPoolArg PA F = nextSlot PA c := by
  unfold firstPoolArg nextSlot
  rw [hc]

theorem classLive_congr (PA PA' : PoolAllocate) (c : FuncId) (h1 : PA'.FuncECs = PA.FuncECs) :
    ∀ n : Nat, (∀ k : Nat, k < n → PA'.marked k = PA.marked k) →
      classLive PA' c n = classLive PA c n := by
  intro n
  induction n with
  | zero => intro _; rfl
  | succ n ih =>
    intro h
    simp only [classLive]
    rw [ih (fun k hk => h k (Nat.lt_succ_of_lt hk)), h n (Nat.lt_succ_self n), h1]

theorem classLive_le_succ (PA : PoolAllocate) (c : FuncId) (n : Nat) :
    classLive PA c n ≤ classLive PA c (n + 1) := by
  simp only [classLive]
  split_ifs
  · have : (0 : Int) ≤ ((PA.marked n).length : Int) := Int.ofNat_nonneg _
    omega
  · omega

theorem classLive_mono (PA : PoolAllocate) (c : FuncId) (m : Nat) :
    ∀ n : Nat, m ≤ n → classLive PA c m ≤ classLive PA c n := by
  intro n
  induction n with
  | zero =>
    intro h
    have : m = 0 := Nat.le_zero.mp h
    subst this
    exact le_refl _
  | succ n ih =>
    intro h
    by_cases hm : m = n + 1
    · subst hm
      exact le_refl _
    · have := ih (by omega)
      have := classLive_le_succ PA c n
      omega

theorem classLive_nonneg (PA : PoolAllocate) (c : FuncId) (n : Nat) :
    0 ≤ classLive PA c n :=
  classLive_mono PA c 0 n (Nat.zero_le n)

theorem marked_of_FunctionInfo_none (PA : PoolAllocate) (F : FuncId)
    (h : PA.FunctionInfo F = none) : PA.marked F = [] := by
  rw [marked_def, funcInfo_of_none PA F h]
  rfl


theorem TileInv_keep (PA : PoolAllocate) (n : Nat) (h : TileInv PA n) : TileInv PA (n + 1) := by
  obtain ⟨h1, h2, h3, h4⟩ := h
  refine ⟨fun F hF => h1 F (by omega), fun c => ?_, h3, h4⟩
  rw [h2 c]
  simp only [classLive]
  rw [marked_of_FunctionInfo_none PA n (h1 n (le_refl n))]
  simp

theorem TileInv_FindFunctionPoolArgs (O : Oracle) (PA : PoolAllocate) (n : Nat)
    (h : TileInv PA n) : TileInv (FindFunctionPoolArgs O PA n) (n + 1) := by
  by_cases hG : (O.BU n).nodes = []
  · rw [FindFunctionPoolArgs_of_empty O PA n hG]
    exact TileInv_keep PA n h
  obtain ⟨h1, h2, h3, h4⟩ := h
  have hfi := FindFunctionPoolArgs_funcInfo O PA n hG
  have hw := FindFunctionPoolArgs_watermark O PA n hG
  have hec := FindFunctionPoolArgs_FuncECs O PA n
  have hne : ∀ k : Nat, k ≠ n →
      (FindFunctionPoolArgs O PA n).funcInfo k = PA.funcInfo k :=
    fun k hk => FindFunctionPoolArgs_funcInfo_ne O PA n k hk
  have hmk : ∀ k : Nat, k ≠ n → (FindFunctionPoolArgs O PA n).marked k = PA.marked k := by
    intro k hk
    rw [marked_def, marked_def, hne k hk]
  have hmn : (FindFunctionPoolArgs O PA n).marked n = liveNodes O PA n := by
    rw [marked_def, hfi]
  have hcl : ∀ (c : FuncId) (m : Nat), m ≤ n →
      classLive (FindFunctionPoolArgs O PA n) c m = classLive PA c m := by
    intro c m hm
    apply classLive_congr _ _ c hec
    intro k hk
    exact hmk k (Nat.ne_of_lt (Nat.lt_of_lt_of_le hk hm))
  have hlen : ∀ l : List NodeId, l ≠ [] → ((l.length : Int)) ≠ 0 := by
    intro l hl
    cases l with
    | nil => exact absurd rfl hl
    | cons a t => simp; omega
  refine ⟨?_, ?_, ?_, ?_⟩
  · intro F hF
    rw [FindFunctionPoolArgs_FunctionInfo_ne O PA n F (Nat.ne_of_gt hF)]
    exact h1 F (by omega)
  · intro c
    simp only [classLive]
    rw [hcl c n (le_refl n), hec, hmn]
    unfold nextSlot
    rw [hw c]
    by_cases hc : findClass PA.FuncECs n = some c
    · by_cases hl : liveNodes O PA n = []
      · rw [if_neg (fun hh => hh.2 hl), if_pos hc, hl]
        have := h2 c
        unfold nextSlot at this
        rw [this]
        simp
      · rw [if_pos ⟨hc, hl⟩, if_pos hc, firstPoolArg_eq_nextSlot PA n c hc, h2 c]
        simp only []
        omega
    · rw [if_neg (fun hh => hc hh.1), if_neg hc]
      have := h2 c
      unfold nextSlot at this
      rw [this]
      simp
  · intro F c hc hm
    rw [hec] at hc
    by_cases hF : F = n
    · subst hF
      rw [hfi, hcl c F (le_refl F)]
      show firstPoolArg PA F = _
      rw [firstPoolArg_eq_nextSlot PA F c hc, h2 c]
    · rw [hmk F hF] at hm
      have hlt : F < n := by
        by_contra hge
        exact hm (marked_of_FunctionInfo_none PA F (h1 F (by omega)))
      rw [hne F hF, hcl c F (by omega)]
      exact h3 F c hc hm
  · intro F
    by_cases hF : F = n
    · subst hF
      rw [hmn, hfi]
    · rw [hmk F hF, hne F hF]
      exact h4 F

theorem planPhase_range_succ (O : Oracle) (PA : PoolAllocate) (n : Nat) :
    planPhase O (List.range (n + 1)) PA =
      if (planPhase O (List.range n) PA).isExternal n = true then planPhase O (List.range n) PA
      else FindFunctionPoolArgs O (planPhase O (List.range n) PA) n := by
  rw [List.range_succ, planPhase_append, planPhase_cons]
  split_ifs <;> rfl

theorem TileInv_planPhase (O : Oracle) (PA : PoolAllocate) (h : TileInv PA 0) :
    ∀ n : Nat, TileInv (planPhase O (List.range n) PA) n := by
  intro n
  induction n with
  | zero => exact h
  | succ n ih =>
    rw [planPhase_range_succ]
    split_ifs
    · exact TileInv_keep _ n ih
    · exact TileInv_FindFunctionPoolArgs O _ n ih

theorem TileInv_planned (O : Oracle) (M : Module) :
    TileInv (planned O M) (planned O M).CurModule.functions.length := by
  obtain ⟨c1, c2⟩ := classifyFunctions_frame O
    (List.range (PoolAllocate.initial (AddPoolPrototypes M)).CurModule.functions.length)
    (PoolAllocate.initial (AddPoolPrototypes M))
  have h0 : TileInv (buildIndirectFunctionSets O
      (PoolAllocate.initial (AddPoolPrototypes M))) 0 := by
    have hFI : ∀ k, (buildIndirectFunctionSets O
        (PoolAllocate.initial (AddPoolPrototypes M))).FunctionInfo k = none := by
      intro k
      unfold buildIndirectFunctionSets
      rw [c2]
      rfl
    refine ⟨fun F _ => hFI F, ?_, ?_, ?_⟩
    · intro c
      unfold nextSlot buildIndirectFunctionSets
      rw [c1]
      rfl
    · intro F c _ hm
      exact absurd (marked_of_FunctionInfo_none _ F (hFI F)) hm
    · intro F
      rw [marked_of_FunctionInfo_none _ F (hFI F), funcInfo_of_none _ F (hFI F)]
      rfl
  have hlen : (planned O M).CurModule.functions.length =
      (buildIndirectFunctionSets O
        (PoolAllocate.initial (AddPoolPrototypes M))).CurModule.functions.length := by
    rw [planned_CurModule]
    unfold buildIndirectFunctionSets
    rw [classifyFunctions_CurModule]
    rfl
  rw [hlen]
  exact TileInv_planPhase O _ h0 _


theorem length_cast_ne_zero (l : List NodeId) (h : l ≠ []) : ((l.length : Int)) ≠ 0 := by
  cases l with
  | nil => exact absurd rfl h
  | cons a t => simp; omega

theorem classLive_cover (PA : PoolAllocate) (c : FuncId) :
    ∀ (n : Nat) (k : Int), 0 ≤ k → k < classLive PA c n →
      ∃ F : Nat, F < n ∧ findClass PA.FuncECs F = some c ∧ PA.marked F ≠ [] ∧
        classLive PA c F ≤ k ∧ k < classLive PA c (F + 1) := by
  intro n
  induction n with
  | zero =>
    intro k h0 h1
    simp only [classLive] at h1
    omega
  | succ n ih =>
    intro k h0 h1
    by_cases hk : k < classLive PA c n
    · obtain ⟨F, a1, a2⟩ := ih k h0 hk
      exact ⟨F, Nat.lt_succ_of_lt a1, a2⟩
    · have h2 := h1
      simp only [classLive] at h2
      by_cases hc : findClass PA.FuncECs n = some c
      · refine ⟨n, Nat.lt_succ_self n, hc, ?_, by omega, h1⟩
        intro hm
        rw [if_pos hc, hm] at h2
        simp at h2
        omega
      · rw [if_neg hc] at h2
        omega

theorem range_eq_classLive (PA : PoolAllocate) (n : Nat) (h : TileInv PA n) (F : Nat)
    (c : FuncId) (hc : findClass PA.FuncECs F = some c) (hm : PA.marked F ≠ []) :
    (PA.funcInfo F).PoolArgFirst = classLive PA c F ∧
      (PA.funcInfo F).PoolArgLast = classLive PA c (F + 1) := by
  obtain ⟨_, _, h3, h4⟩ := h
  refine ⟨h3 F c hc hm, ?_⟩
  rw [h4 F, h3 F c hc hm]
  simp only [classLive]
  rw [if_pos hc]

theorem ranges_disjoint (PA : PoolAllocate) (n : Nat) (h : TileInv PA n) (F1 F2 : Nat)
    (c : FuncId) (h1 : findClass PA.FuncECs F1 = some c) (h2 : findClass PA.FuncECs F2 = some c)
    (hlt : F1 < F2) (k : Int) :
    ¬ ((PA.funcInfo F1).PoolArgFirst ≤ k ∧ k < (PA.funcInfo F1).PoolArgLast ∧
      (PA.funcInfo F2).PoolArgFirst ≤ k ∧ k < (PA.funcInfo F2).PoolArgLast) := by
  rintro ⟨a1, a2, a3, a4⟩
  have e1 := h.2.2.2 F1
  have e2 := h.2.2.2 F2
  have m1 : PA.marked F1 ≠ [] := by
    intro hm
    rw [hm] at e1
    simp at e1
    omega
  have m2 : PA.marked F2 ≠ [] := by
    intro hm
    rw [hm] at e2
    simp at e2
    omega
  obtain ⟨_, b2⟩ := range_eq_classLive PA n h F1 c h1 m1
  obtain ⟨b3, _⟩ := range_eq_classLive PA n h F2 c h2 m2
  have := classLive_mono PA c (F1 + 1) F2 hlt
  omega

theorem tiling_of_TileInv (PA : PoolAllocate) (n : Nat) (h : TileInv PA n) (F : Nat)
    (c : FuncId) (hc : findClass PA.FuncECs F = some c) :
    (PA.funcInfo F).PoolArgLast =
        (PA.funcInfo F).PoolArgFirst + ((PA.marked F).length : Int) ∧
      (PA.marked F ≠ [] → (PA.funcInfo F).PoolArgFirst = classLive PA c F) ∧
      (∀ F2 : Nat, F2 ≠ F → findClass PA.FuncECs F2 = some c → ∀ k : Int,
        ¬ ((PA.funcInfo F).PoolArgFirst ≤ k ∧ k < (PA.funcInfo F).PoolArgLast ∧
          (PA.funcInfo F2).PoolArgFirst ≤ k ∧ k < (PA.funcInfo F2).PoolArgLast)) ∧
      (∀ W, PA.EqClass2LastPoolArg c = some W →
        W + 1 = classLive PA c n ∧
        ∀ k : Int, 0 ≤ k → k ≤ W →
          ∃ F3 : Nat, F3 < n ∧ findClass PA.FuncECs F3 = some c ∧
            (PA.funcInfo F3).PoolArgFirst ≤ k ∧ k < (PA.funcInfo F3).PoolArgLast) ∧
      (PA.EqClass2LastPoolArg c = none → classLive PA c n = 0) := by
  refine ⟨h.2.2.2 F, h.2.2.1 F c hc, ?_, ?_, ?_⟩
  · intro F2 hne h2 k
    rcases Nat.lt_or_gt_of_ne hne with hlt | hlt
    · intro hk
      exact ranges_disjoint PA n h F2 F c h2 hc hlt k ⟨hk.2.2.1, hk.2.2.2, hk.1, hk.2.1⟩
    · exact ranges_disjoint PA n h F F2 c hc h2 hlt k
  · intro W hW
    have hs := h.2.1 c
    unfold nextSlot at hs
    rw [hW] at hs
    have hs2 : W + 1 = classLive PA c n := hs
    refine ⟨hs2, ?_⟩
    intro k h0 hk
    obtain ⟨F3, a1, a2, a3, a4, a5⟩ := classLive_cover PA c n k h0 (by omega)
    obtain ⟨b1, b2⟩ := range_eq_classLive PA n h F3 c a2 a3
    exact ⟨F3, a1, a2, by omega, by omega⟩
  · intro hW
    have hs := h.2.1 c
    unfold nextSlot at hs
    rw [hW] at hs
    exact hs.symm

/-! ## Slot ranges of a class (C19) -/

/-- C19: after the planning phase of a run, for a function `F` of the class
`c`: the slot range of `F` has as many slots as `F` has live nodes; if `F` has
live nodes the range starts at the sum of the live nodes of the members of the
class that come before `F` in the module, the order of planning; the range
shares no slot with the range of another member of the class; if the class
has the watermark `W`, then `W + 1` is the sum of the live nodes of the
members of the class and every slot from 0 to `W` is in the range of a member;
if the class has no watermark, no member has live nodes. -/
theorem C19_slot_ranges_tile (O : Oracle) (M : Module) (F : Nat) (c : FuncId)
    (hc : findClass (planned O M).FuncECs F = some c) :
    ((planned O M).funcInfo F).PoolArgLast =
        ((planned O M).funcInfo F).PoolArgFirst + (((planned O M).marked F).length : Int) ∧
      ((planned O M).marked F ≠ [] →
        ((planned O M).funcInfo F).PoolArgFirst = classLive (planned O M) c F) ∧
      (∀ F2 : Nat, F2 ≠ F → findClass (planned O M).FuncECs F2 = some c → ∀ k : Int,
        ¬ (((planned O M).funcInfo F).PoolArgFirst ≤ k ∧
          k < ((planned O M).funcInfo F).PoolArgLast ∧
          ((planned O M).funcInfo F2).PoolArgFirst ≤ k ∧
          k < ((planned O M).funcInfo F2).PoolArgLast)) ∧
      (∀ W, (planned O M).EqClass2LastPoolArg c = some W →
        W + 1 = classLive (planned O M) c (planned O M).CurModule.functions.length ∧
        ∀ k : Int, 0 ≤ k → k ≤ W →
          ∃ F3 : Nat, F3 < (planned O M).CurModule.functions.length ∧
            findClass (planned O M).FuncECs F3 = some c ∧
            ((planned O M).funcInfo F3).PoolArgFirst ≤ k ∧
            k < ((planned O M).funcInfo F3).PoolArgLast) ∧
      ((planned O M).EqClass2LastPoolArg c = none →
        classLive (planned O M) c (planned O M).CurModule.functions.length = 0) :=
  tiling_of_TileInv (planned O M) _ (TileInv_planned O M) F c hc

/-- C19 at the example where `f` has one live node and `g` has two: `g` is in
the class of `f`, and its range starts after the slot of `f`. -/
theorem C19_slot_ranges_tile_witness :
    findClass (planned exOracle2 exModule).FuncECs 1 = some 0 ∧
      (((planned exOracle2 exModule).funcInfo 1).PoolArgLast =
        ((planned exOracle2 exModule).funcInfo 1).PoolArgFirst +
          (((planned exOracle2 exModule).marked 1).length : Int) ∧
      ((planned exOracle2 exModule).marked 1 ≠ [] →
        ((planned exOracle2 exModule).funcInfo 1).PoolArgFirst =
          classLive (planned exOracle2 exModule) 0 1) ∧
      (∀ F2 : Nat, F2 ≠ 1 → findClass (planned exOracle2 exModule).FuncECs F2 = some 0 →
        ∀ k : Int,
        ¬ (((planned exOracle2 exModule).funcInfo 1).PoolArgFirst ≤ k ∧
          k < ((planned exOracle2 exModule).funcInfo 1).PoolArgLast ∧
          ((planned exOracle2 exModule).funcInfo F2).PoolArgFirst ≤ k ∧
          k < ((planned exOracle2 exModule).funcInfo F2).PoolArgLast)) ∧
      (∀ W, (planned exOracle2 exModule).EqClass2LastPoolArg 0 = some W →
        W + 1 = classLive (planned exOracle2 exModule) 0
          (planned exOracle2 exModule).CurModule.functions.length ∧
        ∀ k : Int, 0 ≤ k → k ≤ W →
          ∃ F3 : Nat, F3 < (planned exOracle2 exModule).CurModule.functions.length ∧
            findClass (planned exOracle2 exModule).FuncECs F3 = some 0 ∧
            ((planned exOracle2 exModule).funcInfo F3).PoolArgFirst ≤ k ∧
            k < ((planned exOracle2 exModule).funcInfo F3).PoolArgLast) ∧
      ((planned exOracle2 exModule).EqClass2LastPoolArg 0 = none →
        classLive (planned exOracle2 exModule) 0
          (planned exOracle2 exModule).CurModule.functions.length = 0)) :=
  ⟨by decide, C19_slot_ranges_tile exOracle2 exModule 1 0 (by decide)⟩


/-! ## A program without live nodes (C11) -/

theorem classLive_of_no_live (PA : PoolAllocate) (c : FuncId) (h : ∀ F, PA.marked F = []) :
    ∀ n : Nat, classLive PA c n = 0 := by
  intro n
  induction n with
  | zero => rfl
  | succ n ih =>
    simp only [classLive]
    rw [ih, h n]
    simp

theorem cloneArgs_none_of (PA : PoolAllocate) (F : FuncId) (FI : FuncInfo)
    (hW : ∀ c, PA.EqClass2LastPoolArg c = none) (hm : FI.MarkedNodes = []) :
    cloneArgs PA F FI = none := by
  unfold cloneArgs
  cases hc : findClass PA.FuncECs F with
  | none => simp [hm]
  | some c => simp [hW c]

theorem MakeFunctionClone_of_cloneArgs_none (O : Oracle) (PA : PoolAllocate) (F : FuncId)
    (h : cloneArgs PA F (PA.funcInfo F) = none) :
    (MakeFunctionClone O PA F).1 = none ∧
      (MakeFunctionClone O PA F).2.CurModule = PA.CurModule := by
  unfold MakeFunctionClone
  cases hf : PA.CurModule.functions[F]? with
  | none => exact ⟨rfl, rfl⟩
  | some f =>
    simp only []
    split_ifs
    · exact ⟨rfl, rfl⟩
    · rw [h]
      exact ⟨rfl, rfl⟩

theorem clonePhase_no_clone (O : Oracle) (l : List FuncId) :
    ∀ (PA : PoolAllocate) (FM : List (FuncId × FuncId)),
      (∀ c, PA.EqClass2LastPoolArg c = none) → (∀ F, PA.marked F = []) →
      (clonePhase O l (PA, FM)).2 = FM ∧
        (clonePhase O l (PA, FM)).1.CurModule = PA.CurModule := by
  induction l with
  | nil => intro PA FM _ _; exact ⟨rfl, rfl⟩
  | cons I rest ih =>
    intro PA FM hW hm
    rw [clonePhase_cons]
    split_ifs
    · exact ih PA FM hW hm
    · obtain ⟨n1, n2⟩ := MakeFunctionClone_of_cloneArgs_none O PA I
        (cloneArgs_none_of PA I _ hW (hm I))
      obtain ⟨_, b2, _, _, b5⟩ := MakeFunctionClone_frame O PA I
      rw [n1]
      simp only []
      obtain ⟨r1, r2⟩ := ih (MakeFunctionClone O PA I).2 FM
        (fun c => by rw [b2]; exact hW c)
        (fun F => by rw [marked_def, (b5 F).1]; exact hm F)
      exact ⟨r1, r2.trans n2⟩

theorem no_clone_of_no_live (O : Oracle) (P0 : PoolAllocate) (n : Nat) (hP : PlanInv P0)
    (hT : TileInv P0 n) (h : ∀ F, P0.marked F = []) :
    (∀ c, P0.EqClass2LastPoolArg c = none) ∧
      (∀ (pre : List FuncId) (F : FuncId),
        (MakeFunctionClone O (clonePhase O pre (P0, [])).1 F).1 = none) ∧
      (∀ l : List FuncId, (clonePhase O l (P0, [])).2 = [] ∧
        (clonePhase O l (P0, [])).1.CurModule = P0.CurModule) := by
  have hW : ∀ c, P0.EqClass2LastPoolArg c = none := by
    intro c
    cases hw : P0.EqClass2LastPoolArg c with
    | none => rfl
    | some w =>
      exfalso
      have h0 := hP.1 c w hw
      have hs := hT.2.1 c
      unfold nextSlot at hs
      rw [hw, classLive_of_no_live P0 c h n] at hs
      have hs2 : w + 1 = 0 := hs
      omega
  refine ⟨hW, ?_, fun l => clonePhase_no_clone O l P0 [] hW h⟩
  intro pre F
  obtain ⟨e1, e2, _, _, e5⟩ := clonePhase_frame O pre P0 []
  apply (MakeFunctionClone_of_cloneArgs_none O _ F _).1
  apply cloneArgs_none_of
  · intro c
    rw [e2]
    exact hW c
  · rw [(e5 F).1]
    exact h F

/-- C11: if the planning phase of a run leaves every function with an empty
live set, then no class has a watermark, every call of `MakeFunctionClone` in
the cloning phase returns null, whatever the function and whether it has a
class or not, and the cloning phase leaves `FuncMap` empty and the module as
it was. -/
theorem C11_no_live_nodes_no_clone (O : Oracle) (M : Module)
    (h : ∀ F, (planned O M).marked F = []) :
    (∀ c, (planned O M).EqClass2LastPoolArg c = none) ∧
      (∀ (pre : List FuncId) (F : FuncId),
        (MakeFunctionClone O (clonePhase O pre (planned O M, [])).1 F).1 = none) ∧
      (cloned O M).2 = [] ∧ (cloned O M).1.CurModule = (planned O M).CurModule := by
  obtain ⟨a1, a2, a3⟩ := no_clone_of_no_live O (planned O M) _ (PlanInv_planned O M)
    (TileInv_planned O M) h
  have hd : cloned O M =
      clonePhase O (List.range (planned O M).CurModule.functions.length) (planned O M, []) := rfl
  rw [hd]
  exact ⟨a1, a2, a3 (List.range (planned O M).CurModule.functions.length)⟩

theorem exLocal_marked : ∀ F, (planned exLocalOracle exModule).marked F = [] := by
  intro F
  by_cases hF : F < 7
  · have h7 : ∀ k : Nat, k < 7 → (planned exLocalOracle exModule).marked k = [] := by decide
    exact h7 F hF
  · apply marked_of_FunctionInfo_none
    have hlen : (planned exLocalOracle exModule).CurModule.functions.length = 7 := by
      rw [planned_CurModule]
      rfl
    have := (TileInv_planned exLocalOracle exModule).1 F
    rw [hlen] at this
    exact this (Nat.le_of_not_lt hF)

/-- C11 at an example: `f` and `g` are in one class, `h` has no class, each
has one heap node that does not escape; nothing is cloned. -/
theorem C11_no_live_nodes_no_clone_witness :
    (∀ F, (planned exLocalOracle exModule).marked F = []) ∧
      (∀ c, (planned exLocalOracle exModule).EqClass2LastPoolArg c = none) ∧
      (∀ (pre : List FuncId) (F : FuncId),
        (MakeFunctionClone exLocalOracle
          (clonePhase exLocalOracle pre (planned exLocalOracle exModule, [])).1 F).1 = none) ∧
      (cloned exLocalOracle exModule).2 = [] ∧
      (cloned exLocalOracle exModule).1.CurModule = (planned exLocalOracle exModule).CurModule :=
  ⟨exLocal_marked, C11_no_live_nodes_no_clone exLocalOracle exModule exLocal_marked⟩


/-! ## The assertion of `MakeFunctionClone` (C20) -/

theorem cloneAssertion_of_planned (P0 PA : PoolAllocate) (n : Nat) (F : FuncId)
    (hP : PlanInv P0) (hT : TileInv P0 n) (h : PA.funcInfo F = P0.funcInfo F) :
    cloneAssertion (PA.funcInfo F) = true ∧ (PA.funcInfo F).ArgNodes = [] ∧
      (((PA.funcInfo F).MarkedNodes.length : Int) =
        (PA.funcInfo F).PoolArgLast - (PA.funcInfo F).PoolArgFirst) := by
  have h1 := (hP.2.2 F).1
  have h2 := hT.2.2.2 F
  rw [marked_def] at h2
  rw [h]
  refine ⟨?_, h1, by omega⟩
  unfold cloneAssertion
  rw [h1]
  simp only [List.nil_append, decide_eq_true_eq]
  omega

/-- C20: in a run, when the cloning loop reaches a function `F`, the functions
`pre` before it in the module having been visited, the condition of the
assertion of line 393 holds for the `FuncInfo` of `F`: `ArgNodes` is still
empty, so that after the push of the marked nodes the size of `ArgNodes` is
the number of marked nodes, which is `PoolArgLast - PoolArgFirst`. This holds
for every function, with live nodes or without. -/
theorem C20_clone_assertion_holds (O : Oracle) (M : Module) (pre post : List FuncId)
    (F : FuncId)
    (hsplit : List.range (planned O M).CurModule.functions.length = pre ++ F :: post) :
    cloneAssertion ((clonePhase O pre (planned O M, [])).1.funcInfo F) = true ∧
      ((clonePhase O pre (planned O M, [])).1.funcInfo F).ArgNodes = [] ∧
      ((((clonePhase O pre (planned O M, [])).1.funcInfo F).MarkedNodes.length : Int) =
        ((clonePhase O pre (planned O M, [])).1.funcInfo F).PoolArgLast -
          ((clonePhase O pre (planned O M, [])).1.funcInfo F).PoolArgFirst) := by
  have hnd : (pre ++ F :: post).Nodup := hsplit ▸ List.nodup_range _
  have hnot : F ∉ pre ++ post := (List.nodup_cons.mp (List.nodup_middle.mp hnd)).1
  have h1 : F ∉ pre := fun hc => hnot (List.mem_append_left _ hc)
  exact cloneAssertion_of_planned (planned O M) _ _ F (PlanInv_planned O M)
    (TileInv_planned O M) ((clonePhase_frame O pre (planned O M) []).2.2.2.1 F h1)

/-- C20 at the example: `g` is a member of the class of `f`, which has a
watermark, and `g` has no live node; the assertion holds when the cloning loop
reaches `g`, after `f`. -/
theorem C20_clone_assertion_holds_witness :
    List.range (planned exOracle exModule).CurModule.functions.length =
        [0] ++ 1 :: [2, 3, 4, 5, 6] ∧
      (cloneAssertion ((clonePhase exOracle [0] (planned exOracle exModule, [])).1.funcInfo 1) =
          true ∧
        ((clonePhase exOracle [0] (planned exOracle exModule, [])).1.funcInfo 1).ArgNodes = [] ∧
        ((((clonePhase exOracle [0] (planned exOracle exModule, [])).1.funcInfo
            1).MarkedNodes.length : Int) =
          ((clonePhase exOracle [0] (planned exOracle exModule, [])).1.funcInfo 1).PoolArgLast -
            ((clonePhase exOracle [0] (planned exOracle exModule, [])).1.funcInfo
              1).PoolArgFirst)) :=
  ⟨by decide,
   C20_clone_assertion_holds exOracle exModule [0] [2, 3, 4, 5, 6] 1 (by decide)⟩


/-! ## Element size and collapsed types (C12) -/

theorem insertAtEntry_cerr (x : Instruction) (C : PoolCode) :
    (insertAtEntry x C).cerr = C.cerr ∧ (insertAtEntry x C).numPools = C.numPools := by
  unfold insertAtEntry
  cases C.blocks <;> exact ⟨rfl, rfl⟩

theorem foldl_insertBeforeTerminator_numPools (x : Instruction) :
    ∀ (L : List Nat) (C : PoolCode),
      (L.foldl (fun c r => insertBeforeTerminator x r c) C).numPools = C.numPools := by
  intro L
  induction L with
  | nil => intro C; rfl
  | cons r L ih =>
    intro C
    simp only [List.foldl_cons]
    rw [ih, (insertBeforeTerminator_other x r C).2.2]

theorem createPool_cerr (G : DSGraph) (fname : String) (NewF : FuncId) (R : List Nat)
    (i : Nat) (n : NodeId) (C : PoolCode) :
    (createPool G fname NewF R i n C).cerr =
        C.cerr ++ (match G.nodeType n with
          | some _ => []
          | none => [Diag.nodeCollapsing fname]) ∧
      (createPool G fname NewF R i n C).numPools = C.numPools + 1 := by
  unfold createPool
  simp only []
  rw [(foldl_insertBeforeTerminator_other _ R _).2, foldl_insertBeforeTerminator_numPools]
  cases G.nodeType n <;> simp [insertAtEntry_cerr]

theorem createPoolsLoop_cerr (G : DSGraph) (fname : String) (NewF : FuncId) (R : List Nat) :
    ∀ (N : List NodeId) (i : Nat) (C : PoolCode),
      (createPoolsLoop G fname NewF R i N C).cerr = C.cerr ++ collapseDiags G fname N ∧
        (createPoolsLoop G fname NewF R i N C).numPools = C.numPools + N.length := by
  intro N
  induction N with
  | nil => intro i C; simp [createPoolsLoop, collapseDiags]
  | cons n rest ih =>
    intro i C
    simp only [createPoolsLoop, collapseDiags]
    obtain ⟨a1, a2⟩ := ih (i + 1) (createPool G fname NewF R i n C)
    obtain ⟨b1, b2⟩ := createPool_cerr G fname NewF R i n C
    rw [a1, a2, b1, b2, List.append_assoc, List.length_cons]
    exact ⟨rfl, by omega⟩

theorem CreatePools_cerr (G : DSGraph) (fname : String) (NewF : FuncId)
    (B : List BasicBlock) (N : List NodeId) (PD : List (NodeId × Value)) :
    (CreatePools G fname NewF B N PD).cerr = collapseDiags G fname N ∧
      (CreatePools G fname NewF B N PD).numPools = N.length := by
  unfold CreatePools
  obtain ⟨a1, a2⟩ := createPoolsLoop_cerr G fname NewF (returnNodes B) N 0
    { blocks := B, insertPoint := 0, PoolDescriptors := PD, cerr := [], numPools := 0 }
  rw [a1, a2]
  simp

theorem mem_collapseDiags (G : DSGraph) (fname : String) (n : NodeId)
    (hn : G.nodeType n = none) :
    ∀ N : List NodeId, n ∈ N → Diag.nodeCollapsing fname ∈ collapseDiags G fname N := by
  intro N
  induction N with
  | nil => intro h; simp at h
  | cons a rest ih =>
    intro h
    simp only [collapseDiags]
    rcases List.mem_cons.mp h with h0 | h0
    · subst h0
      rw [hn]
      simp
    · exact List.mem_append_right _ (ih h0)

theorem unique_of_countP_one (i : Nat) (e : Nat) (X Y : List Instruction)
    (h : (X ++ Instruction.callPoolInit i e :: Y).countP (isPoolInit i) = 1) (s : Nat)
    (hs : Instruction.callPoolInit i s ∈ X ++ Instruction.callPoolInit i e :: Y) : s = e := by
  rw [List.countP_append, List.countP_cons] at h
  have hp : isPoolInit i (Instruction.callPoolInit i e) = true := by simp [isPoolInit]
  rw [if_pos hp] at h
  have hX : X.countP (isPoolInit i) = 0 := by omega
  have hY : Y.countP (isPoolInit i) = 0 := by omega
  have hps : isPoolInit i (Instruction.callPoolInit i s) = true := by simp [isPoolInit]
  rcases List.mem_append.mp hs with h1 | h1
  · exact absurd hps (List.countP_eq_zero.mp hX _ h1)
  · rcases List.mem_cons.mp h1 with h2 | h2
    · injection h2
    · exact absurd hps (List.countP_eq_zero.mp hY _ h2)

/-- C12: for the node `n` at position `i` of the list given to `CreatePools`,
on a function with blocks: when the type of the node has the size `s`, the
entry block has the call `poolinit(PD_i, s)`; when the type is collapsed, the
entry block has the call `poolinit(PD_i, 1)` and the diagnostics hold the
message that names the function; in a body of instructions of the input
program these are the only sizes given to `poolinit` for the pool; in both
cases every returning block has the call `pooldestroy(PD_i)`.  The
diagnostics are one message per collapsed node, and one pool is made for
every node of the list. -/
theorem C12_element_size_and_collapse (G : DSGraph) (fname : String) (NewF : FuncId)
    (B : List BasicBlock) (N : List NodeId) (PD : List (NodeId × Value)) (i : Nat)
    (n : NodeId) (hB : B ≠ []) (hi : N[i]? = some n) :
    (∀ s, G.nodeType n = some s →
      Instruction.callPoolInit i s ∈ blockInsts (CreatePools G fname NewF B N PD).blocks 0) ∧
    (G.nodeType n = none →
      Instruction.callPoolInit i 1 ∈ blockInsts (CreatePools G fname NewF B N PD).blocks 0 ∧
      Diag.nodeCollapsing fname ∈ (CreatePools G fname NewF B N PD).cerr) ∧
    (OriginalOnly B → ∀ s,
      Instruction.callPoolInit i s ∈ blockInsts (CreatePools G fname NewF B N PD).blocks 0 →
      s = (match G.nodeType n with
        | some t => t
        | none => 1)) ∧
    (∀ r ∈ returnNodes B,
      Instruction.callPoolDestroy i ∈ blockInsts (CreatePools G fname NewF B N PD).blocks r) ∧
    (CreatePools G fname NewF B N PD).cerr = collapseDiags G fname N ∧
    (CreatePools G fname NewF B N PD).numPools = N.length := by
  obtain ⟨X, Y, hXY, _, _⟩ := CreatePools_entry_split G fname NewF B N PD i n hi hB
  obtain ⟨c1, c2⟩ := CreatePools_cerr G fname NewF B N PD
  have hmem : Instruction.callPoolInit i (elSize G n) ∈
      blockInsts (CreatePools G fname NewF B N PD).blocks 0 := by
    rw [hXY]
    simp
  refine ⟨?_, ?_, ?_, fun r hr => CreatePools_mem_destroy G fname NewF B N PD i n hi r hr,
    c1, c2⟩
  · intro s hs
    have : elSize G n = s := by simp [elSize, hs]
    rw [← this]
    exact hmem
  · intro hs
    have : elSize G n = 1 := by simp [elSize, hs]
    rw [← this]
    refine ⟨hmem, ?_⟩
    rw [c1]
    exact mem_collapseDiags G fname n hs N (List.getElem?_mem hi)
  · intro hO s hs
    have hc := CreatePools_countP_init G fname NewF B N PD hO i n hi 0
    rw [if_pos ⟨rfl, hB⟩, hXY] at hc
    rw [hXY] at hs
    exact unique_of_countP_one i (elSize G n) X Y hc s hs

/-- C12 at an example: the node at position 1 has a collapsed type. -/
theorem C12_element_size_and_collapse_witness :
    exBranchBlocks ≠ [] ∧ [0, 1][1]? = some 1 ∧
    ((∀ s, exCollapsedGraph.nodeType 1 = some s →
      Instruction.callPoolInit 1 s ∈
        blockInsts (CreatePools exCollapsedGraph "f" 0 exBranchBlocks [0, 1] []).blocks 0) ∧
    (exCollapsedGraph.nodeType 1 = none →
      Instruction.callPoolInit 1 1 ∈
        blockInsts (CreatePools exCollapsedGraph "f" 0 exBranchBlocks [0, 1] []).blocks 0 ∧
      Diag.nodeCollapsing "f" ∈
        (CreatePools exCollapsedGraph "f" 0 exBranchBlocks [0, 1] []).cerr) ∧
    (OriginalOnly exBranchBlocks → ∀ s,
      Instruction.callPoolInit 1 s ∈
        blockInsts (CreatePools exCollapsedGraph "f" 0 exBranchBlocks [0, 1] []).blocks 0 →
      s = (match exCollapsedGraph.nodeType 1 with
        | some t => t
        | none => 1)) ∧
    (∀ r ∈ returnNodes exBranchBlocks,
      Instruction.callPoolDestroy 1 ∈
        blockInsts (CreatePools exCollapsedGraph "f" 0 exBranchBlocks [0, 1] []).blocks r) ∧
    (CreatePools exCollapsedGraph "f" 0 exBranchBlocks [0, 1] []).cerr =
      collapseDiags exCollapsedGraph "f" [0, 1] ∧
    (CreatePools exCollapsedGraph "f" 0 exBranchBlocks [0, 1] []).numPools = [0, 1].length) :=
  ⟨by decide, by decide,
   C12_element_size_and_collapse exCollapsedGraph "f" 0 exBranchBlocks [0, 1] [] 1 1
     (by decide) (by decide)⟩


/-! ## The recorded targets of call sites (C17) -/

theorem classifyCallees_targets (cs : CallSite) (l : List GlobalValue) :
    ∀ (r : Option FuncId) (PA : PoolAllocate),
      (classifyCallees cs l r PA).CallSiteTargets = PA.CallSiteTargets ++ calleeTargets cs l := by
  induction l with
  | nil => intro r PA; simp [classifyCallees, calleeTargets]
  | cons g rest ih =>
    intro r PA
    cases g with
    | var v => simp only [classifyCallees, calleeTargets]; exact ih r PA
    | function f =>
      cases r with
      | none => simp only [classifyCallees, calleeTargets]; rw [ih]; simp
      | some r0 => simp only [classifyCallees, calleeTargets]; rw [ih]; simp

theorem mem_calleeTargets (cs : CallSite) (p : CallSite × FuncId) (l : List GlobalValue) :
    p ∈ calleeTargets cs l ↔ p.1 = cs ∧ GlobalValue.function p.2 ∈ l := by
  induction l with
  | nil => simp [calleeTargets]
  | cons g rest ih =>
    cases g with
    | var v => simp [calleeTargets, ih]
    | function f =>
      simp only [calleeTargets, List.mem_cons, ih]
      constructor
      · rintro (h | h)
        · subst h
          exact ⟨rfl, Or.inl rfl⟩
        · exact ⟨h.1, Or.inr h.2⟩
      · rintro ⟨h1, h2 | h2⟩
        · left
          injection h2 with h2
          exact Prod.ext h1 h2
        · exact Or.inr ⟨h1, h2⟩

theorem classifyCallees_no_function (cs : CallSite) (l : List GlobalValue)
    (h : ∀ g, GlobalValue.function g ∉ l) :
    ∀ (r : Option FuncId) (PA : PoolAllocate), classifyCallees cs l r PA = PA := by
  induction l with
  | nil => intro r PA; rfl
  | cons g rest ih =>
    intro r PA
    cases g with
    | var v =>
      simp only [classifyCallees]
      exact ih (fun g hg => h g (List.mem_cons_of_mem _ hg)) r PA
    | function f => exact absurd (List.mem_cons_self _ _) (h f)

theorem classifyCallSites_targets (TDG : DSGraph) (p : CallSite × FuncId)
    (l : List DSCallSite) :
    ∀ PA : PoolAllocate, p ∈ (classifyCallSites TDG l PA).CallSiteTargets ↔
      p ∈ PA.CallSiteTargets ∨
        ∃ CSI ∈ l, CSI.isIndirectCall = true ∧ CSI.callSite = p.1 ∧
          GlobalValue.function p.2 ∈ TDG.globals CSI.calleeNode := by
  induction l with
  | nil => intro PA; simp [classifyCallSites]
  | cons C rest ih =>
    intro PA
    simp only [classifyCallSites]
    by_cases hI : C.isIndirectCall = true
    · rw [if_pos hI, ih, classifyCallees_targets, List.mem_append, mem_calleeTargets]
      have hcst : ∀ (b1 b2 : Bool) (d1 d2 : Diag),
          (if b2 = true then
            { (if b1 = true then { PA with cerr := PA.cerr ++ [d1] } else PA) with
              cerr := (if b1 = true then { PA with cerr := PA.cerr ++ [d1] } else PA).cerr ++
                [d2] }
          else (if b1 = true then { PA with cerr := PA.cerr ++ [d1] } else PA)).CallSiteTargets =
          PA.CallSiteTargets := by
        intro b1 b2 d1 d2
        cases b1 <;> cases b2 <;> rfl
      rw [hcst]
      constructor
      · rintro ((h | h) | ⟨CSI, hm, h⟩)
        · exact Or.inl h
        · exact Or.inr ⟨C, List.mem_cons_self _ _, hI, h.1.symm, h.2⟩
        · exact Or.inr ⟨CSI, List.mem_cons_of_mem _ hm, h⟩
      · rintro (h | ⟨CSI, hm, h⟩)
        · exact Or.inl (Or.inl h)
        · rcases List.mem_cons.mp hm with h0 | h0
          · subst h0
            exact Or.inl (Or.inr ⟨h.2.1.symm, h.2.2⟩)
          · exact Or.inr ⟨CSI, h0, h⟩
    · rw [if_neg hI, ih]
      constructor
      · rintro (h | ⟨CSI, hm, h⟩)
        · exact Or.inl h
        · exact Or.inr ⟨CSI, List.mem_cons_of_mem _ hm, h⟩
      · rintro (h | ⟨CSI, hm, h⟩)
        · exact Or.inl h
        · rcases List.mem_cons.mp hm with h0 | h0
          · subst h0
            exact absurd h.1 hI
          · exact Or.inr ⟨CSI, h0, h⟩


theorem isExternal_of_CurModule (PA PA' : PoolAllocate) (h : PA'.CurModule = PA.CurModule)
    (k : FuncId) : PA'.isExternal k = PA.isExternal k := by
  unfold PoolAllocate.isExternal
  rw [h]

theorem isExternal_false_iff (PA : PoolAllocate) (F : FuncId) :
    PA.isExternal F = false ↔
      ∃ f, PA.CurModule.functions[F]? = some f ∧ f.isExternal = false := by
  unfold PoolAllocate.isExternal
  cases hf : PA.CurModule.functions[F]? with
  | none => simp
  | some f => simp

theorem classifyFunctions_targets (O : Oracle) (p : CallSite × FuncId) (l : List FuncId) :
    ∀ PA : PoolAllocate, p ∈ (classifyFunctions O l PA).CallSiteTargets ↔
      p ∈ PA.CallSiteTargets ∨
        ∃ MI ∈ l, PA.isExternal MI = false ∧
          ∃ CSI ∈ (O.TD MI).functionCalls, CSI.isIndirectCall = true ∧ CSI.callSite = p.1 ∧
            GlobalValue.function p.2 ∈ (O.TD MI).globals CSI.calleeNode := by
  induction l with
  | nil => intro PA; simp [classifyFunctions]
  | cons I rest ih =>
    intro PA
    simp only [classifyFunctions]
    by_cases hE : PA.isExternal I = true
    · rw [if_pos hE, ih]
      constructor
      · rintro (h | ⟨MI, hm, h⟩)
        · exact Or.inl h
        · exact Or.inr ⟨MI, List.mem_cons_of_mem _ hm, h⟩
      · rintro (h | ⟨MI, hm, h⟩)
        · exact Or.inl h
        · rcases List.mem_cons.mp hm with h0 | h0
          · subst h0
            rw [h.1] at hE
            exact absurd hE (by simp)
          · exact Or.inr ⟨MI, h0, h⟩
    · rw [if_neg hE, ih, classifyCallSites_targets]
      have hx : ∀ k, (classifyCallSites (O.TD I) (O.TD I).functionCalls PA).isExternal k =
          PA.isExternal k :=
        isExternal_of_CurModule _ _ (classifyCallSites_CurModule _ _ _)
      have hEf : PA.isExternal I = false := by
        cases hh : PA.isExternal I with
        | true => exact absurd hh hE
        | false => rfl
      constructor
      · rintro ((h | h) | ⟨MI, hm, h1, h2⟩)
        · exact Or.inl h
        · exact Or.inr ⟨I, List.mem_cons_self _ _, hEf, h⟩
        · rw [hx] at h1
          exact Or.inr ⟨MI, List.mem_cons_of_mem _ hm, h1, h2⟩
      · rintro (h | ⟨MI, hm, h1, h2⟩)
        · exact Or.inl (Or.inl h)
        · rcases List.mem_cons.mp hm with h0 | h0
          · subst h0
            exact Or.inl (Or.inr h2)
          · exact Or.inr ⟨MI, h0, by rw [hx]; exact h1, h2⟩

theorem classifyCallSites_no_candidates (TDG : DSGraph) (CSI : DSCallSite)
    (rest : List DSCallSite) (PA : PoolAllocate) (hI : CSI.isIndirectCall = true)
    (h : ∀ g, GlobalValue.function g ∉ TDG.globals CSI.calleeNode) :
    ∃ d, classifyCallSites TDG (CSI :: rest) PA =
      classifyCallSites TDG rest { PA with cerr := PA.cerr ++ d } := by
  simp only [classifyCallSites]
  rw [if_pos hI, classifyCallees_no_function _ _ h]
  by_cases h1 : TDG.isIncomplete CSI.calleeNode = true
  · by_cases h2 : (TDG.globals CSI.calleeNode).isEmpty = true
    · refine ⟨[Diag.incompleteNode CSI.callSite, Diag.noTargets CSI.callSite], ?_⟩
      rw [if_pos h1, if_pos h2]
      simp
    · refine ⟨[Diag.incompleteNode CSI.callSite], ?_⟩
      rw [if_pos h1, if_neg h2]
  · by_cases h2 : (TDG.globals CSI.calleeNode).isEmpty = true
    · refine ⟨[Diag.noTargets CSI.callSite], ?_⟩
      rw [if_neg h1, if_pos h2]
    · refine ⟨[], ?_⟩
      rw [if_neg h1, if_neg h2]
      simp

/-- C17: after `buildIndirectFunctionSets`, started with no recorded targets,
`CallSiteTargets` has the pair of a call site and a function exactly when the
call site is an indirect call site in the graph of a function with a body and
the function is among the globals of the callee node of the site; the flag
`isIncomplete` of the callee node plays no part.  The visit of an indirect
call site without a function among the globals of its callee node changes
nothing but the diagnostics: no target is recorded and the classes stay. -/
theorem C17_call_site_targets (O : Oracle) (M : Module) (cs : CallSite) (f : FuncId) :
    ((cs, f) ∈ (buildIndirectFunctionSets O (PoolAllocate.initial M)).CallSiteTargets ↔
      ∃ MI f0 CSI, M.functions[MI]? = some f0 ∧ f0.isExternal = false ∧
        CSI ∈ (O.TD MI).functionCalls ∧ CSI.isIndirectCall = true ∧ CSI.callSite = cs ∧
        GlobalValue.function f ∈ (O.TD MI).globals CSI.calleeNode) ∧
    (∀ (TDG : DSGraph) (CSI : DSCallSite) (rest : List DSCallSite) (PA : PoolAllocate),
      CSI.isIndirectCall = true →
      (∀ g, GlobalValue.function g ∉ TDG.globals CSI.calleeNode) →
      ∃ d, classifyCallSites TDG (CSI :: rest) PA =
        classifyCallSites TDG rest { PA with cerr := PA.cerr ++ d }) := by
  refine ⟨?_, fun TDG CSI rest PA hI h => classifyCallSites_no_candidates TDG CSI rest PA hI h⟩
  unfold buildIndirectFunctionSets
  rw [classifyFunctions_targets]
  constructor
  · rintro (h | ⟨MI, _, hE, CSI, hC, h1, h2, h3⟩)
    · simp [PoolAllocate.initial] at h
    · obtain ⟨f0, hf0, hx⟩ := (isExternal_false_iff _ MI).mp hE
      exact ⟨MI, f0, CSI, hf0, hx, hC, h1, h2, h3⟩
  · rintro ⟨MI, f0, CSI, hf0, hx, hC, h1, h2, h3⟩
    refine Or.inr ⟨MI, ?_, (isExternal_false_iff _ MI).mpr ⟨f0, hf0, hx⟩, CSI, hC, h1, h2, h3⟩
    exact List.mem_range.mpr (getElem?_lt_length _ _ _ hf0)


/-- The recorded targets of the example of three functions: the call site of
`h` has the targets `f` and `g`. -/
theorem exClassified_targets :
    exClassified.CallSiteTargets = [(7, 0), (7, 1)] ∧
      callSiteTargets exClassified 7 = [0, 1] := by
  decide

/-! ## The calls made by a run -/

theorem planPhaseLog_eq (O : Oracle) (l : List FuncId) :
    ∀ PA : PoolAllocate,
      planPhaseLog O l PA = (l.filter (fun I => !PA.isExternal I)).map Call.plan := by
  induction l with
  | nil => intro PA; rfl
  | cons I rest ih =>
    intro PA
    have hx : (fun J => !(FindFunctionPoolArgs O PA I).isExternal J) =
        (fun J => !PA.isExternal J) := by
      funext J
      rw [isExternal_of_CurModule _ _ (FindFunctionPoolArgs_CurModule O PA I)]
    simp only [planPhaseLog, List.filter_cons]
    cases hE : PA.isExternal I with
    | true => simp [ih]
    | false => simp [ih, hx]

theorem isExternal_append_lt (PA PA' : PoolAllocate) (e : List Function) (J : Nat)
    (h : PA'.CurModule.functions = PA.CurModule.functions ++ e)
    (hJ : J < PA.CurModule.functions.length) : PA'.isExternal J = PA.isExternal J := by
  unfold PoolAllocate.isExternal
  rw [h, List.getElem?_append_left hJ]

theorem clonePhaseLog_eq (O : Oracle) (l : List FuncId) :
    ∀ PA : PoolAllocate, (∀ I ∈ l, I < PA.CurModule.functions.length) →
      clonePhaseLog O l PA = (l.filter (fun I => !PA.isExternal I)).map Call.clone := by
  induction l with
  | nil => intro PA _; rfl
  | cons I rest ih =>
    intro PA hl
    obtain ⟨e, he⟩ := MakeFunctionClone_functions O PA I
    have hlen : ∀ J ∈ rest, J < (MakeFunctionClone O PA I).2.CurModule.functions.length := by
      intro J hJ
      rw [he, List.length_append]
      exact Nat.lt_of_lt_of_le (hl J (List.mem_cons_of_mem _ hJ)) (Nat.le_add_right _ _)
    have hx : rest.filter (fun J => !(MakeFunctionClone O PA I).2.isExternal J) =
        rest.filter (fun J => !PA.isExternal J) := by
      apply List.filter_congr
      intro J hJ
      rw [isExternal_append_lt PA _ e J he (hl J (List.mem_cons_of_mem _ hJ))]
    simp only [clonePhaseLog, List.filter_cons]
    cases hE : PA.isExternal I with
    | true =>
      simp only [Bool.not_true, Bool.false_eq_true, if_false]
      exact ih PA (fun J hJ => hl J (List.mem_cons_of_mem _ hJ))
    | false =>
      simp only [Bool.not_false, if_true, List.map_cons]
      rw [ih _ hlen, hx]

theorem processPhaseLog_eq (O : Oracle) (FM : List (FuncId × FuncId)) (l : List FuncId) :
    ∀ PA : PoolAllocate,
      processPhaseLog O FM l PA =
        (l.filter (fun I => !PA.isExternal I)).map (fun I => Call.process I (newOf FM I)) := by
  induction l with
  | nil => intro PA; rfl
  | cons I rest ih =>
    intro PA
    have hx : ∀ N, (fun J => !(ProcessFunctionBody O PA I N).isExternal J) =
        (fun J => !PA.isExternal J) := by
      intro N
      funext J
      rw [(ProcessFunctionBody_frame O PA I N).2.2.2.2.2 J]
    simp only [processPhaseLog, List.filter_cons]
    cases hE : PA.isExternal I with
    | true => simp [ih]
    | false =>
      cases hm : mapFind FM I with
      | none => simp [ih, hx, newOf, hm]
      | some R => simp [ih, hx, newOf, hm]

theorem filter_body_eq (PA : PoolAllocate) (n : Nat)
    (hn : n = PA.CurModule.functions.length) :
    (List.range n).filter (fun I => !PA.isExternal I) = bodyFunctions PA.CurModule := by
  subst hn
  unfold bodyFunctions
  apply List.filter_congr
  intro I _
  unfold PoolAllocate.isExternal
  cases PA.CurModule.functions[I]? <;> rfl


theorem log_closed_form (O : Oracle) (PA0 P0 PAc : PoolAllocate)
    (FM : List (FuncId × FuncId)) (Mod : Module) (h0 : PA0.CurModule = Mod)
    (h1 : P0.CurModule = Mod) (h2 : ∃ ext, PAc.CurModule.functions = Mod.functions ++ ext) :
    planPhaseLog O (List.range Mod.functions.length) PA0 ++
        clonePhaseLog O (List.range Mod.functions.length) P0 ++
        processPhaseLog O FM (List.range Mod.functions.length) PAc =
      (bodyFunctions Mod).map Call.plan ++ (bodyFunctions Mod).map Call.clone ++
        (bodyFunctions Mod).map (fun I => Call.process I (newOf FM I)) := by
  have e0 : (List.range Mod.functions.length).filter (fun I => !PA0.isExternal I) =
      bodyFunctions Mod := by
    rw [← h0]
    exact filter_body_eq PA0 _ rfl
  have e1 : (List.range Mod.functions.length).filter (fun I => !P0.isExternal I) =
      bodyFunctions Mod := by
    rw [← h1]
    exact filter_body_eq P0 _ rfl
  have e2 : (List.range Mod.functions.length).filter (fun I => !PAc.isExternal I) =
      bodyFunctions Mod := by
    rw [← e1]
    apply List.filter_congr
    intro I hI
    obtain ⟨ext, hext⟩ := h2
    rw [isExternal_append_lt P0 PAc ext I (by rw [h1]; exact hext)
      (by rw [h1]; exact List.mem_range.mp hI)]
  rw [planPhaseLog_eq, clonePhaseLog_eq O _ P0 (fun I hI => by
    rw [h1]; exact List.mem_range.mp hI), processPhaseLog_eq, e0, e1, e2]

theorem buildIndirectFunctionSets_CurModule (O : Oracle) (PA : PoolAllocate) :
    (buildIndirectFunctionSets O PA).CurModule = PA.CurModule := by
  unfold buildIndirectFunctionSets
  exact classifyFunctions_CurModule O _ PA

/-- The calls made by a run on a module with functions: the functions with a
body are planned, then cloned, then rewritten. -/
theorem runLog_eq (O : Oracle) (M : Module) (hM : M.functions ≠ []) :
    runLog O M =
      (bodyFunctions (AddPoolPrototypes M)).map Call.plan ++
        (bodyFunctions (AddPoolPrototypes M)).map Call.clone ++
        (bodyFunctions (AddPoolPrototypes M)).map
          (fun I => Call.process I (newOf (cloned O M).2 I)) := by
  have hcm : (buildIndirectFunctionSets O
      (PoolAllocate.initial (AddPoolPrototypes M))).CurModule = AddPoolPrototypes M :=
    buildIndirectFunctionSets_CurModule O _
  have hext : ∃ ext, (cloned O M).1.CurModule.functions =
      (AddPoolPrototypes M).functions ++ ext := by
    obtain ⟨ext, h⟩ := (CloneInv_cloned O M).1.2.2.1
    rw [planned_CurModule] at h
    exact ⟨ext, h⟩
  unfold runLog
  rw [isEmpty_false_of_ne_nil _ hM]
  simp only [Bool.false_eq_true, if_false]
  rw [hcm]
  exact log_closed_form O _ (planned O M) (cloned O M).1 (cloned O M).2 (AddPoolPrototypes M)
    hcm (planned_CurModule O M) hext


theorem index_lt_of_not_mem_right {α : Type} (A B : List α) (i : Nat) (x : α)
    (h : (A ++ B)[i]? = some x) (hx : x ∉ B) : i < A.length := by
  by_contra hge
  rw [List.getElem?_append_right (Nat.le_of_not_lt hge)] at h
  exact hx (List.getElem?_mem h)

theorem index_ge_of_not_mem_left {α : Type} (A B : List α) (i : Nat) (x : α)
    (h : (A ++ B)[i]? = some x) (hx : x ∉ A) : A.length ≤ i := by
  by_contra hlt
  rw [List.getElem?_append_left (Nat.lt_of_not_le hlt)] at h
  exact hx (List.getElem?_mem h)

theorem phases_in_order (P C R : List Call) (hP : ∀ x ∈ P, ∃ F, x = Call.plan F)
    (hC : ∀ x ∈ C, ∃ F, x = Call.clone F) (hR : ∀ x ∈ R, ∃ F X, x = Call.process F X) :
    (∀ (i j : Nat) (F G : FuncId), (P ++ C ++ R)[i]? = some (Call.plan F) →
      (P ++ C ++ R)[j]? = some (Call.clone G) → i < j) ∧
    (∀ (i j : Nat) (F G X : FuncId), (P ++ C ++ R)[i]? = some (Call.clone F) →
      (P ++ C ++ R)[j]? = some (Call.process G X) → i < j) := by
  have nPC : ∀ F, Call.plan F ∉ C := by
    intro F h
    obtain ⟨G, hG⟩ := hC _ h
    cases hG
  have nPR : ∀ F, Call.plan F ∉ R := by
    intro F h
    obtain ⟨G, X, hG⟩ := hR _ h
    cases hG
  have nCP : ∀ F, Call.clone F ∉ P := by
    intro F h
    obtain ⟨G, hG⟩ := hP _ h
    cases hG
  have nCR : ∀ F, Call.clone F ∉ R := by
    intro F h
    obtain ⟨G, X, hG⟩ := hR _ h
    cases hG
  have nRP : ∀ F X, Call.process F X ∉ P := by
    intro F X h
    obtain ⟨G, hG⟩ := hP _ h
    cases hG
  have nRC : ∀ F X, Call.process F X ∉ C := by
    intro F X h
    obtain ⟨G, hG⟩ := hC _ h
    cases hG
  constructor
  · intro i j F G hi hj
    have h1 := index_lt_of_not_mem_right (P ++ C) R i _ hi (nPR F)
    rw [List.getElem?_append_left h1] at hi
    have h2 := index_lt_of_not_mem_right P C i _ hi (nPC F)
    by_cases hjl : j < (P ++ C).length
    · rw [List.getElem?_append_left hjl] at hj
      have h3 := index_ge_of_not_mem_left P C j _ hj (nCP G)
      omega
    · rw [List.length_append] at hjl
      omega
  · intro i j F G X hi hj
    have h1 := index_lt_of_not_mem_right (P ++ C) R i _ hi (nCR F)
    have h2 : (P ++ C).length ≤ j := by
      apply index_ge_of_not_mem_left (P ++ C) R j _ hj
      intro h
      rcases List.mem_append.mp h with h | h
      · exact nRP G X h
      · exact nRC G X h
    omega

theorem mem_bodyFunctions (M : Module) (F : FuncId) :
    F ∈ bodyFunctions M ↔ ∃ f, M.functions[F]? = some f ∧ f.isExternal = false := by
  unfold bodyFunctions
  rw [List.mem_filter, List.mem_range]
  cases hf : M.functions[F]? with
  | none => simp
  | some f =>
    have := getElem?_lt_length _ _ _ hf
    simp [this]

theorem clone_not_original (O : Oracle) (M : Module) (F N : FuncId)
    (h : mapFind (cloned O M).2 F = some N) :
    (AddPoolPrototypes M).functions.length ≤ N ∧ N ∉ bodyFunctions (AddPoolPrototypes M) := by
  have h1 := ((CloneInv_cloned O M).1.2.2.2.2.2.1 F N h).1
  rw [planned_CurModule] at h1
  refine ⟨h1, fun hm => ?_⟩
  obtain ⟨f, hf, _⟩ := (mem_bodyFunctions _ N).mp hm
  exact absurd (getElem?_lt_length _ _ _ hf) (Nat.not_lt.mpr h1)

/-! ## The order of the phases (C16) -/

/-- C16: the calls that `run` makes on a module with functions are, in this
order: `FindFunctionPoolArgs` for every function with a body of the module as
it is before the cloning (with the pool prototypes), in the order of the
module; then `MakeFunctionClone` for the same functions; then
`ProcessFunctionBody` for the same functions, each with its clone if it has
one.  So every call of `FindFunctionPoolArgs` comes before every call of
`MakeFunctionClone`, every call of `MakeFunctionClone` before every call of
`ProcessFunctionBody`, and a clone made by the pass is not among the functions
visited: it is at a position past the functions of the module. -/
theorem C16_phases_ordered (O : Oracle) (M : Module) (hM : M.functions ≠ []) :
    runLog O M =
        (bodyFunctions (AddPoolPrototypes M)).map Call.plan ++
          (bodyFunctions (AddPoolPrototypes M)).map Call.clone ++
          (bodyFunctions (AddPoolPrototypes M)).map
            (fun I => Call.process I (newOf (cloned O M).2 I)) ∧
      (∀ (i j : Nat) (F G : FuncId), (runLog O M)[i]? = some (Call.plan F) →
        (runLog O M)[j]? = some (Call.clone G) → i < j) ∧
      (∀ (i j : Nat) (F G X : FuncId), (runLog O M)[i]? = some (Call.clone F) →
        (runLog O M)[j]? = some (Call.process G X) → i < j) ∧
      (∀ F N : FuncId, mapFind (cloned O M).2 F = some N →
        (AddPoolPrototypes M).functions.length ≤ N ∧
        N ∉ bodyFunctions (AddPoolPrototypes M) ∧
        Call.plan N ∉ runLog O M ∧ Call.clone N ∉ runLog O M) := by
  have hlog := runLog_eq O M hM
  have hord := phases_in_order ((bodyFunctions (AddPoolPrototypes M)).map Call.plan)
    ((bodyFunctions (AddPoolPrototypes M)).map Call.clone)
    ((bodyFunctions (AddPoolPrototypes M)).map
      (fun I => Call.process I (newOf (cloned O M).2 I)))
    (fun x hx => by
      obtain ⟨F, _, hF⟩ := List.mem_map.mp hx
      exact ⟨F, hF.symm⟩)
    (fun x hx => by
      obtain ⟨F, _, hF⟩ := List.mem_map.mp hx
      exact ⟨F, hF.symm⟩)
    (fun x hx => by
      obtain ⟨F, _, hF⟩ := List.mem_map.mp hx
      exact ⟨F, _, hF.symm⟩)
  rw [← hlog] at hord
  refine ⟨hlog, hord.1, hord.2, ?_⟩
  intro F N h
  obtain ⟨h1, h2⟩ := clone_not_original O M F N h
  refine ⟨h1, h2, ?_, ?_⟩
  · rw [hlog]
    intro hm
    simp only [List.mem_append, List.mem_map] at hm
    rcases hm with (⟨a, ha, he⟩ | ⟨a, _, he⟩) | ⟨a, _, he⟩
    · injection he with he
      exact h2 (he ▸ ha)
    · cases he
    · cases he
  · rw [hlog]
    intro hm
    simp only [List.mem_append, List.mem_map] at hm
    rcases hm with (⟨a, _, he⟩ | ⟨a, ha, he⟩) | ⟨a, _, he⟩
    · cases he
    · injection he with he
      exact h2 (he ▸ ha)
    · cases he

/-- C16 at the example of three functions, where `f` is cloned. -/
theorem C16_phases_ordered_witness :
    exModule.functions ≠ [] ∧
      (runLog exOracle exModule =
        (bodyFunctions (AddPoolPrototypes exModule)).map Call.plan ++
          (bodyFunctions (AddPoolPrototypes exModule)).map Call.clone ++
          (bodyFunctions (AddPoolPrototypes exModule)).map
            (fun I => Call.process I (newOf (cloned exOracle exModule).2 I)) ∧
      (∀ (i j : Nat) (F G : FuncId), (runLog exOracle exModule)[i]? = some (Call.plan F) →
        (runLog exOracle exModule)[j]? = some (Call.clone G) → i < j) ∧
      (∀ (i j : Nat) (F G X : FuncId), (runLog exOracle exModule)[i]? = some (Call.clone F) →
        (runLog exOracle exModule)[j]? = some (Call.process G X) → i < j) ∧
      (∀ F N : FuncId, mapFind (cloned exOracle exModule).2 F = some N →
        (AddPoolPrototypes exModule).functions.length ≤ N ∧
        N ∉ bodyFunctions (AddPoolPrototypes exModule) ∧
        Call.plan N ∉ runLog exOracle exModule ∧ Call.clone N ∉ runLog exOracle exModule)) :=
  ⟨by decide, C16_phases_ordered exOracle exModule (by decide)⟩


/-! ## Functions without a body -/

theorem planPhase_FunctionInfo_skip (O : Oracle) (F : FuncId) (l : List FuncId) :
    ∀ PA : PoolAllocate, PA.isExternal F = true →
      (planPhase O l PA).FunctionInfo F = PA.FunctionInfo F := by
  induction l with
  | nil => intro PA _; rfl
  | cons I rest ih =>
    intro PA hE
    rw [planPhase_cons]
    split_ifs with hI
    · exact ih PA hE
    · have hne : F ≠ I := fun hc => hI (hc ▸ hE)
      rw [ih _ (by
        rw [isExternal_of_CurModule _ _ (FindFunctionPoolArgs_CurModule O PA I)]
        exact hE), FindFunctionPoolArgs_FunctionInfo_ne O PA I F hne]

theorem MakeFunctionClone_FunctionInfo_ne (O : Oracle) (PA : PoolAllocate) (F k : FuncId)
    (h : k ≠ F) : (MakeFunctionClone O PA F).2.FunctionInfo k = PA.FunctionInfo k := by
  unfold MakeFunctionClone
  cases hf : PA.CurModule.functions[F]? with
  | none => rfl
  | some f =>
    simp only []
    split_ifs
    · rfl
    · cases hca : cloneArgs PA F (PA.funcInfo F) with
      | none => simp [PoolAllocate.setFuncInfo, h]
      | some p => simp [PoolAllocate.setFuncInfo, h]

theorem clonePhase_FunctionInfo_skip (O : Oracle) (F : FuncId) (l : List FuncId) :
    ∀ (PA : PoolAllocate) (FM : List (FuncId × FuncId)),
      F < PA.CurModule.functions.length → PA.isExternal F = true →
      (clonePhase O l (PA, FM)).1.FunctionInfo F = PA.FunctionInfo F := by
  induction l with
  | nil => intro PA FM _ _; rfl
  | cons I rest ih =>
    intro PA FM hlt hE
    rw [clonePhase_cons]
    split_ifs with hI
    · exact ih PA FM hlt hE
    · have hne : F ≠ I := fun hc => hI (hc ▸ hE)
      obtain ⟨e, he⟩ := MakeFunctionClone_functions O PA I
      rw [ih _ _ (by
          rw [he, List.length_append]
          exact Nat.lt_of_lt_of_le hlt (Nat.le_add_right _ _))
        (by rw [isExternal_append_lt PA _ e F he hlt]; exact hE),
        MakeFunctionClone_FunctionInfo_ne O PA I F hne]

theorem ProcessFunctionBody_FunctionInfo_ne (O : Oracle) (PA : PoolAllocate)
    (F NewF k : FuncId) (h : k ≠ F) :
    (ProcessFunctionBody O PA F NewF).FunctionInfo k = PA.FunctionInfo k := by
  unfold ProcessFunctionBody
  simp only []
  split_ifs
  · rfl
  · simp [PoolAllocate.setFuncInfo, h]
  · cases PA.CurModule.functions[NewF]? <;> simp [PoolAllocate.setFuncInfo, h]

theorem processPhase_skip (O : Oracle) (FM : List (FuncId × FuncId)) (F : FuncId)
    (l : List FuncId) :
    ∀ PA : PoolAllocate, PA.isExternal F = true →
      (∀ J, PA.isExternal J = false → newOf FM J ≠ F) →
      (processPhase O FM l PA).FunctionInfo F = PA.FunctionInfo F ∧
        (processPhase O FM l PA).CurModule.functions[F]? = PA.CurModule.functions[F]? := by
  induction l with
  | nil => intro PA _ _; exact ⟨rfl, rfl⟩
  | cons I rest ih =>
    intro PA hE hN
    rw [processPhase_cons]
    split_ifs with hI
    · exact ih PA hE hN
    · have hne : F ≠ I := fun hc => hI (hc ▸ hE)
      have hIf : PA.isExternal I = false := by
        cases hh : PA.isExternal I with
        | true => exact absurd hh hI
        | false => rfl
      obtain ⟨_, _, _, _, f5, f6⟩ := ProcessFunctionBody_frame O PA I (newOf FM I)
      obtain ⟨r1, r2⟩ := ih (ProcessFunctionBody O PA I (newOf FM I))
        (by rw [f6]; exact hE) (fun J hJ => hN J (by rw [← f6]; exact hJ))
      rw [r1, r2, ProcessFunctionBody_FunctionInfo_ne O PA I _ F hne]
      exact ⟨rfl, f5 F (fun hc => hN I hIf hc.symm)⟩


theorem external_state (O : Oracle) (M : Module) (F : FuncId) (f : Function)
    (hF : M.functions[F]? = some f) (hE : f.isExternal = true) :
    (AddPoolPrototypes M).functions[F]? = some f ∧
      F ∉ bodyFunctions (AddPoolPrototypes M) ∧
      (planned O M).FunctionInfo F = none ∧
      (cloned O M).1.FunctionInfo F = none ∧
      (cloned O M).1.isExternal F = true ∧
      (cloned O M).1.CurModule.functions[F]? = some f ∧
      mapFind (cloned O M).2 F = none := by
  obtain ⟨e, he⟩ := AddPoolPrototypes_prefix M
  have hA : (AddPoolPrototypes M).functions[F]? = some f := by
    rw [he]
    exact getElem?_append_of_some _ e _ _ hF
  have hlt : F < (AddPoolPrototypes M).functions.length := getElem?_lt_length _ _ _ hA
  have hnb : F ∉ bodyFunctions (AddPoolPrototypes M) := by
    intro hm
    obtain ⟨f', hf', hx⟩ := (mem_bodyFunctions _ F).mp hm
    rw [hA] at hf'
    injection hf' with hf'
    rw [← hf', hE] at hx
    cases hx
  have hcm := buildIndirectFunctionSets_CurModule O (PoolAllocate.initial (AddPoolPrototypes M))
  have hE0 : (buildIndirectFunctionSets O
      (PoolAllocate.initial (AddPoolPrototypes M))).isExternal F = true := by
    unfold PoolAllocate.isExternal
    rw [hcm]
    show (match (AddPoolPrototypes M).functions[F]? with
      | some f => f.isExternal
      | none => true) = true
    rw [hA]
    exact hE
  have hFI0 : (buildIndirectFunctionSets O
      (PoolAllocate.initial (AddPoolPrototypes M))).FunctionInfo F = none := by
    unfold buildIndirectFunctionSets
    rw [(classifyFunctions_frame O _ _).2]
    rfl
  have hdp : planned O M =
      planPhase O (List.range (buildIndirectFunctionSets O
        (PoolAllocate.initial (AddPoolPrototypes M))).CurModule.functions.length)
        (buildIndirectFunctionSets O (PoolAllocate.initial (AddPoolPrototypes M))) := rfl
  have hFI1 : (planned O M).FunctionInfo F = none := by
    rw [hdp, planPhase_FunctionInfo_skip O F _ _ hE0]
    exact hFI0
  have hE1 : (planned O M).isExternal F = true := by
    unfold PoolAllocate.isExternal
    rw [planned_CurModule, hA]
    exact hE
  have hlt1 : F < (planned O M).CurModule.functions.length := by
    rw [planned_CurModule]
    exact hlt
  have hdc : cloned O M =
      clonePhase O (List.range (planned O M).CurModule.functions.length) (planned O M, []) := rfl
  have hFI2 : (cloned O M).1.FunctionInfo F = none := by
    rw [hdc, clonePhase_FunctionInfo_skip O F _ _ _ hlt1 hE1]
    exact hFI1
  obtain ⟨ext, hext⟩ := (CloneInv_cloned O M).1.2.2.1
  have hE2 : (cloned O M).1.isExternal F = true := by
    rw [isExternal_append_lt (planned O M) _ ext F hext hlt1]
    exact hE1
  have hf2 : (cloned O M).1.CurModule.functions[F]? = some f := by
    rw [hext, planned_CurModule]
    exact getElem?_append_of_some _ ext _ _ hA
  refine ⟨hA, hnb, hFI1, hFI2, hE2, hf2, ?_⟩
  cases hm : mapFind (cloned O M).2 F with
  | none => rfl
  | some N =>
    exfalso
    have hc := (CloneInv_cloned O M).1.2.2.2.2.2.1 F N hm
    exact hc.2.2.1 (marked_of_FunctionInfo_none _ F hFI1)

theorem newOf_ne_external (O : Oracle) (M : Module) (F : FuncId) (f : Function)
    (hF : M.functions[F]? = some f) (hE : f.isExternal = true) (J : FuncId)
    (hJ : (cloned O M).1.isExternal J = false) : newOf (cloned O M).2 J ≠ F := by
  obtain ⟨hA, _, _, _, hE2, _, _⟩ := external_state O M F f hF hE
  unfold newOf
  cases hm : mapFind (cloned O M).2 J with
  | none =>
    simp only []
    intro hc
    rw [hc, hE2] at hJ
    cases hJ
  | some N =>
    simp only []
    intro hc
    have h1 := (clone_not_original O M J N hm).1
    rw [hc] at h1
    exact absurd (getElem?_lt_length _ _ _ hA) (Nat.not_lt.mpr h1)


/-! ## Declarations and empty modules (C13) -/

/-- C13: for a function of the module without a body, `run` makes no call of
`FindFunctionPoolArgs`, of `MakeFunctionClone` or of `ProcessFunctionBody` for
it, and rewrites no function into it; it has no clone in `FuncMap`, its
`FuncInfo` is the one of a function never seen, and it is in the module as it
was.  Nothing of this depends on the classes.  On a module without functions
`run` returns false, makes no call and leaves the initial state. -/
theorem C13_external_function_untouched (O : Oracle) (M : Module) (F : FuncId)
    (f : Function) (hF : M.functions[F]? = some f) (hE : f.isExternal = true) :
    Call.plan F ∉ runLog O M ∧ Call.clone F ∉ runLog O M ∧
      (∀ X, Call.process F X ∉ runLog O M) ∧ (∀ G, Call.process G F ∉ runLog O M) ∧
      mapFind (cloned O M).2 F = none ∧
      (run O M).2.funcInfo F = FuncInfo.fresh ∧
      (run O M).2.CurModule.functions[F]? = some f ∧
      (∀ M0 : Module, M0.functions = [] →
        run O M0 = (false, PoolAllocate.initial M0) ∧ runLog O M0 = []) := by
  have hM : M.functions ≠ [] := by
    intro he
    rw [he] at hF
    simp at hF
  obtain ⟨hA, hnb, hFI1, hFI2, hE2, hf2, hmap⟩ := external_state O M F f hF hE
  have hlog := runLog_eq O M hM
  obtain ⟨r1, r2⟩ := run_state O M hM
  obtain ⟨s1, s2⟩ := processPhase_skip O (cloned O M).2 F
    (List.range (planned O M).CurModule.functions.length) (cloned O M).1 hE2
    (fun J hJ => newOf_ne_external O M F f hF hE J hJ)
  refine ⟨?_, ?_, ?_, ?_, hmap, ?_, ?_, ?_⟩
  · rw [hlog]
    intro hm
    simp only [List.mem_append, List.mem_map] at hm
    rcases hm with (⟨a, ha, he⟩ | ⟨a, _, he⟩) | ⟨a, _, he⟩
    · injection he with he
      exact hnb (he ▸ ha)
    · cases he
    · cases he
  · rw [hlog]
    intro hm
    simp only [List.mem_append, List.mem_map] at hm
    rcases hm with (⟨a, _, he⟩ | ⟨a, ha, he⟩) | ⟨a, _, he⟩
    · cases he
    · injection he with he
      exact hnb (he ▸ ha)
    · cases he
  · intro X
    rw [hlog]
    intro hm
    simp only [List.mem_append, List.mem_map] at hm
    rcases hm with (⟨a, _, he⟩ | ⟨a, _, he⟩) | ⟨a, ha, he⟩
    · cases he
    · cases he
    · injection he with he _
      exact hnb (he ▸ ha)
  · intro G
    rw [hlog]
    intro hm
    simp only [List.mem_append, List.mem_map] at hm
    rcases hm with (⟨a, _, he⟩ | ⟨a, _, he⟩) | ⟨a, ha, he⟩
    · cases he
    · cases he
    · injection he with he1 he2
      obtain ⟨fa, hfa, hxa⟩ := (mem_bodyFunctions _ a).mp ha
      obtain ⟨ext, hext⟩ := (CloneInv_cloned O M).1.2.2.1
      have hxa2 : (cloned O M).1.isExternal a = false := by
        apply (isExternal_false_iff _ a).mpr
        refine ⟨fa, ?_, hxa⟩
        rw [hext, planned_CurModule]
        exact getElem?_append_of_some _ ext _ _ hfa
      exact newOf_ne_external O M F f hF hE a hxa2 he2
  · rw [r1 F]
    unfold PoolAllocate.funcInfo
    rw [s1, hFI2]
    rfl
  · rw [r2, s2]
    exact hf2
  · intro M0 h0
    unfold run runLog
    rw [h0]
    exact ⟨rfl, rfl⟩

/-- C13 at an example: the declaration `g` is in the class of `f`, and `f`
is cloned. -/
theorem C13_external_function_untouched_witness :
    exExtModule.functions[1]? = some exDeclaration ∧ exDeclaration.isExternal = true ∧
      (Call.plan 1 ∉ runLog exOracle exExtModule ∧ Call.clone 1 ∉ runLog exOracle exExtModule ∧
      (∀ X, Call.process 1 X ∉ runLog exOracle exExtModule) ∧
      (∀ G, Call.process G 1 ∉ runLog exOracle exExtModule) ∧
      mapFind (cloned exOracle exExtModule).2 1 = none ∧
      (run exOracle exExtModule).2.funcInfo 1 = FuncInfo.fresh ∧
      (run exOracle exExtModule).2.CurModule.functions[1]? = some exDeclaration ∧
      (∀ M0 : Module, M0.functions = [] →
        run exOracle M0 = (false, PoolAllocate.initial M0) ∧ runLog exOracle M0 = [])) :=
  ⟨by decide, rfl,
   C13_external_function_untouched exOracle exExtModule 1 exDeclaration (by decide) rfl⟩

/-- In the example of C13 the declaration `g` is in the class of `f`, and `f`
has a clone. -/
theorem exExtModule_class :
    findClass (planned exOracle exExtModule).FuncECs 1 = some 0 ∧
      findClass (planned exOracle exExtModule).FuncECs 0 = some 0 ∧
      mapFind (cloned exOracle exExtModule).2 0 = some 7 := by
  decide


/-! ## The live sets have no duplicates -/

theorem foldl_nodup {α β : Type} (f : List α → β → List α)
    (hf : ∀ S b, S.Nodup → (f S b).Nodup) :
    ∀ (l : List β) (S : List α), S.Nodup → (l.foldl f S).Nodup := by
  intro l
  induction l with
  | nil => intro S h; exact h
  | cons b rest ih => intro S h; exact ih _ (hf S b h)

theorem markReachableFuel_nodup (G : DSGraph) :
    ∀ (fuel : Nat) (n : NodeId) (S : List NodeId),
      S.Nodup → (markReachableFuel G fuel n S).Nodup := by
  intro fuel
  induction fuel with
  | zero => intro n S h; exact h
  | succ fuel ih =>
    intro n S h
    simp only [markReachableFuel]
    split_ifs with hn
    · exact h
    · exact foldl_nodup (fun acc m => markReachableFuel G fuel m acc)
        (fun S b hS => ih b S hS) _ _ (List.nodup_cons.mpr ⟨hn, h⟩)

theorem markReachableNodes_nodup (G : DSGraph) (n : NodeId) (S : List NodeId)
    (h : S.Nodup) : (markReachableNodes G n S).Nodup :=
  markReachableFuel_nodup G _ n S h

theorem markRoots_nodup (G : DSGraph) (fg : List NodeId) :
    ∀ (l S : List NodeId), S.Nodup → (markRoots G fg l S).Nodup := by
  intro l
  induction l with
  | nil => intro S h; exact h
  | cons i rest ih =>
    intro S h
    simp only [markRoots]
    split_ifs
    · exact ih _ (markReachableNodes_nodup G i S h)
    · exact ih _ h

theorem markLive_nodup (G : DSGraph) (fg : List NodeId) (name : String) (S : List NodeId)
    (h : S.Nodup) : (markLive G fg name S).Nodup := by
  have h1 : (if name ≠ "main" then markRoots G fg (List.range G.nodes.length) S
      else S).Nodup := by
    split_ifs
    · exact markRoots_nodup G fg _ S h
    · exact h
  unfold markLive markReturn
  generalize (if name ≠ "main" then markRoots G fg (List.range G.nodes.length) S
    else S) = S1 at h1
  cases G.returnNode with
  | none => exact h1
  | some r =>
    simp only []
    split_ifs
    · exact markReachableNodes_nodup G r _ h1
    · exact h1

theorem FindFunctionPoolArgs_nodup (O : Oracle) (PA : PoolAllocate) (F : FuncId)
    (h : ∀ k, (PA.marked k).Nodup) : ∀ k, ((FindFunctionPoolArgs O PA F).marked k).Nodup := by
  intro k
  by_cases hG : (O.BU F).nodes = []
  · rw [FindFunctionPoolArgs_of_empty O PA F hG]
    exact h k
  by_cases hk : k = F
  · subst hk
    rw [marked_def, FindFunctionPoolArgs_funcInfo O PA k hG]
    exact List.Nodup.filter _ (markLive_nodup _ _ _ _ (h k))
  · rw [marked_def, FindFunctionPoolArgs_funcInfo_ne O PA F k hk]
    exact h k

theorem planPhase_nodup (O : Oracle) (l : List FuncId) :
    ∀ PA : PoolAllocate, (∀ k, (PA.marked k).Nodup) →
      ∀ k, ((planPhase O l PA).marked k).Nodup := by
  induction l with
  | nil => intro PA h; exact h
  | cons I rest ih =>
    intro PA h
    rw [planPhase_cons]
    split_ifs
    · exact ih PA h
    · exact ih _ (FindFunctionPoolArgs_nodup O PA I h)

theorem planned_nodup (O : Oracle) (M : Module) (k : FuncId) :
    ((planned O M).marked k).Nodup := by
  have hdp : planned O M =
      planPhase O (List.range (buildIndirectFunctionSets O
        (PoolAllocate.initial (AddPoolPrototypes M))).CurModule.functions.length)
        (buildIndirectFunctionSets O (PoolAllocate.initial (AddPoolPrototypes M))) := rfl
  rw [hdp]
  apply planPhase_nodup
  intro j
  have : (buildIndirectFunctionSets O
      (PoolAllocate.initial (AddPoolPrototypes M))).FunctionInfo j = none := by
    unfold buildIndirectFunctionSets
    rw [(classifyFunctions_frame O _ _).2]
    rfl
  rw [marked_of_FunctionInfo_none _ j this]
  exact List.nodup_nil

theorem mapFind_bindWith_nodup (mk : Nat → Value) (l : List NodeId) (pos : Nat)
    (hl : l.Nodup) (i : Nat) (n : NodeId) (hi : l[i]? = some n) :
    mapFind (bindWith mk l pos []) n = some (mk (pos + i)) := by
  obtain ⟨j, hj, hfind⟩ := mapFind_bindWith_in mk n l pos [] (List.getElem?_mem hi)
    (mapFind_nil n)
  have hlt : i < l.length := getElem?_lt_length _ _ _ hi
  have : i = j := List.getElem?_inj hlt hl (hi.trans hj.symm)
  rw [hfind, this]


/-! ## Binding of the live nodes to the pool descriptor formals (C15) -/

theorem bound_position (P0 PAc : PoolAllocate) (FM : List (FuncId × FuncId)) (F N : FuncId)
    (i : Nat) (n : NodeId) (hP : PlanInv P0) (hC : CloneInv P0 PAc FM)
    (hnd : (P0.marked F).Nodup) (hc : mapFind FM F = some N)
    (hi : (PAc.funcInfo F).ArgNodes[i]? = some n) :
    ∃ (pos k : Nat) (f newF : Function),
      mapFind (PAc.funcInfo F).PoolDescriptors n = some (Value.argument N pos) ∧
      (∀ c, findClass PAc.FuncECs F = some c →
        (pos : Int) = (PAc.funcInfo F).PoolArgFirst + (i : Int)) ∧
      (findClass PAc.FuncECs F = none → pos = i) ∧
      PAc.CurModule.functions[F]? = some f ∧ PAc.CurModule.functions[N]? = some newF ∧
      newF.paramTypes = List.replicate k Ty.PoolDescPtrTy ++ f.paramTypes ∧ pos < k := by
  obtain ⟨c1, _, _, c4, _, c6, _⟩ := hC
  obtain ⟨_, w2, _⟩ := hP
  obtain ⟨_, ⟨f, hf, hNf⟩, hne, _, hArg, hPD⟩ := c6 F N hc
  rw [hArg] at hi
  have hlt := getElem?_lt_length _ _ _ hi
  refine ⟨firstBoundArg P0 F (P0.funcInfo F) + i, (injectedTys P0 F).length, f,
    cloneFunction f (injectedTys P0 F), ?_, ?_, ?_, hf, hNf, ?_, ?_⟩
  · rw [hPD, bindArgNodes_eq_bindWith]
    exact mapFind_bindWith_nodup _ _ _ hnd i n hi
  · intro c hcl
    rw [c1] at hcl
    obtain ⟨W, hW, hnn, hle⟩ := w2 F c hcl hne
    rw [(c4 F).2.1]
    unfold firstBoundArg
    simp only [hcl]
    split_ifs <;> push_cast <;> omega
  · intro hcl
    rw [c1] at hcl
    unfold firstBoundArg
    simp only [hcl]
    omega
  · show injectedTys P0 F ++ f.paramTypes = _
    rw [← injectedTys_replicate]
  · unfold firstBoundArg injectedTys
    cases hcl : findClass P0.FuncECs F with
    | none => simpa using hlt
    | some c =>
      obtain ⟨W, hW, hnn, hle⟩ := w2 F c hcl hne
      simp only [hW, List.length_replicate]
      split_ifs <;> omega

/-- C15: when the cloning phase of a run is over, for a function `F` with the
clone `N`, the node at position `i` of `ArgNodes` has as pool descriptor the
formal of `N` at the position `PoolArgFirst + i` when `F` has a class, and at
the position `i` when it has none; the clone has `k` pool descriptor
parameters in front of the parameters of `F`, and the position is below
`k`. -/
theorem C15_arg_nodes_bound_to_pool_formals (O : Oracle) (M : Module) (F N : FuncId)
    (i : Nat) (n : NodeId) (hc : mapFind (cloned O M).2 F = some N)
    (hi : ((cloned O M).1.funcInfo F).ArgNodes[i]? = some n) :
    ∃ (pos k : Nat) (f newF : Function),
      mapFind ((cloned O M).1.funcInfo F).PoolDescriptors n = some (Value.argument N pos) ∧
      (∀ c, findClass (cloned O M).1.FuncECs F = some c →
        (pos : Int) = ((cloned O M).1.funcInfo F).PoolArgFirst + (i : Int)) ∧
      (findClass (cloned O M).1.FuncECs F = none → pos = i) ∧
      (cloned O M).1.CurModule.functions[F]? = some f ∧
      (cloned O M).1.CurModule.functions[N]? = some newF ∧
      newF.paramTypes = List.replicate k Ty.PoolDescPtrTy ++ f.paramTypes ∧ pos < k :=
  bound_position (planned O M) (cloned O M).1 (cloned O M).2 F N i n (PlanInv_planned O M)
    (CloneInv_cloned O M).1 (planned_nodup O M F) hc hi

/-- C15 at the example where `f` has one live node and `g` has two: the
second node of `g`, whose range starts at 1, is bound to the formal 2 of the
clone of `g`. -/
theorem C15_arg_nodes_bound_to_pool_formals_witness :
    mapFind (cloned exOracle2 exModule).2 1 = some 8 ∧
      ((cloned exOracle2 exModule).1.funcInfo 1).ArgNodes[1]? = some 0 ∧
      ∃ (pos k : Nat) (f newF : Function),
        mapFind ((cloned exOracle2 exModule).1.funcInfo 1).PoolDescriptors 0 =
          some (Value.argument 8 pos) ∧
        (∀ c, findClass (cloned exOracle2 exModule).1.FuncECs 1 = some c →
          (pos : Int) = ((cloned exOracle2 exModule).1.funcInfo 1).PoolArgFirst + ((1 : Nat) : Int)) ∧
        (findClass (cloned exOracle2 exModule).1.FuncECs 1 = none → pos = 1) ∧
        (cloned exOracle2 exModule).1.CurModule.functions[1]? = some f ∧
        (cloned exOracle2 exModule).1.CurModule.functions[8]? = some newF ∧
        newF.paramTypes = List.replicate k Ty.PoolDescPtrTy ++ f.paramTypes ∧ pos < k :=
  ⟨by decide, by decide,
   C15_arg_nodes_bound_to_pool_formals exOracle2 exModule 1 8 1 0 (by decide) (by decide)⟩


/-! ## Termination of the inlining walk -/

theorem Walked_nil (PA : PoolAllocate) (S S' : InlineState) (h1 : S'.walked = S.walked)
    (h2 : S'.visited = S.visited) : Walked PA S S' [] := by
  refine ⟨by rw [h1]; simp, List.nodup_nil, fun x hx => absurd hx (List.not_mem_nil x), ?_⟩
  intro x
  rw [h2]
  simp

theorem Walked_trans (PA : PoolAllocate) (S S1 S2 : InlineState) (w1 w2 : List FuncId)
    (h1 : Walked PA S S1 w1) (h2 : Walked PA S1 S2 w2) : Walked PA S S2 (w1 ++ w2) := by
  obtain ⟨a1, a2, a3, a4⟩ := h1
  obtain ⟨b1, b2, b3, b4⟩ := h2
  refine ⟨by rw [b1, a1, List.append_assoc], ?_, ?_, ?_⟩
  · rw [List.nodup_append]
    refine ⟨a2, b2, ?_⟩
    intro x hx1 hx2
    exact (b3 x hx2).1 ((a4 x).mpr (Or.inr hx1))
  · intro x hx
    rcases List.mem_append.mp hx with h | h
    · exact a3 x h
    · exact ⟨fun hc => (b3 x h).1 ((a4 x).mpr (Or.inl hc)), (b3 x h).2⟩
  · intro x
    rw [b4 x, a4 x, List.mem_append]
    tauto

theorem Walked_congr (PA : PoolAllocate) (S S1 S2 : InlineState) (w : List FuncId)
    (h : Walked PA S S1 w) (h1 : S2.walked = S1.walked) (h2 : S2.visited = S1.visited) :
    Walked PA S S2 w := by
  obtain ⟨a1, a2, a3, a4⟩ := h
  exact ⟨by rw [h1, a1], a2, a3, fun x => by rw [h2]; exact a4 x⟩

theorem unvisitedFuncs_of_Walked (PA : PoolAllocate) (S S' : InlineState) (w : List FuncId)
    (h : Walked PA S S' w) : unvisitedFuncs PA S'.visited ≤ unvisitedFuncs PA S.visited :=
  filter_notMem_length_le _ _ _ (fun x hx => (h.2.2.2 x).mpr (Or.inl hx))

theorem unvisitedFuncs_insert_lt (PA : PoolAllocate) (V : List FuncId) (F : FuncId)
    (hF : F < PA.CurModule.functions.length) (hV : F ∉ V) :
    unvisitedFuncs PA (V.insert F) < unvisitedFuncs PA V := by
  rw [List.insert_of_not_mem hV]
  exact filter_notMem_length_lt _ V F (List.mem_range.mpr hF) hV

theorem lt_length_of_not_external (PA : PoolAllocate) (T : FuncId)
    (h : PA.isExternal T = false) : T < PA.CurModule.functions.length := by
  obtain ⟨f, hf, _⟩ := (isExternal_false_iff PA T).mp h
  exact getElem?_lt_length _ _ _ hf

theorem inlineTargets_total (PA : PoolAllocate)
    (walk : FuncId → InlineState → Option InlineState) (fuel : Nat)
    (hwalk : ∀ (T : FuncId) (S : InlineState), T ∉ S.visited →
      T < PA.CurModule.functions.length → unvisitedFuncs PA S.visited ≤ fuel →
      ∃ S' w, walk T S = some S' ∧ Walked PA S S' w)
    (F : FuncId) (CS : CallSite) :
    ∀ (l : List FuncId) (S : InlineState), unvisitedFuncs PA S.visited ≤ fuel →
      ∃ S' w, inlineTargets walk PA F CS l S = some S' ∧ Walked PA S S' w := by
  intro l
  induction l with
  | nil => intro S _; exact ⟨S, [], rfl, Walked_nil PA S S rfl rfl⟩
  | cons T rest ih =>
    intro S hS
    simp only [inlineTargets]
    cases hE : PA.isExternal T with
    | true =>
      simp only [Bool.not_true, Bool.false_eq_true, if_false]
      exact ih S hS
    | false =>
      simp only [Bool.not_false, if_true]
      by_cases hg : T ∉ S.InlinedFuncs ∧ T ∉ S.visited
      · rw [if_pos hg]
        obtain ⟨S1, w1, hw, hW1⟩ := hwalk T S hg.2 (lt_length_of_not_external PA T hE) hS
        rw [hw]
        simp only []
        obtain ⟨S2, w2, hr, hW2⟩ := ih { S1 with merged := S1.merged ++ [(F, CS, T)] }
          (Nat.le_trans (unvisitedFuncs_of_Walked PA S S1 w1 hW1) hS)
        refine ⟨S2, w1 ++ w2, hr, Walked_trans PA S _ S2 w1 w2 ?_ hW2⟩
        exact Walked_congr PA S S1 _ w1 hW1 rfl rfl
      · rw [if_neg hg]
        simp only []
        obtain ⟨S2, w2, hr, hW2⟩ := ih { S with merged := S.merged ++ [(F, CS, T)] } hS
        exact ⟨S2, w2, hr, Walked_congr PA S _ S2 w2
          (by simpa using Walked_trans PA S _ S2 [] w2 (Walked_nil PA S _ rfl rfl) hW2) rfl rfl⟩

theorem inlineCallSites_total (PA : PoolAllocate)
    (walk : FuncId → InlineState → Option InlineState) (fuel : Nat)
    (hwalk : ∀ (T : FuncId) (S : InlineState), T ∉ S.visited →
      T < PA.CurModule.functions.length → unvisitedFuncs PA S.visited ≤ fuel →
      ∃ S' w, walk T S = some S' ∧ Walked PA S S' w)
    (F : FuncId) :
    ∀ (l : List DSCallSite) (S : InlineState), unvisitedFuncs PA S.visited ≤ fuel →
      ∃ S' w, inlineCallSites walk PA F l S = some S' ∧ Walked PA S S' w := by
  intro l
  induction l with
  | nil => intro S _; exact ⟨S, [], rfl, Walked_nil PA S S rfl rfl⟩
  | cons CSI rest ih =>
    intro S hS
    simp only [inlineCallSites]
    split_ifs
    · obtain ⟨S1, w1, hw, hW1⟩ := inlineTargets_total PA walk fuel hwalk F CSI.callSite
        (callSiteTargets PA CSI.callSite) S hS
      rw [hw]
      simp only []
      obtain ⟨S2, w2, hr, hW2⟩ := ih S1
        (Nat.le_trans (unvisitedFuncs_of_Walked PA S S1 w1 hW1) hS)
      exact ⟨S2, w1 ++ w2, hr, Walked_trans PA S S1 S2 w1 w2 hW1 hW2⟩
    · exact ih S hS

/-- With a bound as large as the number of functions not yet visited, the walk
returns; the functions it is executed with are distinct and none was visited
before. -/
theorem InlineIndirectCalls_total (O : Oracle) (PA : PoolAllocate) :
    ∀ (fuel : Nat) (F : FuncId) (S : InlineState), F ∉ S.visited →
      F < PA.CurModule.functions.length → unvisitedFuncs PA S.visited ≤ fuel →
      ∃ S' w, InlineIndirectCalls O PA fuel F S = some S' ∧ Walked PA S S' (F :: w) := by
  intro fuel
  induction fuel with
  | zero =>
    intro F S hv hF hu
    have := unvisitedFuncs_insert_lt PA S.visited F hF hv
    omega
  | succ fuel ih =>
    intro F S hv hF hu
    have hlt := unvisitedFuncs_insert_lt PA S.visited F hF hv
    have h1 : Walked PA S { S with visited := S.visited.insert F, walked := S.walked ++ [F] }
        [F] := by
      refine ⟨rfl, List.nodup_singleton F, ?_, ?_⟩
      · intro x hx
        rw [List.mem_singleton] at hx
        subst hx
        exact ⟨hv, hF⟩
      · intro x
        simp only [List.mem_insert_iff, List.mem_singleton]
        tauto
    obtain ⟨S2, w, hr, hW⟩ := inlineCallSites_total PA
      (fun T S1 => InlineIndirectCalls O PA fuel T S1) fuel
      (fun T S1 hT hlt1 hu1 => by
        obtain ⟨S', w', h, hW'⟩ := ih T S1 hT hlt1 hu1
        exact ⟨S', T :: w', h, hW'⟩)
      F (O.BU F).functionCalls
      { S with visited := S.visited.insert F, walked := S.walked ++ [F] }
      (by
        show unvisitedFuncs PA (S.visited.insert F) ≤ fuel
        omega)
    simp only [InlineIndirectCalls]
    rw [hr]
    refine ⟨_, w, rfl, ?_⟩
    exact Walked_congr PA S S2 _ (F :: w) (Walked_trans PA S _ S2 [F] w h1 hW) rfl rfl


theorem unvisitedFuncs_le (PA : PoolAllocate) (V : List FuncId) :
    unvisitedFuncs PA V ≤ PA.CurModule.functions.length := by
  unfold unvisitedFuncs
  have := List.length_filter_le (fun v => decide (v ∉ V))
    (List.range PA.CurModule.functions.length)
  rw [List.length_range] at this
  exact this

theorem length_le_of_nodup_lt (w : List Nat) (n : Nat) (hw : w.Nodup)
    (h : ∀ x ∈ w, x < n) : w.length ≤ n := by
  have hs : w ⊆ List.range n := fun x hx => List.mem_range.mpr (h x hx)
  have := (List.subperm_of_subset hw hs).length_le
  rw [List.length_range] at this
  exact this

/-! ## The inlining during the planning loop -/

theorem FindFunctionPoolArgs_CallSiteTargets (O : Oracle) (PA : PoolAllocate) (F : FuncId) :
    (FindFunctionPoolArgs O PA F).CallSiteTargets = PA.CallSiteTargets := by
  unfold FindFunctionPoolArgs
  cases findClass PA.FuncECs F <;> simp only [] <;> split_ifs <;> rfl

/-- The planning loop changes neither the recorded targets of the call sites
nor the module, which are all that `InlineIndirectCalls` reads of the pass. -/
theorem planPhase_CallSiteTargets (O : Oracle) (l : List FuncId) :
    ∀ PA : PoolAllocate, (planPhase O l PA).CallSiteTargets = PA.CallSiteTargets ∧
      (planPhase O l PA).CurModule = PA.CurModule := by
  induction l with
  | nil => intro PA; exact ⟨rfl, rfl⟩
  | cons I rest ih =>
    intro PA
    rw [planPhase_cons]
    split_ifs
    · exact ih PA
    · obtain ⟨a1, a2⟩ := ih (FindFunctionPoolArgs O PA I)
      exact ⟨a1.trans (FindFunctionPoolArgs_CallSiteTargets O PA I),
        a2.trans (FindFunctionPoolArgs_CurModule O PA I)⟩

/-- The walks started by the planning loop all return when the depth of the
recursion may reach the number of functions of the module. -/
theorem planInlining_total (O : Oracle) (PA : PoolAllocate) (fuel : Nat)
    (hfuel : PA.CurModule.functions.length ≤ fuel) :
    ∀ (l : List FuncId) (S : InlineState), ∃ S', planInlining O PA fuel l S = some S' := by
  intro l
  induction l with
  | nil => intro S; exact ⟨S, rfl⟩
  | cons I rest ih =>
    intro S
    simp only [planInlining]
    cases hE : PA.isExternal I with
    | true =>
      simp only [Bool.not_true, Bool.false_eq_true, if_false]
      exact ih S
    | false =>
      simp only [Bool.not_false, if_true]
      obtain ⟨S1, w, h, _⟩ := InlineIndirectCalls_total O PA fuel I { S with visited := [] }
        (List.not_mem_nil I) (lt_length_of_not_external PA I hE)
        (Nat.le_trans (unvisitedFuncs_le PA []) hfuel)
      rw [h]
      exact ih S1


/-! ## Termination of `InlineIndirectCalls` (C18) -/

/-- C18: a call of `InlineIndirectCalls` for a function with a body that is
not in `visited` returns as soon as the depth of the recursion may reach the
number of functions of the module, whatever the call sites and their targets
are (cycles and self-loops included).  The functions the walk is executed
with during the call are distinct, none of them was in `visited` before, there
are at most as many as the module has functions, and `visited` has grown by
exactly these functions. -/
theorem C18_inlining_terminates (O : Oracle) (PA : PoolAllocate) (fuel : Nat) (F : FuncId)
    (S : InlineState) (hfuel : PA.CurModule.functions.length ≤ fuel)
    (hE : PA.isExternal F = false) (hv : F ∉ S.visited) :
    ∃ S' w, InlineIndirectCalls O PA fuel F S = some S' ∧
      S'.walked = S.walked ++ F :: w ∧ (F :: w).Nodup ∧
      (∀ x ∈ F :: w, x ∉ S.visited) ∧
      (∀ x, x ∈ S'.visited ↔ x ∈ S.visited ∨ x ∈ F :: w) ∧
      (F :: w).length ≤ PA.CurModule.functions.length := by
  obtain ⟨S', w, h, a1, a2, a3, a4⟩ := InlineIndirectCalls_total O PA fuel F S hv
    (lt_length_of_not_external PA F hE)
    (Nat.le_trans (unvisitedFuncs_le PA S.visited) hfuel)
  exact ⟨S', w, h, a1, a2, fun x hx => (a3 x hx).1, a4,
    length_le_of_nodup_lt _ _ a2 (fun x hx => (a3 x hx).2)⟩

/-- C18 at an example with a self-loop and a cycle: `a` calls `a` or `b`, and
`b` calls `a`. -/
theorem C18_inlining_terminates_witness :
    exCycleClassified.CurModule.functions.length ≤ 6 ∧
      exCycleClassified.isExternal 0 = false ∧ 0 ∉ exInlineStart.visited ∧
      ∃ S' w, InlineIndirectCalls exCycleOracle exCycleClassified 6 0 exInlineStart = some S' ∧
        S'.walked = exInlineStart.walked ++ 0 :: w ∧ (0 :: w).Nodup ∧
        (∀ x ∈ 0 :: w, x ∉ exInlineStart.visited) ∧
        (∀ x, x ∈ S'.visited ↔ x ∈ exInlineStart.visited ∨ x ∈ 0 :: w) ∧
        (0 :: w).length ≤ exCycleClassified.CurModule.functions.length :=
  ⟨by decide, by decide, by decide,
   C18_inlining_terminates exCycleOracle exCycleClassified 6 0 exInlineStart (by decide)
     (by decide) (by decide)⟩

/-- The walk of the example with a cycle: `a`, then `b`; the graph of `a` is
merged at its own call site and at the call site of `b`. -/
theorem exCycle_walk :
    (InlineIndirectCalls exCycleOracle exCycleClassified 6 0 exInlineStart).map
        (fun S => (S.walked, S.merged, S.InlinedFuncs)) =
      some ([0, 1], [(0, 1, 0), (1, 2, 0), (0, 1, 1)], [0, 1]) := by
  decide

/-! ## Repeated inlining (C14) -/

/-- C14: on the module `h`, `f`, `g`, where `h` calls `f` through a pointer
and `f` calls `g` through a pointer, the planning loop executes the walk of
`InlineIndirectCalls` with `f` twice and with `g` twice: once from the walk
started at `h`, which puts them in `InlinedFuncs`, and once more from their own
call of `FindFunctionPoolArgs`, which starts the walk without looking at
`InlinedFuncs`.  The graph of `g` is merged twice into the graph of `f` at the
call site of `f`. -/
theorem C14_settled_function_walked_again :
    (planInlining exChainOracle exChainClassified exChainClassified.CurModule.functions.length
        (List.range exChainClassified.CurModule.functions.length) exInlineStart).map
        (fun S => (S.walked, S.merged)) =
      some ([0, 1, 2, 1, 2], [(1, 9, 2), (0, 7, 1), (1, 9, 2)]) := by
  decide


/-! ## Soundness of the reachability marking -/

theorem Reach_trans {G : DSGraph} {a b c : NodeId} (h1 : Reach G a b) (h2 : Reach G b c) :
    Reach G a c := by
  induction h2 with
  | refl => exact h1
  | step _ hl ih => exact Reach.step ih hl

theorem Reach_head {G : DSGraph} {a b c : NodeId} (h1 : b ∈ G.links a) (h2 : Reach G b c) :
    Reach G a c :=
  Reach_trans (Reach.step (Reach.refl a) h1) h2

/-- Every node that the marking adds is reachable from the node the marking
starts at. -/
theorem markReachableFuel_sound (G : DSGraph) :
    ∀ (fuel : Nat) (n : NodeId) (S : List NodeId) (v : NodeId),
      v ∈ markReachableFuel G fuel n S → v ∈ S ∨ Reach G n v := by
  intro fuel
  induction fuel with
  | zero => intro n S v h; exact Or.inl h
  | succ fuel ih =>
    intro n S v h
    have fold : ∀ (L acc : List NodeId) (x : NodeId),
        x ∈ L.foldl (fun a m => markReachableFuel G fuel m a) acc →
        x ∈ acc ∨ ∃ m ∈ L, Reach G m x := by
      intro L
      induction L with
      | nil => intro acc x hx; exact Or.inl hx
      | cons m0 L ihL =>
        intro acc x hx
        simp only [List.foldl_cons] at hx
        rcases ihL _ x hx with h1 | ⟨m, hm, hr⟩
        · rcases ih m0 acc x h1 with h2 | h2
          · exact Or.inl h2
          · exact Or.inr ⟨m0, List.mem_cons_self _ _, h2⟩
        · exact Or.inr ⟨m, List.mem_cons_of_mem _ hm, hr⟩
    simp only [markReachableFuel] at h
    split_ifs at h with hn
    · exact Or.inl h
    · rcases fold _ _ v h with h1 | ⟨m, hm, hr⟩
      · rcases List.mem_cons.mp h1 with h2 | h2
        · subst h2
          exact Or.inr (Reach.refl v)
        · exact Or.inl h2
      · exact Or.inr (Reach_head hm hr)

/-- The marking from a node, started with the empty set, gives the nodes
reachable from that node. -/
theorem mem_markReachableNodes_nil (G : DSGraph) (r v : NodeId) :
    v ∈ markReachableNodes G r [] ↔ Reach G r v := by
  constructor
  · intro h
    rcases markReachableFuel_sound G _ r [] v h with h1 | h1
    · exact absurd h1 (List.not_mem_nil v)
    · exact h1
  · intro h
    exact (markReachableNodes_closed G r [] (closed_nil G)).reach
      (markReachableNodes_spec G r []).2.1 h

theorem markLive_main (G : DSGraph) (fg : List NodeId) (S : List NodeId) :
    markLive G fg "main" S = markReturn G S := by
  unfold markLive
  rw [if_neg (fun h => h rfl)]

/-- The live set that the planning computes for `main` from an empty set. -/
theorem mem_markLive_main (G : DSGraph) (fg : List NodeId) (v : NodeId) :
    v ∈ markLive G fg "main" [] ↔
      ∃ r, G.returnNode = some r ∧ G.isHeapNode r = true ∧ Reach G r v := by
  rw [markLive_main]
  unfold markReturn
  cases hr : G.returnNode with
  | none => simp
  | some r0 =>
    simp only []
    by_cases hh : G.isHeapNode r0 = true
    · rw [if_pos hh, mem_markReachableNodes_nil]
      constructor
      · intro h
        exact ⟨r0, rfl, hh, h⟩
      · rintro ⟨r, h1, _, h3⟩
        injection h1 with h1
        rw [h1]
        exact h3
    · rw [if_neg hh]
      constructor
      · intro h
        exact absurd h (List.not_mem_nil v)
      · rintro ⟨r, h1, h2, _⟩
        injection h1 with h1
        rw [← h1] at h2
        exact absurd h2 hh


/-! ## The live set of `main` (C21) -/

theorem main_marked (O : Oracle) (PA : PoolAllocate) (F : FuncId)
    (hname : PA.getName F = "main") (hfresh : PA.FunctionInfo F = none) (v : NodeId) :
    v ∈ (FindFunctionPoolArgs O PA F).marked F ↔
      (O.BU F).isHeapNode v = true ∧
        ∃ r, (O.BU F).returnNode = some r ∧ (O.BU F).isHeapNode r = true ∧
          Reach (O.BU F) r v := by
  by_cases hG : (O.BU F).nodes = []
  · rw [FindFunctionPoolArgs_of_empty O PA F hG, marked_of_FunctionInfo_none PA F hfresh]
    constructor
    · intro h
      exact absurd h (List.not_mem_nil v)
    · rintro ⟨h, _⟩
      have := lt_length_of_isHeapNode _ _ h
      rw [hG] at this
      exact absurd this (Nat.not_lt_zero _)
  · rw [marked_def, FindFunctionPoolArgs_funcInfo O PA F hG]
    show v ∈ liveNodes O PA F ↔ _
    rw [mem_liveNodes, hname, funcInfo_of_none PA F hfresh]
    show v ∈ markLive (O.BU F) (nodesFromGlobals (O.BU F)) "main" [] ∧ _ ↔ _
    rw [mem_markLive_main]
    exact And.comm

theorem planned_main_marked (O : Oracle) (M : Module) (F : FuncId) (f : Function)
    (hF : M.functions[F]? = some f) (hB : f.isExternal = false) (hname : f.name = "main")
    (v : NodeId) :
    v ∈ (planned O M).marked F ↔
      (O.BU F).isHeapNode v = true ∧
        ∃ r, (O.BU F).returnNode = some r ∧ (O.BU F).isHeapNode r = true ∧
          Reach (O.BU F) r v := by
  obtain ⟨PA, hnone, _, hcm, _, hfi⟩ := planned_once O M F f hF hB
  obtain ⟨e, he⟩ := AddPoolPrototypes_prefix M
  have hn : PA.getName F = "main" := by
    unfold PoolAllocate.getName
    rw [hcm, he, getElem?_append_of_some _ e _ _ hF]
    exact hname
  rw [marked_def, hfi, ← marked_def]
  exact main_marked O PA F hn hnone v

/-- C21: in a run, for the function with a body named `main`, the live set
left by the planning is the set of the heap nodes reachable from the returned
node, when there is one and it is a heap node, and is empty otherwise: the
flags `isGlobalNode` and `isIncomplete` and the globals of the scalar map play
no part.  So a heap node of `main` that is not reachable from a returned heap
node, be it global or incomplete, is not in `MarkedNodes` when the run is
over, is one of the nodes given to `CreatePools`, and its pool descriptor is
the alloca made for it in the function rewritten for `main`. -/
theorem C21_main_live_set (O : Oracle) (M : Module) (F : FuncId) (f : Function)
    (hF : M.functions[F]? = some f) (hB : f.isExternal = false) (hname : f.name = "main") :
    (∀ v, v ∈ (planned O M).marked F ↔
      (O.BU F).isHeapNode v = true ∧
        ∃ r, (O.BU F).returnNode = some r ∧ (O.BU F).isHeapNode r = true ∧
          Reach (O.BU F) r v) ∧
    (∀ v, (O.BU F).isHeapNode v = true →
      (¬ ∃ r, (O.BU F).returnNode = some r ∧ (O.BU F).isHeapNode r = true ∧
        Reach (O.BU F) r v) →
      v ∉ ((run O M).2.funcInfo F).MarkedNodes ∧
      ∃ i, (nodesToPA (O.BU F) ((run O M).2.funcInfo F).MarkedNodes)[i]? = some v ∧
        mapFind ((run O M).2.funcInfo F).PoolDescriptors v =
          some (Value.alloca (newOf (cloned O M).2 F) i)) := by
  refine ⟨fun v => planned_main_marked O M F f hF hB hname v, ?_⟩
  intro v hv hnr
  have hG : (O.BU F).nodes ≠ [] := by
    intro he
    have := lt_length_of_isHeapNode _ _ hv
    rw [he] at this
    simp at this
  obtain ⟨hfin, hcf, hFlt, hP0E, _⟩ := processPhase_result O M F f hF hB hG
  have hroles := roles_of_heap_node (O.BU F) (planned O M) (cloned O M).1 (cloned O M).2 F f v
    ((run O M).2.funcInfo F) (PlanInv_planned O M) (CloneInv_cloned O M).1
    ((CloneInv_cloned O M).2 F hFlt hP0E hG) hcf hfin hv
  have hmk1 : ((run O M).2.funcInfo F).MarkedNodes =
      ((cloned O M).1.funcInfo F).MarkedNodes := by
    rw [hfin]
  have hmk2 := ((CloneInv_cloned O M).1.2.2.2.1 F).1
  have hnot : v ∉ ((run O M).2.funcInfo F).MarkedNodes := by
    rw [hmk1, hmk2, ← marked_def]
    intro hc
    exact hnr ((planned_main_marked O M F f hF hB hname v).mp hc).2
  rcases hroles with h | h
  · exact absurd h.1 hnot
  · exact h

/-- C21 at the example: the only node of `main` is a heap node that is global
and incomplete, and `main` returns nothing; the node is not live, and `main`
makes its pool. -/
theorem C21_main_live_set_witness :
    exMainModule.functions[1]? = some (exFunction "main" []) ∧
      (exFunction "main" []).isExternal = false ∧ (exFunction "main" []).name = "main" ∧
    ((∀ v, v ∈ (planned exMainOracle exMainModule).marked 1 ↔
      (exMainOracle.BU 1).isHeapNode v = true ∧
        ∃ r, (exMainOracle.BU 1).returnNode = some r ∧
          (exMainOracle.BU 1).isHeapNode r = true ∧ Reach (exMainOracle.BU 1) r v) ∧
    (∀ v, (exMainOracle.BU 1).isHeapNode v = true →
      (¬ ∃ r, (exMainOracle.BU 1).returnNode = some r ∧
        (exMainOracle.BU 1).isHeapNode r = true ∧ Reach (exMainOracle.BU 1) r v) →
      v ∉ ((run exMainOracle exMainModule).2.funcInfo 1).MarkedNodes ∧
      ∃ i, (nodesToPA (exMainOracle.BU 1)
          ((run exMainOracle exMainModule).2.funcInfo 1).MarkedNodes)[i]? = some v ∧
        mapFind ((run exMainOracle exMainModule).2.funcInfo 1).PoolDescriptors v =
          some (Value.alloca (newOf (cloned exMainOracle exMainModule).2 1) i))) :=
  ⟨by decide, by decide, by decide,
   C21_main_live_set exMainOracle exMainModule 1 (exFunction "main" []) (by decide)
     (by decide) (by decide)⟩

/-- In the example of C21 the global, incomplete heap node 0 of `main` is owned
by `main`, while the same node in the graph of `g` is live. -/
theorem exMain_roles :
    (exMainOracle.BU 1).isHeapNode 0 = true ∧ (exMainOracle.BU 1).isGlobalNode 0 = true ∧
      (exMainOracle.BU 1).isIncomplete 0 = true ∧ (exMainOracle.BU 1).returnNode = none ∧
      (planned exMainOracle exMainModule).marked 1 = [] ∧
      (planned exMainOracle exMainModule).marked 2 = [0] ∧
      mapFind ((run exMainOracle exMainModule).2.funcInfo 1).PoolDescriptors 0 =
        some (Value.alloca 1 0) := by
  decide


/-! ## Maps with fresh keys -/

theorem mapSet_fresh {α β : Type} [DecidableEq α] (m : List (α × β)) (k : α) (v : β)
    (h : k ∉ m.map Prod.fst) : mapSet m k v = m ++ [(k, v)] := by
  unfold mapSet
  rw [if_neg h]

theorem mapInsert_fresh {α β : Type} [DecidableEq α] (m : List (α × β)) (k : α) (v : β)
    (h : k ∉ m.map Prod.fst) : mapInsert m k v = m ++ [(k, v)] := by
  unfold mapInsert
  rw [if_neg h]

theorem foldl_mapSet_fresh {α β : Type} [DecidableEq α] :
    ∀ (es m : List (α × β)), (es.map Prod.fst).Nodup →
      (∀ e ∈ es, e.1 ∉ m.map Prod.fst) →
      es.foldl (fun m e => mapSet m e.1 e.2) m = m ++ es := by
  intro es
  induction es with
  | nil => intro m _ _; simp
  | cons e rest ih =>
    intro m hnd hfr
    rw [List.map_cons, List.nodup_cons] at hnd
    rw [List.foldl_cons, mapSet_fresh m e.1 e.2 (hfr e (List.mem_cons_self _ _)),
      ih (m ++ [(e.1, e.2)]) hnd.2]
    · simp
    · intro e' he' hc
      rw [List.map_append, List.mem_append] at hc
      rcases hc with hc | hc
      · exact hfr e' (List.mem_cons_of_mem _ he') hc
      · simp only [List.map_cons, List.map_nil, List.mem_singleton] at hc
        exact hnd.1 (hc ▸ List.mem_map_of_mem Prod.fst he')

theorem foldl_mapInsert_fresh {α β : Type} [DecidableEq β] :
    ∀ (es : List (α × β)) (m : List (β × α)), (es.map Prod.snd).Nodup →
      (∀ e ∈ es, e.2 ∉ m.map Prod.fst) →
      es.foldl (fun m e => mapInsert m e.2 e.1) m = m ++ es.map Prod.swap := by
  intro es
  induction es with
  | nil => intro m _ _; simp
  | cons e rest ih =>
    intro m hnd hfr
    rw [List.map_cons, List.nodup_cons] at hnd
    rw [List.foldl_cons, mapInsert_fresh m e.2 e.1 (hfr e (List.mem_cons_self _ _)),
      ih (m ++ [(e.2, e.1)]) hnd.2]
    · simp [Prod.swap]
    · intro e' he' hc
      rw [List.map_append, List.mem_append] at hc
      rcases hc with hc | hc
      · exact hfr e' (List.mem_cons_of_mem _ he') hc
      · simp only [List.map_cons, List.map_nil, List.mem_singleton] at hc
        exact hnd.1 (hc ▸ List.mem_map_of_mem Prod.snd he')

theorem mapFind_of_mem {α β : Type} [DecidableEq α] :
    ∀ (m : List (α × β)), (m.map Prod.fst).Nodup → ∀ (k : α) (v : β), (k, v) ∈ m →
      mapFind m k = some v := by
  intro m
  induction m with
  | nil => intro _ k v h; simp at h
  | cons e rest ih =>
    intro hnd k v h
    rw [List.map_cons, List.nodup_cons] at hnd
    rw [mapFind_cons]
    rcases List.mem_cons.mp h with h0 | h0
    · rw [← h0]
      simp
    · have hne : ¬ e.1 = k := by
        intro hc
        exact hnd.1 (hc ▸ List.mem_map_of_mem Prod.fst h0)
      rw [if_neg hne]
      exact ih hnd.2 k v h0

theorem mem_of_mapFind {α β : Type} [DecidableEq α] :
    ∀ (m : List (α × β)) (k : α) (v : β), mapFind m k = some v → (k, v) ∈ m := by
  intro m
  induction m with
  | nil => intro k v h; simp [mapFind_nil] at h
  | cons e rest ih =>
    intro k v h
    rw [mapFind_cons] at h
    by_cases hc : e.1 = k
    · rw [if_pos hc] at h
      injection h with h
      have : e = (k, v) := Prod.ext hc h
      rw [this]
      exact List.mem_cons_self _ _
    · rw [if_neg hc] at h
      exact List.mem_cons_of_mem _ (ih k v h)

/-- A map with distinct values and its inversion are inverse to each other. -/
theorem invertValueMap_inverse (VM : List (Value × Value)) (hk : (VM.map Prod.fst).Nodup)
    (hv : (VM.map Prod.snd).Nodup) :
    invertValueMap VM [] = VM.map Prod.swap ∧
      (∀ v w, mapFind VM v = some w → mapFind (invertValueMap VM []) w = some v) ∧
      (∀ w v, mapFind (invertValueMap VM []) w = some v → mapFind VM v = some w) ∧
      (∀ v1 v2 w, mapFind VM v1 = some w → mapFind VM v2 = some w → v1 = v2) := by
  have hinv : invertValueMap VM [] = VM.map Prod.swap := by
    unfold invertValueMap
    rw [foldl_mapInsert_fresh VM [] hv (fun e _ hc => by simp at hc)]
    simp
  have hk2 : ((VM.map Prod.swap).map Prod.fst).Nodup := by
    rw [List.map_map]
    exact hv
  have h1 : ∀ v w, mapFind VM v = some w → mapFind (invertValueMap VM []) w = some v := by
    intro v w h
    rw [hinv]
    apply mapFind_of_mem _ hk2
    exact List.mem_map.mpr ⟨(v, w), mem_of_mapFind VM v w h, rfl⟩
  refine ⟨hinv, h1, ?_, ?_⟩
  · intro w v h
    rw [hinv] at h
    obtain ⟨e, he, hs⟩ := List.mem_map.mp (mem_of_mapFind _ w v h)
    have : e = (v, w) := by
      cases e with
      | mk a b =>
        simp only [Prod.swap, Prod.mk.injEq] at hs
        rw [hs.1, hs.2]
    rw [this] at he
    exact mapFind_of_mem VM hk v w he
  · intro v1 v2 w a1 a2
    have b1 := h1 v1 w a1
    have b2 := h1 v2 w a2
    rw [b1] at b2
    injection b2


/-! ## The local value map of `MakeFunctionClone` -/

theorem mapOldArgs_eq_foldl (F New : FuncId) (pos : Nat) :
    ∀ (l : List Nat) (VM : List (Value × Value)),
      mapOldArgs F New pos l VM =
        (l.map (fun i => (Value.argument F i, Value.argument New (pos + i)))).foldl
          (fun m e => mapSet m e.1 e.2) VM := by
  intro l
  induction l with
  | nil => intro VM; rfl
  | cons i rest ih =>
    intro VM
    simp only [mapOldArgs, List.map_cons, List.foldl_cons]
    exact ih _

theorem nodup_tagged (l1 l2 l3 l4 : List Nat) (F1 F2 : FuncId) (h1 : l1.Nodup)
    (h2 : l2.Nodup) (h3 : l3.Nodup) (h4 : l4.Nodup) :
    (l1.map (Value.argument F1) ++ l2.map Value.function ++ l3.map Value.global ++
      l4.map (Value.body F2)).Nodup := by
  have i1 : Function.Injective (Value.argument F1) := fun a b h => by injection h
  have i2 : Function.Injective Value.function := fun a b h => by injection h
  have i3 : Function.Injective Value.global := fun a b h => by injection h
  have i4 : Function.Injective (Value.body F2) := fun a b h => by injection h
  rw [List.nodup_append]
  refine ⟨?_, h4.map i4, ?_⟩
  · rw [List.nodup_append]
    refine ⟨?_, h3.map i3, ?_⟩
    · rw [List.nodup_append]
      refine ⟨h1.map i1, h2.map i2, ?_⟩
      intro x hx1 hx2
      obtain ⟨a, _, ha⟩ := List.mem_map.mp hx1
      obtain ⟨b, _, hb⟩ := List.mem_map.mp hx2
      rw [← ha] at hb
      cases hb
    · intro x hx1 hx2
      obtain ⟨b, _, hb⟩ := List.mem_map.mp hx2
      rcases List.mem_append.mp hx1 with h | h
      · obtain ⟨a, _, ha⟩ := List.mem_map.mp h
        rw [← ha] at hb
        cases hb
      · obtain ⟨a, _, ha⟩ := List.mem_map.mp h
        rw [← ha] at hb
        cases hb
  · intro x hx1 hx2
    obtain ⟨b, _, hb⟩ := List.mem_map.mp hx2
    rcases List.mem_append.mp hx1 with h | h
    · rcases List.mem_append.mp h with h | h
      · obtain ⟨a, _, ha⟩ := List.mem_map.mp h
        rw [← ha] at hb
        cases hb
      · obtain ⟨a, _, ha⟩ := List.mem_map.mp h
        rw [← ha] at hb
        cases hb
    · obtain ⟨a, _, ha⟩ := List.mem_map.mp h
      rw [← ha] at hb
      cases hb

theorem valueMapEntries_keys (F New : FuncId) (f : Function) (pos nf ng : Nat) :
    ((valueMapEntries F New f pos nf ng).map Prod.fst).Nodup := by
  have : (valueMapEntries F New f pos nf ng).map Prod.fst =
      (List.range f.paramTypes.length).map (Value.argument F) ++
        (List.range nf).map Value.function ++ (List.range ng).map Value.global ++
        (List.range f.bodySize).map (Value.body F) := by
    simp [valueMapEntries, List.map_append, Function.comp_def]
  rw [this]
  exact nodup_tagged _ _ _ _ F F (List.nodup_range _) (List.nodup_range _)
    (List.nodup_range _) (List.nodup_range _)

theorem valueMapEntries_values (F New : FuncId) (f : Function) (pos nf ng : Nat) :
    ((valueMapEntries F New f pos nf ng).map Prod.snd).Nodup := by
  have : (valueMapEntries F New f pos nf ng).map Prod.snd =
      ((List.range f.paramTypes.length).map (fun i => pos + i)).map (Value.argument New) ++
        (List.range nf).map Value.function ++ (List.range ng).map Value.global ++
        (List.range f.bodySize).map (Value.body New) := by
    simp [valueMapEntries, List.map_append, Function.comp_def]
  rw [this]
  exact nodup_tagged _ _ _ _ New New
    ((List.nodup_range _).map (fun a b h => Nat.add_left_cancel h)) (List.nodup_range _)
    (List.nodup_range _) (List.nodup_range _)

/-- The local value map is the list of its entries: no key is written
twice. -/
theorem cloneValueMap_eq (F New : FuncId) (f : Function) (numArgsNew pos nf ng : Nat)
    (h : pos = numArgsNew → f.paramTypes.length = 0) :
    cloneValueMap F New f numArgsNew pos nf ng = valueMapEntries F New f pos nf ng := by
  have hVM0 : (if pos ≠ numArgsNew then
        mapOldArgs F New pos (List.range f.paramTypes.length) [] else []) =
      ((List.range f.paramTypes.length).map
        (fun i => (Value.argument F i, Value.argument New (pos + i)))).foldl
        (fun m e => mapSet m e.1 e.2) [] := by
    by_cases hp : pos = numArgsNew
    · rw [if_neg (fun hc => hc hp), h hp]
      rfl
    · rw [if_pos hp, mapOldArgs_eq_foldl]
  have key : cloneValueMap F New f numArgsNew pos nf ng =
      (valueMapEntries F New f pos nf ng).foldl (fun m e => mapSet m e.1 e.2) [] := by
    unfold cloneValueMap CloneFunctionInto mapIdentity valueMapEntries
    simp only []
    rw [hVM0]
    simp only [List.foldl_append, List.foldl_map]
  rw [key, foldl_mapSet_fresh _ [] (valueMapEntries_keys F New f pos nf ng)
    (fun e _ hc => by simp at hc)]
  simp


/-- The value map and the inverted map of a call of `MakeFunctionClone` that
makes a clone, in the cloning phase of a run. -/
theorem clone_value_map (O : Oracle) (M : Module) (pre : List FuncId)
    (F New : FuncId) (PA' : PoolAllocate) (hF : F ∉ pre)
    (h : MakeFunctionClone O (clonePhase O pre (planned O M, [])).1 F = (some New, PA')) :
    ∃ f k ArgNodes,
      (clonePhase O pre (planned O M, [])).1.CurModule.functions[F]? = some f ∧
      cloneArgs (clonePhase O pre (planned O M, [])).1 F
        ((clonePhase O pre (planned O M, [])).1.funcInfo F) =
          some (List.replicate k Ty.PoolDescPtrTy, ArgNodes) ∧
      New = (clonePhase O pre (planned O M, [])).1.CurModule.functions.length ∧
      (PA'.funcInfo F).NewToOldValueMap =
        invertValueMap (localValueMap (clonePhase O pre (planned O M, [])).1 F f
          (List.replicate k Ty.PoolDescPtrTy) ArgNodes) [] ∧
      localValueMap (clonePhase O pre (planned O M, [])).1 F f
          (List.replicate k Ty.PoolDescPtrTy) ArgNodes =
        valueMapEntries F New f k (New + 1)
          (clonePhase O pre (planned O M, [])).1.CurModule.numGlobals := by
  obtain ⟨f, ArgTys, ArgNodes, hf, _, hca, hNew, hPA⟩ := MakeFunctionClone_some O _ F New PA' h
  obtain ⟨hTys, hNodes, _⟩ := cloneArgs_some _ F ArgTys ArgNodes hca
  obtain ⟨e1, e2, _, e4, _⟩ := clonePhase_frame O pre (planned O M) []
  have hfi := e4 F hF
  obtain ⟨_, _, w3⟩ := PlanInv_planned O M
  have hrep : ArgTys = List.replicate ArgTys.length Ty.PoolDescPtrTy := by
    rw [hTys]; exact injectedTys_replicate _ _
  have hpos : firstOldArg (clonePhase O pre (planned O M, [])).1 F ArgNodes = ArgTys.length := by
    unfold firstOldArg
    unfold cloneArgs at hca
    cases hc : findClass (clonePhase O pre (planned O M, [])).1.FuncECs F with
    | none =>
      simp only [hc] at hca ⊢
      split_ifs at hca
      injection hca with e
      injection e with t1 t2
      rw [← t1, ← t2, hfi, (w3 F).1]
      simp
    | some c =>
      simp only [hc] at hca ⊢
      cases hW : (clonePhase O pre (planned O M, [])).1.EqClass2LastPoolArg c with
      | none => simp [hW] at hca
      | some W =>
        simp only [hW] at hca ⊢
        split_ifs at hca
        injection hca with e
        injection e with t1 t2
        rw [← t1]
        simp
  refine ⟨f, ArgTys.length, ArgNodes, hf, ?_, hNew, ?_, ?_⟩
  · rw [← hrep]; exact hca
  · rw [← hrep, hPA]
    simp only [funcInfo_setFuncInfo_same]
    rw [hfi, (w3 F).2.2]
  · rw [← hrep]
    unfold localValueMap
    rw [hpos, hNew]
    apply cloneValueMap_eq
    intro hc
    have hl : (cloneFunction f ArgTys).paramTypes.length =
        ArgTys.length + f.paramTypes.length := by
      show (ArgTys ++ f.paramTypes).length = _
      rw [List.length_append]
    omega


theorem mem_valueMapEntries (F New : FuncId) (f : Function) (pos nf ng : Nat) :
    (∀ i, i < f.paramTypes.length →
      (Value.argument F i, Value.argument New (pos + i)) ∈
        valueMapEntries F New f pos nf ng) ∧
    (∀ j, j < nf →
      (Value.function j, Value.function j) ∈ valueMapEntries F New f pos nf ng) ∧
    (∀ g, g < ng → (Value.global g, Value.global g) ∈ valueMapEntries F New f pos nf ng) ∧
    (∀ j, j < f.bodySize →
      (Value.body F j, Value.body New j) ∈ valueMapEntries F New f pos nf ng) := by
  unfold valueMapEntries
  refine ⟨?_, ?_, ?_, ?_⟩
  · intro i hi
    apply List.mem_append_left
    apply List.mem_append_left
    apply List.mem_append_left
    exact List.mem_map.mpr ⟨i, List.mem_range.mpr hi, rfl⟩
  · intro j hj
    apply List.mem_append_left
    apply List.mem_append_left
    apply List.mem_append_right
    exact List.mem_map.mpr ⟨j, List.mem_range.mpr hj, rfl⟩
  · intro g hg
    apply List.mem_append_left
    apply List.mem_append_right
    exact List.mem_map.mpr ⟨g, List.mem_range.mpr hg, rfl⟩
  · intro j hj
    apply List.mem_append_right
    exact List.mem_map.mpr ⟨j, List.mem_range.mpr hj, rfl⟩

/-! ## The inverted value map (C22) -/

/-- C22: for a clone `New` that `MakeFunctionClone` makes of a function `F` in
the cloning phase of a run, the function not having been cloned before, with
`VM` the local value map of the call and `k` the number of pool descriptor
parameters: `NewToOldValueMap` is the inversion of `VM`; it sends the new
value of every old value of `VM` back to the old value, and has no other
entry; `VM` sends no two old values to the same new value; the formal `i` of
`F` goes to the formal `k + i` of the clone, which goes back to it; every
function of the module, the clone included, and every global go to themselves
and back; every value of the body goes to its copy, which goes back to
it. -/
theorem C22_new_to_old_is_inverse (O : Oracle) (M : Module) (pre : List FuncId)
    (F New : FuncId) (PA' : PoolAllocate) (hF : F ∉ pre)
    (h : MakeFunctionClone O (clonePhase O pre (planned O M, [])).1 F = (some New, PA')) :
    ∃ f k ArgNodes VM,
      (clonePhase O pre (planned O M, [])).1.CurModule.functions[F]? = some f ∧
      cloneArgs (clonePhase O pre (planned O M, [])).1 F
        ((clonePhase O pre (planned O M, [])).1.funcInfo F) =
          some (List.replicate k Ty.PoolDescPtrTy, ArgNodes) ∧
      VM = localValueMap (clonePhase O pre (planned O M, [])).1 F f
        (List.replicate k Ty.PoolDescPtrTy) ArgNodes ∧
      (PA'.funcInfo F).NewToOldValueMap = invertValueMap VM [] ∧
      (∀ v w, mapFind VM v = some w →
        mapFind (PA'.funcInfo F).NewToOldValueMap w = some v) ∧
      (∀ w v, mapFind (PA'.funcInfo F).NewToOldValueMap w = some v →
        mapFind VM v = some w) ∧
      (∀ v1 v2 w, mapFind VM v1 = some w → mapFind VM v2 = some w → v1 = v2) ∧
      (∀ i, i < f.paramTypes.length →
        mapFind VM (Value.argument F i) = some (Value.argument New (k + i)) ∧
        mapFind (PA'.funcInfo F).NewToOldValueMap (Value.argument New (k + i)) =
          some (Value.argument F i)) ∧
      (∀ j, j ≤ New →
        mapFind VM (Value.function j) = some (Value.function j) ∧
        mapFind (PA'.funcInfo F).NewToOldValueMap (Value.function j) =
          some (Value.function j)) ∧
      (∀ g, g < (clonePhase O pre (planned O M, [])).1.CurModule.numGlobals →
        mapFind VM (Value.global g) = some (Value.global g) ∧
        mapFind (PA'.funcInfo F).NewToOldValueMap (Value.global g) = some (Value.global g)) ∧
      (∀ j, j < f.bodySize →
        mapFind VM (Value.body F j) = some (Value.body New j) ∧
        mapFind (PA'.funcInfo F).NewToOldValueMap (Value.body New j) =
          some (Value.body F j)) := by
  obtain ⟨f, k, ArgNodes, hf, hca, _, hNTO, hVM⟩ := clone_value_map O M pre F New PA' hF h
  have hk := valueMapEntries_keys F New f k (New + 1)
    (clonePhase O pre (planned O M, [])).1.CurModule.numGlobals
  have hv := valueMapEntries_values F New f k (New + 1)
    (clonePhase O pre (planned O M, [])).1.CurModule.numGlobals
  obtain ⟨m1, m2, m3, m4⟩ := mem_valueMapEntries F New f k (New + 1)
    (clonePhase O pre (planned O M, [])).1.CurModule.numGlobals
  rw [← hVM] at hk hv m1 m2 m3 m4
  obtain ⟨_, i1, i2, i3⟩ := invertValueMap_inverse _ hk hv
  rw [← hNTO] at i1 i2
  refine ⟨f, k, ArgNodes, _, hf, hca, rfl, hNTO, i1, i2, i3, ?_, ?_, ?_, ?_⟩
  · intro i hi
    have := mapFind_of_mem _ hk _ _ (m1 i hi)
    exact ⟨this, i1 _ _ this⟩
  · intro j hj
    have := mapFind_of_mem _ hk _ _ (m2 j (Nat.lt_succ_of_le hj))
    exact ⟨this, i1 _ _ this⟩
  · intro g hg
    have := mapFind_of_mem _ hk _ _ (m3 g hg)
    exact ⟨this, i1 _ _ this⟩
  · intro j hj
    have := mapFind_of_mem _ hk _ _ (m4 j hj)
    exact ⟨this, i1 _ _ this⟩

/-- C22 at the example: the clone of `f` is the function 7. -/
theorem C22_new_to_old_is_inverse_witness :
    (0 : FuncId) ∉ ([] : List FuncId) ∧
      MakeFunctionClone exOracle (clonePhase exOracle [] (planned exOracle exModule, [])).1 0 =
        (some 7,
          (MakeFunctionClone exOracle
            (clonePhase exOracle [] (planned exOracle exModule, [])).1 0).2) ∧
      ∃ f k ArgNodes VM,
        (clonePhase exOracle [] (planned exOracle exModule, [])).1.CurModule.functions[0]? =
          some f ∧
        cloneArgs (clonePhase exOracle [] (planned exOracle exModule, [])).1 0
          ((clonePhase exOracle [] (planned exOracle exModule, [])).1.funcInfo 0) =
            some (List.replicate k Ty.PoolDescPtrTy, ArgNodes) ∧
        VM = localValueMap (clonePhase exOracle [] (planned exOracle exModule, [])).1 0 f
          (List.replicate k Ty.PoolDescPtrTy) ArgNodes ∧
        ((MakeFunctionClone exOracle (clonePhase exOracle [] (planned exOracle exModule, [])).1
          0).2.funcInfo 0).NewToOldValueMap = invertValueMap VM [] ∧
        (∀ v w, mapFind VM v = some w →
          mapFind ((MakeFunctionClone exOracle
            (clonePhase exOracle [] (planned exOracle exModule, [])).1
            0).2.funcInfo 0).NewToOldValueMap w = some v) ∧
        (∀ w v, mapFind ((MakeFunctionClone exOracle
            (clonePhase exOracle [] (planned exOracle exModule, [])).1
            0).2.funcInfo 0).NewToOldValueMap w = some v →
          mapFind VM v = some w) ∧
        (∀ v1 v2 w, mapFind VM v1 = some w → mapFind VM v2 = some w → v1 = v2) ∧
        (∀ i, i < f.paramTypes.length →
          mapFind VM (Value.argument 0 i) = some (Value.argument 7 (k + i)) ∧
          mapFind ((MakeFunctionClone exOracle
            (clonePhase exOracle [] (planned exOracle exModule, [])).1
            0).2.funcInfo 0).NewToOldValueMap (Value.argument 7 (k + i)) =
            some (Value.argument 0 i)) ∧
        (∀ j, j ≤ 7 →
          mapFind VM (Value.function j) = some (Value.function j) ∧
          mapFind ((MakeFunctionClone exOracle
            (clonePhase exOracle [] (planned exOracle exModule, [])).1
            0).2.funcInfo 0).NewToOldValueMap (Value.function j) =
            some (Value.function j)) ∧
        (∀ g, g < (clonePhase exOracle [] (planned exOracle exModule, [])).1.CurModule.numGlobals →
          mapFind VM (Value.global g) = some (Value.global g) ∧
          mapFind ((MakeFunctionClone exOracle
            (clonePhase exOracle [] (planned exOracle exModule, [])).1
            0).2.funcInfo 0).NewToOldValueMap (Value.global g) = some (Value.global g)) ∧
        (∀ j, j < f.bodySize →
          mapFind VM (Value.body 0 j) = some (Value.body 7 j) ∧
          mapFind ((MakeFunctionClone exOracle
            (clonePhase exOracle [] (planned exOracle exModule, [])).1
            0).2.funcInfo 0).NewToOldValueMap (Value.body 7 j) =
            some (Value.body 0 j)) :=
  ⟨by simp, Prod.ext (by decide) rfl,
   C22_new_to_old_is_inverse exOracle exModule [] 0 7 _ (by simp) (Prod.ext (by decide) rfl)⟩

/-- The inverted value map of the example: the clone of `f` has the pool
descriptor formal 0; its formal 1 goes back to the formal 0 of `f`. -/
theorem exClone_newToOld :
    mapFind ((MakeFunctionClone exOracle
        (clonePhase exOracle [] (planned exOracle exModule, [])).1
        0).2.funcInfo 0).NewToOldValueMap (Value.argument 7 1) = some (Value.argument 0 0) ∧
      mapFind ((MakeFunctionClone exOracle
        (clonePhase exOracle [] (planned exOracle exModule, [])).1
        0).2.funcInfo 0).NewToOldValueMap (Value.argument 7 0) = none := by
  decide


end PoolAlloc
